import Mathlib

/-!
Verification development for the ModernRetroRomManager metadata engine
(`src-tauri/src/scraper/`): the Pegasus text codec, the matching engine,
the CJK-aware similarity scorer and the provider orchestrator
(`ScraperManager`).

Modelling conventions, used throughout:

* Rust `String`/`&str` values are modelled as `List Char` (`Str`).  Rust
  indexes strings by UTF-8 byte offsets; every slice taken by the code under
  study cuts at a character boundary of a matched ASCII or fixed literal, so
  character counting is faithful.
* Rust's Unicode case conversion and `char::is_whitespace` are modelled on
  their ASCII fragment (`Char.toLower`, `Char.isWhitespace`); every character
  class decision taken by the code on non-ASCII text is identity/false there,
  which agrees with Unicode for the CJK characters involved.
* `f32`/`f64` arithmetic is modelled over `ℚ` (exact constants); the only
  floating-point behaviour any claim depends on is `partial_cmp` returning
  `None` on NaN, modelled explicitly by `FVal`.
* `HashMap`/`HashSet` values are modelled by canonical lists (key-sorted
  association lists, membership lists); async `join_all` preserves the order
  of the spawned futures, so fan-out results are modelled as mapped lists.
-/

namespace MRRM

abbrev Str := List Char

/-- Rust `str::to_lowercase`, on its ASCII fragment (identity on CJK). -/
def strLower (s : Str) : Str := s.map Char.toLower

/-- Rust `str::trim_start`. -/
def trimStart (s : Str) : Str := s.dropWhile Char.isWhitespace

/-- Rust trailing-whitespace removal (the second half of `str::trim`). -/
def trimEnd (s : Str) : Str := (s.reverse.dropWhile Char.isWhitespace).reverse

/-- Rust `str::trim`. -/
def trim (s : Str) : Str := trimEnd (trimStart s)

/-- Rust `str::find(c)` together with the split it is used for: the part
before the first occurrence of `c` and the part after it. -/
def splitFirst (c : Char) : Str → Option (Str × Str)
  | [] => none
  | x :: xs =>
    if x = c then some ([], xs)
    else (splitFirst c xs).map (fun p => (x :: p.1, p.2))

/-- Split at every occurrence of `c` (the pieces between separators). -/
def splitOnChar (c : Char) : Str → List Str
  | [] => [[]]
  | x :: xs =>
    let r := splitOnChar c xs
    if x = c then [] :: r
    else
      match r with
      | [] => [[x]]
      | l :: ls => (x :: l) :: ls

/-- Strip one trailing carriage return (Rust `lines()` handles `\r\n`). -/
def stripCR (l : Str) : Str := if l.getLast? = some '\r' then l.dropLast else l

/-- Rust `str::lines()`: split on `\n`, no entry for a final line ending,
and a trailing `\r` of each line removed. -/
def rustLines (s : Str) : List Str :=
  let ps := splitOnChar '\n' s
  (if ps.getLast? = some [] then ps.dropLast else ps).map stripCR

/-- Join lines, each terminated by `\n` (how the exporter builds output). -/
def joinLines (ls : List Str) : Str := (ls.map (fun l => l ++ ['\n'])).flatten

/-- Rust `str::split_whitespace`: maximal non-whitespace runs. -/
def splitWs : Str → List Str
  | [] => []
  | c :: cs =>
    if c.isWhitespace then splitWs cs
    else
      match cs with
      | [] => [[c]]
      | d :: _ =>
        if d.isWhitespace then [c] :: splitWs cs
        else
          match splitWs cs with
          | [] => [[c]]
          | w :: ws => (c :: w) :: ws

/-- `Vec::join(" ")`. -/
def joinSpace : List Str → Str
  | [] => []
  | [w] => w
  | w :: ws => w ++ ' ' :: joinSpace ws

/-- Lexicographic order on strings (Rust `Ord` for `String`; UTF-8 byte
order and code-point order agree). -/
def strLt : Str → Str → Bool
  | [], [] => false
  | [], _ :: _ => true
  | _ :: _, [] => false
  | a :: as, b :: bs => if a < b then true else if b < a then false else strLt as bs

/-- `HashMap::insert` on the canonical key-sorted association-list model of
`HashMap<String, String>`. -/
def insertExtra (k v : Str) : List (Str × Str) → List (Str × Str)
  | [] => [(k, v)]
  | (k', v') :: rest =>
    if k = k' then (k, v) :: rest
    else if strLt k k' then (k, v) :: (k', v') :: rest
    else (k', v') :: insertExtra k v rest

/-- Rust `str::replace('\n', " ")`. -/
def replaceNl (s : Str) : Str := s.map (fun c => if c = '\n' then ' ' else c)

/-! ## Matching engine (`scraper/matcher.rs`) -/

/-- The extension list of `normalize_game_name`. -/
def romExtensions : List Str :=
  [".zip".toList, ".7z".toList, ".rar".toList, ".iso".toList, ".bin".toList,
   ".cue".toList, ".nes".toList, ".sfc".toList, ".smc".toList, ".gba".toList,
   ".gb".toList, ".gbc".toList, ".n64".toList, ".z64".toList, ".v64".toList,
   ".nds".toList, ".3ds".toList, ".cia".toList, ".xci".toList, ".nsp".toList,
   ".pbp".toList, ".chd".toList]

/-- One iteration of the bracket-removal `while let` loop of
`normalize_game_name`: find the first `bra`; find the first `ket` after it
(the search starts at the `bra` itself, whose character is not `ket`);
if both are found, delete the whole bracketed span, else the loop breaks
(`none`). -/
def removeStep (bra ket : Char) (s : Str) : Option Str :=
  (splitFirst bra s).bind (fun p => (splitFirst ket p.2).map (fun q => p.1 ++ q.2))

/-- The bracket-removal `while let` loop.  Each iteration removes at least
two characters, so `s.length` steps of fuel always suffice. -/
def removeDelimGo (bra ket : Char) : Nat → Str → Str
  | 0, s => s
  | n + 1, s =>
    match removeStep bra ket s with
    | none => s
    | some t => removeDelimGo bra ket n t

/-- The bracket-removal loop of `normalize_game_name`. -/
def removeDelim (bra ket : Char) (s : Str) : Str := removeDelimGo bra ket s.length s

/-- One iteration of the extension-stripping `for` loop:
`if result.to_lowercase().ends_with(ext) { truncate by ext.len() }`. -/
def stripOneExt (r : Str) (ext : Str) : Str :=
  if ext.isSuffixOf (strLower r) then r.take (r.length - ext.length) else r

/-- The extension-stripping loop of `normalize_game_name`. -/
def stripExtensions (s : Str) : Str := romExtensions.foldl stripOneExt s

/-- The whitespace cleanup of `normalize_game_name`:
`split_whitespace().join(" ")` followed by `trim`. -/
def cleanupWs (s : Str) : Str := trim (joinSpace (splitWs s))

/-- `matcher::normalize_game_name`. -/
def normalize_game_name (s : Str) : Str :=
  cleanupWs (stripExtensions (removeDelim '[' ']' (removeDelim '(' ')' s)))

/-- Rust `char::eq_ignore_ascii_case`. -/
def eqIgnoreAsciiCase (a b : Char) : Bool := a.toLower == b.toLower

/-- The inner `for j in start..end` search of `jaro_similarity`: the first
index `j` with `!s2_matches[j] && s2[j] == c`. -/
def jaroFindMatch (c2 : List Char) (m2 : List Bool) (c : Char) (start stop : Nat) :
    Option Nat :=
  (List.range' start (stop - start)).find?
    (fun j => !(m2.getD j true) && (c2.getD j ' ' == c))

/-- The matching phase of `jaro_similarity`: walk `s1`, marking for each
character the first unmatched `s2` character equal to it within the match
window; returns the two mark vectors and the match count. -/
def jaroMatchFold (c1 c2 : List Char) (md : Nat) : List Bool × List Bool × Nat :=
  (List.range c1.length).foldl
    (fun st i =>
      match jaroFindMatch c2 st.2.1 (c1.getD i ' ') (i - md) (min (i + md + 1) c2.length) with
      | none => st
      | some j => (st.1.set i true, st.2.1.set j true, st.2.2 + 1))
    (List.replicate c1.length false, List.replicate c2.length false, 0)

/-- `matcher::jaro_similarity`.  The transposition phase pairs the n-th
matched index of `s1` with the n-th matched index of `s2` (the source's
`k`-pointer walk) and counts character mismatches. -/
def jaro_similarity (s1 s2 : Str) : ℚ :=
  if s1.isEmpty && s2.isEmpty then 1
  else if s1.isEmpty || s2.isEmpty then 0
  else
    let c1 := strLower s1
    let c2 := strLower s2
    let md := (max c1.length c2.length) / 2 - 1
    let res := jaroMatchFold c1 c2 md
    let mcount := res.2.2
    if mcount = 0 then 0
    else
      let idx1 := (List.range c1.length).filter (fun i => res.1.getD i false)
      let idx2 := (List.range c2.length).filter (fun j => res.2.1.getD j false)
      let t := ((idx1.zip idx2).filter
        (fun p => !(c1.getD p.1 ' ' == c2.getD p.2 ' '))).length
      let m : ℚ := mcount
      (m / c1.length + m / c2.length + (m - (t : ℚ) / 2) / m) / 3

/-- `matcher::jaro_winkler_similarity`: Jaro similarity with the Winkler
common-prefix bonus (at most 4 characters, weight 0.1), clamped to 1. -/
def jaro_winkler_similarity (s1 s2 : Str) : ℚ :=
  let jaro := jaro_similarity s1 s2
  let plen := (((s1.zip s2).take 4).takeWhile (fun p => eqIgnoreAsciiCase p.1 p.2)).length
  min (jaro + (plen : ℚ) * (1 / 10) * (1 - jaro)) 1

/-! ## CJK-aware scorer (`scraper/local_cn.rs`) -/

/-- Rust `str::contains(&str)`: `strContains needle hay` is true when
`needle` occurs contiguously in `hay`. -/
def strContains (needle : Str) : Str → Bool
  | [] => needle.isPrefixOf []
  | c :: t => needle.isPrefixOf (c :: t) || strContains needle t

/-- The accumulator loop of `local_cn::extract_numbers`. -/
def extractNumbersGo : Str → Str → List Str
  | [], cur => if cur.isEmpty then [] else [cur]
  | c :: cs, cur =>
    if c.isDigit then extractNumbersGo cs (cur ++ [c])
    else if cur.isEmpty then extractNumbersGo cs []
    else cur :: extractNumbersGo cs []

/-- `local_cn::extract_numbers`: all maximal ASCII-digit runs, in order. -/
def extract_numbers (s : Str) : List Str := extractNumbersGo s []

/-- `local_cn::remove_numbers`. -/
def remove_numbers (s : Str) : Str := s.filter (fun c => !c.isDigit)

/-- `local_cn::remove_english`. -/
def remove_english (s : Str) : Str := s.filter (fun c => !c.isAlpha)

/-- `local_cn::extract_english`. -/
def extract_english (s : Str) : Str := s.filter (fun c => c.isAlpha)

/-- The accumulator loop of `local_cn::extract_abbreviation`
(`prev_was_lower` state threaded through). -/
def extractAbbrGo : Str → Str → Bool → Str
  | [], abbr, _ => abbr
  | c :: cs, abbr, prevLower =>
    if c.isUpper then extractAbbrGo cs (abbr ++ [c]) false
    else if c.isLower then
      if ¬ prevLower ∧ abbr.isEmpty then extractAbbrGo cs (abbr ++ [c.toUpper]) true
      else extractAbbrGo cs abbr true
    else extractAbbrGo cs abbr false

/-- `local_cn::extract_abbreviation`. -/
def extract_abbreviation (s : Str) : Str := extractAbbrGo s [] false

/-- `local_cn::to_pinyin_string`.  The `pinyin` crate's transliteration
table is external to this repository; it is passed as a parameter
(`none` for a character with no Pinyin). -/
def to_pinyin_string (pinyinOf : Char → Option Str) (s : Str) : Str :=
  s.flatMap (fun c => match pinyinOf c with | some p => p | none => [c])

/-- `local_cn::jaccard_char_similarity`: Jaccard similarity of the
non-whitespace character sets. -/
def jaccard_char_similarity (s1 s2 : Str) : ℚ :=
  let c1 := (s1.filter (fun c => !c.isWhitespace)).toFinset
  let c2 := (s2.filter (fun c => !c.isWhitespace)).toFinset
  if c1 = ∅ ∧ c2 = ∅ then 1
  else
    let inter := (c1 ∩ c2).card
    let uni := (c1 ∪ c2).card
    if uni = 0 then 0 else (inter : ℚ) / uni

/-- `local_cn::pinyin_jaccard_similarity`: Jaccard similarity of the
ASCII-letter character sets of the Pinyin transliterations. -/
def pinyin_jaccard_similarity (pinyinOf : Char → Option Str) (s1 s2 : Str) : ℚ :=
  let py1 := to_pinyin_string pinyinOf s1
  let py2 := to_pinyin_string pinyinOf s2
  let c1 := (py1.filter (fun c => c.isAlpha)).toFinset
  let c2 := (py2.filter (fun c => c.isAlpha)).toFinset
  if c1 = ∅ ∧ c2 = ∅ then 1
  else
    let inter := (c1 ∩ c2).card
    let uni := (c1 ∪ c2).card
    if uni = 0 then 0 else (inter : ℚ) / uni

/-- The substitution of `local_cn::normalize_homophones`: the source chains
27 single-character `str::replace` calls; every pattern character is
distinct from every replacement character, so the chain equals one
simultaneous per-character substitution. -/
def homophoneSubst (c : Char) : Char :=
  if c = '非' then '菲' else if c = '飛' then '飞' else if c = '極' then '极'
  else if c = '戰' then '战' else if c = '傳' then '传' else if c = '説' then '说'
  else if c = '機' then '机' else if c = '車' then '车' else if c = '東' then '东'
  else if c = '島' then '岛' else if c = '國' then '国' else if c = '龍' then '龙'
  else if c = '馬' then '马' else if c = '電' then '电' else if c = '記' then '记'
  else if c = '時' then '时' else if c = '開' then '开' else if c = '門' then '门'
  else if c = '見' then '见' else if c = '長' then '长' else if c = '無' then '无'
  else if c = '為' then '为' else if c = '從' then '从' else if c = '頭' then '头'
  else if c = '實' then '实' else if c = '樂' then '乐' else c

/-- `local_cn::normalize_homophones`. -/
def normalize_homophones (s : Str) : Str := s.map homophoneSubst

/-- The fixed brand-localization strip list of
`local_cn::remove_common_prefixes`. -/
def cnBrandMarks : List Str :=
  ["神游".toList, "神遊".toList, "ique".toList, "iQue".toList]

/-- `local_cn::remove_common_prefixes`: strip the first matching brand mark
(the source's `result[prefix.len()..]` byte count equals the pattern's
character count here, since the case mapping is length-preserving), then
`trim_start`; `break` after the first hit. -/
def remove_common_prefixes (s : Str) : Str :=
  match cnBrandMarks.find? (fun p => (strLower p).isPrefixOf (strLower s)) with
  | some p => trimStart (s.drop p.length)
  | none => s

/-- `local_cn::smart_cn_similarity`. -/
def smart_cn_similarity (pinyinOf : Char → Option Str) (query target : Str) : ℚ :=
  let query_clean := remove_common_prefixes query
  let target_clean := remove_common_prefixes target
  let query_normalized := normalize_homophones (strLower query_clean)
  let target_normalized := normalize_homophones (strLower target_clean)
  let query_nums := extract_numbers query_normalized
  let target_nums := extract_numbers target_normalized
  let num_match :=
    if ¬ query_nums.isEmpty ∧ ¬ target_nums.isEmpty then
      query_nums.any (fun qn => target_nums.contains qn)
    else true
  if ¬ num_match then 0
  else
    let query_eng := extract_english query_normalized
    let target_eng := extract_english target_normalized
    let query_abbr := extract_abbreviation query_clean
    let eng_abbr_match :=
      if ¬ query_eng.isEmpty ∧ ¬ target_eng.isEmpty then
        strLower query_eng == strLower target_eng
          || strLower query_abbr == strLower target_eng
          || strLower query_eng == strLower (extract_abbreviation target_clean)
      else false
    let query_cn_core := remove_english (remove_numbers query_normalized)
    let target_cn_core := remove_english (remove_numbers target_normalized)
    let jaccard_score := jaccard_char_similarity query_cn_core target_cn_core
    let pinyin_score := pinyin_jaccard_similarity pinyinOf query_cn_core target_cn_core
    let jw_score := jaro_winkler_similarity query_cn_core target_cn_core
    let is_substring :=
      strContains target_cn_core query_cn_core || strContains query_cn_core target_cn_core
    let final0 := max (max jaccard_score pinyin_score) jw_score
    let final1 := if eng_abbr_match ∧ final0 > 1/2 then max final0 (95/100) else final0
    let final2 := if is_substring ∧ final1 > 1/2 then max final1 (9/10) else final1
    if jaccard_score > 4/5 ∨ pinyin_score > 4/5 then max final2 (85/100) else final2

instance exceptDecEq {ε α : Type} [DecidableEq ε] [DecidableEq α] :
    DecidableEq (Except ε α) := fun a b =>
  match a, b with
  | .ok x, .ok y =>
    if h : x = y then isTrue (h ▸ rfl) else isFalse (fun hc => h (Except.ok.inj hc))
  | .error x, .error y =>
    if h : x = y then isTrue (h ▸ rfl) else isFalse (fun hc => h (Except.error.inj hc))
  | .ok _, .error _ => isFalse (fun hc => Except.noConfusion hc)
  | .error _, .ok _ => isFalse (fun hc => Except.noConfusion hc)

/-! ## Pegasus metadata codec (`scraper/pegasus.rs`)

File contents are modelled as already-decoded text (`Str`); the byte-level
encoding detection of `decode_bytes_to_string` is outside the claims. -/

/-- `pegasus::PegasusCollection`. -/
structure PegasusCollection where
  name : Str
  short_name : Option Str := none
  extensions : List Str := []
  files : List Str := []
  ignore_files : List Str := []
  launch_command : Option Str := none
  workdir : Option Str := none
deriving DecidableEq, Repr

/-- `pegasus::PegasusGame`.  The `extra : HashMap<String, String>` field is
modelled as its canonical key-sorted association list. -/
structure PegasusGame where
  name : Str := []
  file : Option Str := none
  files : List Str := []
  developer : Option Str := none
  publisher : Option Str := none
  genre : Option Str := none
  players : Option Str := none
  summary : Option Str := none
  description : Option Str := none
  release : Option Str := none
  rating : Option Str := none
  sort_title : Option Str := none
  box_front : Option Str := none
  box_back : Option Str := none
  box_spine : Option Str := none
  box_full : Option Str := none
  cartridge : Option Str := none
  logo : Option Str := none
  marquee : Option Str := none
  bezel : Option Str := none
  gridicon : Option Str := none
  flyer : Option Str := none
  background : Option Str := none
  music : Option Str := none
  screenshot : Option Str := none
  titlescreen : Option Str := none
  video : Option Str := none
  extra : List (Str × Str) := []
deriving DecidableEq, Repr

/-- `pegasus::PegasusMetadata`. -/
structure PegasusMetadata where
  collections : List PegasusCollection := []
  games : List PegasusGame := []
deriving DecidableEq, Repr

/-- `pegasus::apply_key_value`: apply one `key: value` pair to the open
records; a `Game` takes precedence over a `Collection` (the source's early
`return`); with neither open, nothing happens. -/
def applyKV (key value : Str) (collection : Option PegasusCollection)
    (game : Option PegasusGame) : Option PegasusCollection × Option PegasusGame :=
  let k := strLower key
  match game with
  | some g =>
    let fv := (splitWs value).head?
    let g' :=
      if k = "file".toList then { g with file := some value }
      else if k = "files".toList then { g with files := splitWs value }
      else if k = "developer".toList ∨ k = "developers".toList then
        { g with developer := some value }
      else if k = "publisher".toList ∨ k = "publishers".toList then
        { g with publisher := some value }
      else if k = "genre".toList ∨ k = "genres".toList then { g with genre := some value }
      else if k = "players".toList then { g with players := some value }
      else if k = "summary".toList then { g with summary := some value }
      else if k = "description".toList then { g with description := some value }
      else if k = "release".toList then { g with release := some value }
      else if k = "rating".toList then { g with rating := some value }
      else if k = "sort_title".toList ∨ k = "sort_name".toList ∨ k = "sort-by".toList then
        { g with sort_title := some value }
      else if k = "assets.boxfront".toList ∨ k = "assets.box_front".toList
          ∨ k = "assets.boxart2d".toList ∨ k = "boxart".toList ∨ k = "cover".toList then
        { g with box_front := fv }
      else if k = "assets.boxback".toList ∨ k = "assets.box_back".toList then
        { g with box_back := fv }
      else if k = "assets.boxspine".toList ∨ k = "assets.box_spine".toList then
        { g with box_spine := fv }
      else if k = "assets.boxfull".toList ∨ k = "assets.box_full".toList then
        { g with box_full := fv }
      else if k = "assets.cartridge".toList ∨ k = "assets.disc".toList
          ∨ k = "assets.cart".toList then
        { g with cartridge := fv }
      else if k = "assets.logo".toList ∨ k = "assets.wheel".toList then
        { g with logo := fv }
      else if k = "assets.marquee".toList ∨ k = "assets.banner".toList then
        { g with marquee := fv }
      else if k = "assets.bezel".toList ∨ k = "assets.screenmarquee".toList then
        { g with bezel := fv }
      else if k = "assets.gridicon".toList ∨ k = "assets.steam".toList
          ∨ k = "assets.poster".toList then
        { g with gridicon := fv }
      else if k = "assets.flyer".toList then { g with flyer := fv }
      else if k = "assets.background".toList ∨ k = "assets.fanart".toList then
        { g with background := fv }
      else if k = "assets.music".toList then { g with music := fv }
      else if k = "assets.screenshot".toList ∨ k = "assets.screenshots".toList then
        { g with screenshot := fv }
      else if k = "assets.titlescreen".toList ∨ k = "assets.title_screen".toList then
        { g with titlescreen := fv }
      else if k = "assets.video".toList ∨ k = "assets.videos".toList then
        { g with video := fv }
      else if k = "x-english-name".toList then
        { g with extra := insertExtra ("x-english-name".toList) value g.extra }
      else if ("x-".toList).isPrefixOf k then
        { g with extra := insertExtra k value g.extra }
      else g
    (collection, some g')
  | none =>
    match collection with
    | some c =>
      let c' :=
        if k = "shortname".toList ∨ k = "short_name".toList then
          { c with short_name := some value }
        else if k = "extension".toList ∨ k = "extensions".toList then
          { c with extensions := splitWs value }
        else if k = "files".toList then { c with files := splitWs value }
        else if k = "ignore-file".toList ∨ k = "ignore-files".toList then
          { c with ignore_files := splitWs value }
        else if k = "launch".toList ∨ k = "command".toList then
          { c with launch_command := some value }
        else if k = "workdir".toList ∨ k = "cwd".toList then
          { c with workdir := some value }
        else c
      (some c', none)
    | none => (none, none)

/-- The loop state of `parse_pegasus_content` (`result`, the two open
records and the pending key/value pair). -/
structure ParseState where
  collections : List PegasusCollection := []
  games : List PegasusGame := []
  curColl : Option PegasusCollection := none
  curGame : Option PegasusGame := none
  curKey : Option Str := none
  curVal : Str := []
deriving DecidableEq, Repr

/-- `if let Some(key) = current_key.take() { apply_key_value(...) }`. -/
def flushPending (st : ParseState) : ParseState :=
  match st.curKey with
  | none => st
  | some k =>
    let cg := applyKV k st.curVal st.curColl st.curGame
    { st with curColl := cg.1, curGame := cg.2, curKey := none, curVal := [] }

/-- One iteration of the `for line in content.lines()` loop of
`parse_pegasus_content`. -/
def parseStep (st : ParseState) (line : Str) : ParseState :=
  if line.head? = some '#' || (trim line).isEmpty then st
  else if line.head? = some ' ' || line.head? = some '\t' then
    let t := trim line
    if t = ['.'] then { st with curVal := st.curVal ++ ['\n', '\n'] }
    else if st.curVal.isEmpty then { st with curVal := st.curVal ++ t }
    else { st with curVal := st.curVal ++ ' ' :: t }
  else
    let st1 := flushPending st
    match splitFirst ':' line with
    | none => st1
    | some p =>
      let key := strLower (trim p.1)
      let value := trim p.2
      if key = "collection".toList then
        { st1 with
          games := st1.games ++ st1.curGame.toList,
          collections := st1.collections ++ st1.curColl.toList,
          curGame := none,
          curColl := some { name := value } }
      else if key = "game".toList then
        { st1 with
          games := st1.games ++ st1.curGame.toList,
          curGame := some { name := value } }
      else
        { st1 with curKey := some key, curVal := value }

/-- `pegasus::parse_pegasus_content`. -/
def parse_pegasus_content (content : Str) : Except Str PegasusMetadata :=
  let st := (rustLines content).foldl parseStep {}
  let st1 := flushPending st
  Except.ok
    { collections := st1.collections ++ st1.curColl.toList,
      games := st1.games ++ st1.curGame.toList }

/-- `pegasus::PegasusExportOptions`. -/
structure PegasusExportOptions where
  include_collection : Bool := false
  collection_name : Option Str := none
  extensions : Option (List Str) := none
  launch_command : Option Str := none
  workdir : Option Str := none
  include_assets : Bool := false
deriving DecidableEq, Repr

/-- One `key: value` output line. -/
def kvLine (k v : Str) : Str := k ++ ':' :: ' ' :: v

/-- An optional `key: value` output line. -/
def optLine (k : Str) : Option Str → List Str
  | some v => [kvLine k v]
  | none => []

/-- `pegasus::write_multiline_field`, as the list of lines it pushes. -/
def multilineLines (k v : Str) : List Str :=
  match rustLines v with
  | [] => []
  | l0 :: rest =>
    kvLine k l0 :: rest.map (fun l => if l.isEmpty then "  .".toList else ' ' :: ' ' :: l)

/-- The collection header emitted by `export_to_pegasus` (the final
`output.push('\n')` is the trailing empty line). -/
def collectionHeaderLines (o : PegasusExportOptions) : List Str :=
  if o.include_collection then
    (match o.collection_name with
     | some n => [kvLine ("collection".toList) n]
     | none => [])
    ++ (match o.extensions with
        | some exts =>
          if ¬ exts.isEmpty then [kvLine ("extensions".toList) (joinSpace exts)] else []
        | none => [])
    ++ optLine ("launch".toList) o.launch_command
    ++ optLine ("workdir".toList) o.workdir
    ++ [[]]
  else []

/-- The per-game block emitted by `export_to_pegasus`, in source order;
`extra` is iterated in its (canonically sorted) key order, exactly the
source's `extra_keys.sort()`. -/
def gameLines (o : PegasusExportOptions) (g : PegasusGame) : List Str :=
  [kvLine ("game".toList) g.name]
  ++ (match g.sort_title with
      | some st => if st ≠ g.name then [kvLine ("sort-by".toList) st] else []
      | none => [])
  ++ optLine ("file".toList) g.file
  ++ g.files.map (fun f => kvLine ("file".toList) f)
  ++ optLine ("developer".toList) g.developer
  ++ optLine ("publisher".toList) g.publisher
  ++ optLine ("genre".toList) g.genre
  ++ optLine ("players".toList) g.players
  ++ optLine ("release".toList) g.release
  ++ optLine ("rating".toList) g.rating
  ++ (match g.summary with
      | some s => [kvLine ("summary".toList) (replaceNl s)]
      | none => [])
  ++ (match g.description with
      | some d => multilineLines ("description".toList) d
      | none => [])
  ++ (if o.include_assets then
        optLine ("assets.boxFront".toList) g.box_front
        ++ optLine ("assets.boxBack".toList) g.box_back
        ++ optLine ("assets.boxSpine".toList) g.box_spine
        ++ optLine ("assets.boxFull".toList) g.box_full
        ++ optLine ("assets.cartridge".toList) g.cartridge
        ++ optLine ("assets.logo".toList) g.logo
        ++ optLine ("assets.marquee".toList) g.marquee
        ++ optLine ("assets.bezel".toList) g.bezel
        ++ optLine ("assets.gridicon".toList) g.gridicon
        ++ optLine ("assets.flyer".toList) g.flyer
        ++ optLine ("assets.background".toList) g.background
        ++ optLine ("assets.music".toList) g.music
        ++ optLine ("assets.screenshot".toList) g.screenshot
        ++ optLine ("assets.titlescreen".toList) g.titlescreen
        ++ optLine ("assets.video".toList) g.video
      else [])
  ++ g.extra.map (fun kv => kvLine kv.1 kv.2)
  ++ [[]]

/-- All lines emitted by `export_to_pegasus`. -/
def exportLines (games : List PegasusGame) (o : PegasusExportOptions) : List Str :=
  collectionHeaderLines o ++ games.flatMap (gameLines o)

/-- `pegasus::export_to_pegasus` (every source `push_str` ends in `\n`, so
the output is the `\n`-join of the line list). -/
def export_to_pegasus (games : List PegasusGame) (o : PegasusExportOptions) : Str :=
  joinLines (exportLines games o)

/-- The `find` condition of the merge loop of `write_pegasus_file`:
`g.file.as_ref() == Some(key) || g.files.contains(key)`. -/
def gameMatchesKey (key : Str) (g : PegasusGame) : Bool :=
  g.file == some key || g.files.contains key

/-- The in-place field merge of `write_pegasus_file` (new values take
precedence).  Only `name` (when non-empty), the nine scalar `Some` fields,
`sort_title`, the extension map, and the six asset fields `box_front`,
`box_back`, `logo`, `screenshot`, `video`, `background` are merged; the
remaining asset fields and `file`/`files` of the existing record are left
untouched, exactly as in the source. -/
def mergeGameInto (old new : PegasusGame) : PegasusGame :=
  { old with
    name := if ¬ new.name.isEmpty then new.name else old.name,
    developer := if new.developer.isSome then new.developer else old.developer,
    publisher := if new.publisher.isSome then new.publisher else old.publisher,
    genre := if new.genre.isSome then new.genre else old.genre,
    players := if new.players.isSome then new.players else old.players,
    summary := if new.summary.isSome then new.summary else old.summary,
    description := if new.description.isSome then new.description else old.description,
    release := if new.release.isSome then new.release else old.release,
    rating := if new.rating.isSome then new.rating else old.rating,
    sort_title := if new.sort_title.isSome then new.sort_title else old.sort_title,
    extra := new.extra.foldl (fun acc kv => insertExtra kv.1 kv.2 acc) old.extra,
    box_front := if new.box_front.isSome then new.box_front else old.box_front,
    box_back := if new.box_back.isSome then new.box_back else old.box_back,
    logo := if new.logo.isSome then new.logo else old.logo,
    screenshot := if new.screenshot.isSome then new.screenshot else old.screenshot,
    video := if new.video.isSome then new.video else old.video,
    background := if new.background.isSome then new.background else old.background }

/-- `merged_games.iter_mut().find(...)` followed by the in-place update:
rewrite the first matching game, leave the list unchanged when none
matches. -/
def updateFirstMatch (key : Str) (new : PegasusGame) : List PegasusGame → List PegasusGame
  | [] => []
  | g :: gs =>
    if gameMatchesKey key g then mergeGameInto g new :: gs
    else g :: updateFirstMatch key new gs

/-- The `existing_files` set (`file` plus every `files` entry of the
existing games), modelled as a membership list. -/
def existingFileKeys (games : List PegasusGame) : List Str :=
  games.foldl (fun acc g => acc ++ g.file.toList ++ g.files) []

/-- The merge loop of `write_pegasus_file`: start from the parsed existing
games; for each new game with a file key, update the first match in place
when the key is among the existing file keys, else append; a new game
without a file key is always appended. -/
def mergeGames (existing news : List PegasusGame) : List PegasusGame :=
  let keys := existingFileKeys existing
  news.foldl
    (fun merged ng =>
      match ng.file.or ng.files.head? with
      | some key =>
        if keys.contains key then updateFirstMatch key ng merged
        else merged ++ [ng]
      | none => merged ++ [ng])
    existing

/-- `pegasus::write_pegasus_file`, with the filesystem modelled explicitly:
`existing` is the current file content (`none` when the path does not
exist) and the result is the content written back. -/
def write_pegasus_content (existing : Option Str) (games : List PegasusGame)
    (options : PegasusExportOptions) (merge : Bool) : Except Str Str :=
  match existing, merge with
  | some content, true =>
    match parse_pegasus_content content with
    | .error e => .error e
    | .ok md => .ok (export_to_pegasus (mergeGames md.games games) options)
  | some _, false => .ok (export_to_pegasus games options)
  | none, _ => .ok (export_to_pegasus games options)

/-! ## Orchestrator (`scraper/manager.rs`, `scraper/types.rs`) -/

/-- `types::ProviderCapability`. -/
inductive ProviderCapability where
  | search
  | hashLookup
  | metadata
  | media
deriving DecidableEq, Repr

/-- An `f32` value: either NaN or a finite value (modelled over `ℚ`).
`partial_cmp` returns `none` exactly when an operand is NaN. -/
inductive FVal where
  | nan
  | fin (q : ℚ)
deriving DecidableEq, Repr

/-- `f32::partial_cmp`. -/
def fpartialCmp : FVal → FVal → Option Ordering
  | .fin a, .fin b => some (if a < b then .lt else if b < a then .gt else .eq)
  | _, _ => none

/-- `types::SearchResult`. -/
structure SearchResult where
  provider : String
  source_id : String
  name : String
  year : Option String := none
  system : Option String := none
  thumbnail : Option String := none
  confidence : FVal
deriving DecidableEq, Repr

/-- `types::GameMetadata` (`rating: f64` modelled over `ℚ`). -/
structure GameMetadata where
  name : String := ""
  english_name : Option String := none
  description : Option String := none
  release_date : Option String := none
  developer : Option String := none
  publisher : Option String := none
  genres : List String := []
  players : Option String := none
  rating : Option ℚ := none
deriving DecidableEq, Repr

/-- `types::MediaType`. -/
inductive MediaType where
  | boxFront
  | boxBack
  | box3d
  | screenshot
  | titleScreen
  | logo
  | icon
  | hero
  | banner
  | video
  | manual
  | other
deriving DecidableEq, Repr

/-- `types::MediaAsset`. -/
structure MediaAsset where
  provider : String
  url : String
  asset_type : MediaType
  width : Option Nat := none
  height : Option Nat := none
deriving DecidableEq, Repr

/-- `types::ScrapeResult`. -/
structure ScrapeResult where
  metadata : GameMetadata
  media : List MediaAsset
  sources : List String
deriving DecidableEq, Repr

/-- A `ScraperProvider` trait object.  The query and hash arguments of
`search`/`lookup_by_hash` are fixed by the surrounding scenario, so those
responses are modelled as constants; `get_metadata`/`get_media` responses
are functions of the `source_id` they receive. -/
structure Provider where
  pid : String
  caps : List ProviderCapability
  searchR : Except String (List SearchResult)
  hashR : Except String (Option SearchResult)
  metadataR : String → Except String GameMetadata
  mediaR : String → Except String (List MediaAsset)

/-- `manager::ProviderConfig` with its `Default` impl. -/
structure ProviderConfig where
  enabled : Bool := true
  priority : Nat := 100
deriving DecidableEq, Repr

/-- One registered provider with its configuration.  The source keeps two
`HashMap`s keyed by the provider id (`providers` and `configs`), inserted
and removed in lockstep; they are modelled as one association list whose
order stands for the unspecified map iteration order. -/
structure ManagerEntry where
  provider : Provider
  config : ProviderConfig

/-- `manager::ScraperManager`. -/
structure ScraperManager where
  entries : List ManagerEntry := []

/-- Insertion step of a stable sort by priority (equal keys keep their
original relative order, like Rust's stable `sort_by_key`). -/
def insertByPriority (x : Nat × Provider) : List (Nat × Provider) → List (Nat × Provider)
  | [] => [x]
  | y :: ys => if x.1 < y.1 then x :: y :: ys else y :: insertByPriority x ys

/-- Stable sort by priority key. -/
def sortByPriority (l : List (Nat × Provider)) : List (Nat × Provider) :=
  l.foldr insertByPriority []

/-- The filtered `(priority, provider)` list of
`manager::enabled_providers`, sorted by priority. -/
def enabledWithPriority (m : ScraperManager) : List (Nat × Provider) :=
  sortByPriority ((m.entries.filter (fun e => e.config.enabled)).map
    (fun e => (e.config.priority, e.provider)))

/-- `manager::enabled_providers`. -/
def enabled_providers (m : ScraperManager) : List Provider :=
  (enabledWithPriority m).map (fun p => p.2)

/-- `Result::ok()`. -/
def exceptOk {α : Type} : Except String α → Option α
  | .ok a => some a
  | .error _ => none

/-- `manager::search`: fan out to every enabled `Search`-capable provider
(`join_all` preserves the order of the spawned futures), keep the `Ok`
responses, concatenate. -/
def search (m : ScraperManager) : List SearchResult :=
  ((((enabled_providers m).filter
      (fun p => p.caps.contains ProviderCapability.search)).map
    (fun p => p.searchR)).filterMap exceptOk).flatten

/-- The sequential `for provider in …` loop of `manager::lookup_by_hash`:
first `Ok(Some(_))` wins; an `Err` or `Ok(None)` falls through. -/
def lookupByHashGo : List Provider → Option SearchResult
  | [] => none
  | p :: ps =>
    match p.hashR with
    | .ok (some r) => some r
    | _ => lookupByHashGo ps

/-- `manager::lookup_by_hash`. -/
def lookup_by_hash (m : ScraperManager) : Option SearchResult :=
  lookupByHashGo ((enabled_providers m).filter
    (fun p => p.caps.contains ProviderCapability.hashLookup))

/-- The per-provider body of `manager::merge_metadata`: fill each still
empty scalar field, accumulate de-duplicated genres. -/
def mergeOneMetadata (acc md : GameMetadata) : GameMetadata :=
  { name := if acc.name = "" then md.name else acc.name,
    english_name :=
      if acc.english_name.isNone ∧ md.english_name.isSome then md.english_name
      else acc.english_name,
    description :=
      if acc.description.isNone ∧ md.description.isSome then md.description
      else acc.description,
    release_date :=
      if acc.release_date.isNone ∧ md.release_date.isSome then md.release_date
      else acc.release_date,
    developer :=
      if acc.developer.isNone ∧ md.developer.isSome then md.developer else acc.developer,
    publisher :=
      if acc.publisher.isNone ∧ md.publisher.isSome then md.publisher else acc.publisher,
    players := if acc.players.isNone ∧ md.players.isSome then md.players else acc.players,
    rating := if acc.rating.isNone ∧ md.rating.isSome then md.rating else acc.rating,
    genres := md.genres.foldl (fun gs gnr => if gnr ∈ gs then gs else gs ++ [gnr]) acc.genres }

/-- `manager::merge_metadata`: fold the per-provider results in priority
order, skipping errors; returns the merged metadata and the ids of the
providers that contributed a non-error response. -/
def merge_metadata (results : List (String × Except String GameMetadata)) :
    GameMetadata × List String :=
  results.foldl
    (fun acc pr =>
      match pr.2 with
      | .error _ => acc
      | .ok md => (mergeOneMetadata acc.1 md, acc.2 ++ [pr.1]))
    ({}, [])

/-- `manager::aggregate_metadata`: query every enabled `Metadata`-capable
provider with the best match's `source_id` (futures in priority order,
`join_all` preserving it) and merge. -/
def aggregate_metadata (m : ScraperManager) (best : SearchResult) :
    GameMetadata × List String :=
  merge_metadata (((enabled_providers m).filter
      (fun p => p.caps.contains ProviderCapability.metadata)).map
    (fun p => (p.pid, p.metadataR best.source_id)))

/-- A computation that may hit a Rust `panic!` (here: `Option::unwrap` on
`None`). -/
inductive PanicOr (α : Type) where
  | panicked
  | ok (val : α)
deriving DecidableEq, Repr

/-- One `reduce` step of `Iterator::max_by`: `core::cmp::max_by` keeps the
second element on `Less | Equal` (so the last of equal maxima wins); a
`none` comparison is the `unwrap` panic, which propagates. -/
def maxByStep {α : Type} (cmp : α → α → Option Ordering)
    (acc : PanicOr (Option α)) (x : α) : PanicOr (Option α) :=
  match acc with
  | .panicked => .panicked
  | .ok none => .ok (some x)
  | .ok (some m) =>
    match cmp m x with
    | none => .panicked
    | some .gt => .ok (some m)
    | some _ => .ok (some x)

/-- `Iterator::max_by` with a panicking comparator. -/
def rustMaxBy {α : Type} (cmp : α → α → Option Ordering) (l : List α) :
    PanicOr (Option α) :=
  l.foldl (maxByStep cmp) (.ok none)

/-- The comparator of `scrape`'s best-match selection:
`a.confidence.partial_cmp(&b.confidence).unwrap()`. -/
def cmpByConfidence (a b : SearchResult) : Option Ordering :=
  fpartialCmp a.confidence b.confidence

/-- Steps 3–6 of `manager::scrape` once a best match is fixed: metadata
aggregation, media fan-out (errors dropped, results concatenated), result
assembly. -/
def scrapeWith (m : ScraperManager) (best : SearchResult) : ScrapeResult :=
  let md := aggregate_metadata m best
  let media := ((((enabled_providers m).filter
      (fun p => p.caps.contains ProviderCapability.media)).map
    (fun p => p.mediaR best.source_id)).filterMap exceptOk).flatten
  { metadata := md.1, media := media, sources := md.2 }

/-- `manager::scrape`.  `hashPresent` models `query.hash.is_some()`; the
hash/search responses themselves live in the providers. -/
def scrape (m : ScraperManager) (hashPresent : Bool) :
    PanicOr (Except String ScrapeResult) :=
  let best0 := if hashPresent then lookup_by_hash m else none
  match best0 with
  | some bm => .ok (.ok (scrapeWith m bm))
  | none =>
    let results := search m
    if results.isEmpty then .ok (.error "No results found")
    else
      match rustMaxBy cmpByConfidence results with
      | .panicked => .panicked
      | .ok none => .ok (.error "No results found")
      | .ok (some bm) => .ok (.ok (scrapeWith m bm))

/-- `settings::ScraperConfig`, the persisted per-provider entry; the
credential fields (`api_key` and friends) are never read by `register` and
are omitted. -/
structure ScraperConfig where
  enabled : Bool
  priority : Nat := 100
deriving DecidableEq, Repr

/-- `HashMap::insert` keyed by provider id (replace or append), applied to
the lockstep `providers`/`configs` pair. -/
def insertEntry (e : ManagerEntry) : List ManagerEntry → List ManagerEntry
  | [] => [e]
  | x :: xs => if x.provider.pid = e.provider.pid then e :: xs else x :: insertEntry e xs

/-- `manager::register`.  `get_settings().scrapers` is ambient global
state in the source, modelled as the explicit `settings` argument; when a
saved config exists only its `enabled` flag is taken, the priority is set
to the literal `100` (the source's `priority: 100 // 暂时默认优先级`). -/
def register (m : ScraperManager) (p : Provider)
    (settings : List (String × ScraperConfig)) : ScraperManager :=
  let config :=
    match (settings.find? (fun kv => kv.1 = p.pid)).map (fun kv => kv.2) with
    | some saved => { enabled := saved.enabled, priority := 100 }
    | none => ({} : ProviderConfig)
  { entries := insertEntry { provider := p, config := config } m.entries }

/-- Look up the in-memory config of a registered provider. -/
def configOf (m : ScraperManager) (pid : String) : Option ProviderConfig :=
  (m.entries.find? (fun e => e.provider.pid = pid)).map (fun e => e.config)

/-! ## Specification-side helpers and concrete scenarios -/

/-- The game-level keys recognized by `apply_key_value` (everything not in
this list and not `x-` prefixed is silently dropped). -/
def recognizedGameKeys : List Str :=
  ["file", "files", "developer", "developers", "publisher", "publishers",
   "genre", "genres", "players", "summary", "description", "release",
   "rating", "sort_title", "sort_name", "sort-by",
   "assets.boxfront", "assets.box_front", "assets.boxart2d", "boxart", "cover",
   "assets.boxback", "assets.box_back", "assets.boxspine", "assets.box_spine",
   "assets.boxfull", "assets.box_full",
   "assets.cartridge", "assets.disc", "assets.cart",
   "assets.logo", "assets.wheel", "assets.marquee", "assets.banner",
   "assets.bezel", "assets.screenmarquee",
   "assets.gridicon", "assets.steam", "assets.poster",
   "assets.flyer", "assets.background", "assets.fanart", "assets.music",
   "assets.screenshot", "assets.screenshots",
   "assets.titlescreen", "assets.title_screen",
   "assets.video", "assets.videos", "x-english-name"].map String.toList

/-- Map lookup on the association-list model of the extension map. -/
def lookupExtra (k : Str) (l : List (Str × Str)) : Option Str :=
  (l.find? (fun kv => kv.1 = k)).map (fun kv => kv.2)

/-- The first `some` of a list of options (specification side). -/
def firstSome {α : Type} (l : List (Option α)) : Option α :=
  (l.filterMap id).head?

/-- The first non-empty name of a list, `""` when there is none
(specification side). -/
def firstNonEmptyName (l : List String) : String :=
  ((l.filter (fun n => n ≠ "")).head?).getD ""

/-- Order-preserving de-duplication, first occurrence kept
(specification side). -/
def dedupFirst (l : List String) : List String :=
  l.foldl (fun acc g => if g ∈ acc then acc else acc ++ [g]) []

/-- The metadata payloads of the non-error responses, in order
(specification side). -/
def okMetadatas (results : List (String × Except String GameMetadata)) :
    List GameMetadata :=
  results.filterMap (fun pr => exceptOk pr.2)

/-- The provider ids of the non-error responses, in order
(specification side). -/
def okSources (results : List (String × Except String GameMetadata)) :
    List String :=
  results.filterMap (fun pr => (exceptOk pr.2).map (fun _ => pr.1))

/-- Scenario (C1): an existing metadata file with one game carrying a
`box_spine` asset. -/
def C1oldContent : Str := ("game: A\nfile: f\nassets.boxspine: old\n").toList

/-- Scenario (C1): the game parsed from `C1oldContent`. -/
def C1oldGame : PegasusGame :=
  { name := "A".toList, file := some ("f".toList), box_spine := some ("old".toList) }

/-- Scenario (C1): a new record for the same file key with a fresh
`box_spine`. -/
def C1newGame : PegasusGame :=
  { name := "B".toList, file := some ("f".toList), box_spine := some ("new".toList) }

/-- Scenario (C8): a provider with no capabilities. -/
def C8provider : Provider :=
  { pid := "prov",
    caps := [],
    searchR := Except.ok [],
    hashR := Except.ok none,
    metadataR := fun _ => Except.error "unsupported",
    mediaR := fun _ => Except.ok [] }

/-- Scenario (C4): the hash match each matching provider returns. -/
def C4result (pid : String) : SearchResult :=
  { provider := pid, source_id := pid, name := pid, confidence := FVal.fin 1 }

/-- Scenario (C4): `P1`, hash-capable, no match. -/
def C4p1 : Provider :=
  { pid := "P1",
    caps := [ProviderCapability.hashLookup],
    searchR := Except.ok [],
    hashR := Except.ok none,
    metadataR := fun _ => Except.error "unsupported",
    mediaR := fun _ => Except.ok [] }

/-- Scenario (C4): `P2`, hash-capable, matches. -/
def C4p2 : Provider :=
  { pid := "P2",
    caps := [ProviderCapability.hashLookup],
    searchR := Except.ok [],
    hashR := Except.ok (some (C4result "P2")),
    metadataR := fun _ => Except.error "unsupported",
    mediaR := fun _ => Except.ok [] }

/-- Scenario (C4): `P3`, hash-capable, matches. -/
def C4p3 : Provider :=
  { pid := "P3",
    caps := [ProviderCapability.hashLookup],
    searchR := Except.ok [],
    hashR := Except.ok (some (C4result "P3")),
    metadataR := fun _ => Except.error "unsupported",
    mediaR := fun _ => Except.ok [] }

/-- Scenario (C4): the three providers registered in scrambled map order
with priorities 1, 2, 3. -/
def C4manager : ScraperManager :=
  { entries :=
      [{ provider := C4p3, config := { enabled := true, priority := 3 } },
       { provider := C4p1, config := { enabled := true, priority := 1 } },
       { provider := C4p2, config := { enabled := true, priority := 2 } }] }

/-- Scenario (C5): one registered but disabled provider — zero enabled
providers. -/
def C5manager : ScraperManager :=
  { entries :=
      [{ provider := C4p2, config := { enabled := false, priority := 1 } }] }

/-- Scenario (C9): a search result with the given confidence. -/
def C9result (sid : String) (conf : FVal) : SearchResult :=
  { provider := "P", source_id := sid, name := sid, confidence := conf }

/-- Scenario (C9): one enabled search provider returning a finite-confidence
result followed by a NaN-confidence result. -/
def C9manager : ScraperManager :=
  { entries :=
      [{ provider :=
          { pid := "P",
            caps := [ProviderCapability.search],
            searchR := Except.ok [C9result "a" (FVal.fin (1/2)), C9result "b" FVal.nan],
            hashR := Except.ok none,
            metadataR := fun _ => Except.error "unsupported",
            mediaR := fun _ => Except.ok [] },
         config := { enabled := true, priority := 100 } }] }

/-- Scenario (C2): provider `A`, priority 10, developer only. -/
def C2pA : Provider :=
  { pid := "A",
    caps := [ProviderCapability.metadata],
    searchR := Except.ok [],
    hashR := Except.ok none,
    metadataR := fun _ => Except.ok { developer := some "Nintendo" },
    mediaR := fun _ => Except.ok [] }

/-- Scenario (C2): provider `B`, priority 20, developer and one genre. -/
def C2pB : Provider :=
  { pid := "B",
    caps := [ProviderCapability.metadata],
    searchR := Except.ok [],
    hashR := Except.ok none,
    metadataR := fun _ => Except.ok { developer := some "Other", genres := ["Platform"] },
    mediaR := fun _ => Except.ok [] }

/-- Scenario (C2): both providers registered, `B` first in map order. -/
def C2manager : ScraperManager :=
  { entries :=
      [{ provider := C2pB, config := { enabled := true, priority := 20 } },
       { provider := C2pA, config := { enabled := true, priority := 10 } }] }

/-- Scenario (C2): the best match whose `source_id` is reused for all
providers. -/
def C2best : SearchResult :=
  { provider := "A", source_id := "X", name := "G", confidence := FVal.fin 1 }

/-! ## Codec round-trip apparatus (specification side)

The following definitions restate the line lists emitted by
`export_to_pegasus` as lists of key/value pairs, define the per-record
actions of `apply_key_value`, and name the well-formedness conditions
under which the codec round-trips. -/

/-- A string free of line terminators. -/
def noNl (s : Str) : Prop := ∀ c ∈ s, c ≠ '\n' ∧ c ≠ '\r'

instance noNlDec (s : Str) : Decidable (noNl s) := by
  unfold noNl; infer_instance

/-- A value that survives the parser's `trim` untouched and spans one
line. -/
def plainVal (s : Str) : Prop := trim s = s ∧ noNl s

instance plainValDec (s : Str) : Decidable (plainVal s) := by
  unfold plainVal; infer_instance

/-- An optional `plainVal`. -/
def plainOpt : Option Str → Prop
  | some v => plainVal v
  | none => True

instance plainOptDec (x : Option Str) : Decidable (plainOpt x) := by
  cases x <;> (unfold plainOpt; infer_instance)

/-- A single non-empty whitespace-free token (what
`split_whitespace().next()` reproduces exactly). -/
def tokenVal (s : Str) : Prop := s ≠ [] ∧ ∀ c ∈ s, ¬ c.isWhitespace

instance tokenValDec (s : Str) : Decidable (tokenVal s) := by
  unfold tokenVal; infer_instance

/-- An optional `tokenVal`. -/
def tokenOpt : Option Str → Prop
  | some v => tokenVal v
  | none => True

instance tokenOptDec (x : Option Str) : Decidable (tokenOpt x) := by
  cases x <;> (unfold tokenOpt; infer_instance)

/-- The first character of a key line must exist and must not start a
comment, a blank line or a continuation line. -/
def headOk : Str → Prop
  | [] => False
  | c :: _ => ¬ c.isWhitespace ∧ c ≠ '#'

instance headOkDec (s : Str) : Decidable (headOk s) := by
  cases s <;> (unfold headOk; infer_instance)

/-- Well-formedness of one exported `key: value` pair: the line it prints
is a plain key line that the parser reads back as the same pair. -/
def kvWf (p : Str × Str) : Prop :=
  headOk p.1 ∧ ':' ∉ p.1 ∧
  strLower (trim p.1) ≠ ("collection".toList) ∧
  strLower (trim p.1) ≠ ("game".toList) ∧
  trim (' ' :: p.2) = p.2 ∧ noNl p.1 ∧ noNl p.2

instance kvWfDec (p : Str × Str) : Decidable (kvWf p) := by
  unfold kvWf; infer_instance

/-- A well-formed unrecognized extension key: `x-`-prefixed, lowercase,
trimmed, colon-free, single-line. -/
def extraKeyWf (k : Str) : Prop :=
  ("x-".toList).isPrefixOf k = true ∧ trim k = k ∧ strLower k = k ∧
  ':' ∉ k ∧ noNl k

instance extraKeyWfDec (k : Str) : Decidable (extraKeyWf k) := by
  unfold extraKeyWf; infer_instance

/-- The key/value pair of an optional scalar field. -/
def optPairs (key : Str) : Option Str → List (Str × Str)
  | some v => [(key, v)]
  | none => []

/-- The `sort-by` pair (emitted only when it differs from the name). -/
def sortPairs (nm : Str) : Option Str → List (Str × Str)
  | some st => if st ≠ nm then [("sort-by".toList, st)] else []
  | none => []

/-- The `summary` pair (the exporter flattens newlines). -/
def summaryPairs : Option Str → List (Str × Str)
  | some s => [("summary".toList, replaceNl s)]
  | none => []

/-- The `description` pair of a single-line description. -/
def descPairs : Option Str → List (Str × Str)
  | some d => [("description".toList, d)]
  | none => []

/-- The key/value pairs of one exported game block, in emission order. -/
def gamePairs (o : PegasusExportOptions) (g : PegasusGame) : List (Str × Str) :=
  sortPairs g.name g.sort_title
  ++ optPairs ("file".toList) g.file
  ++ g.files.map (fun f => ("file".toList, f))
  ++ optPairs ("developer".toList) g.developer
  ++ optPairs ("publisher".toList) g.publisher
  ++ optPairs ("genre".toList) g.genre
  ++ optPairs ("players".toList) g.players
  ++ optPairs ("release".toList) g.release
  ++ optPairs ("rating".toList) g.rating
  ++ summaryPairs g.summary
  ++ descPairs g.description
  ++ (if o.include_assets then
        optPairs ("assets.boxFront".toList) g.box_front
        ++ optPairs ("assets.boxBack".toList) g.box_back
        ++ optPairs ("assets.boxSpine".toList) g.box_spine
        ++ optPairs ("assets.boxFull".toList) g.box_full
        ++ optPairs ("assets.cartridge".toList) g.cartridge
        ++ optPairs ("assets.logo".toList) g.logo
        ++ optPairs ("assets.marquee".toList) g.marquee
        ++ optPairs ("assets.bezel".toList) g.bezel
        ++ optPairs ("assets.gridicon".toList) g.gridicon
        ++ optPairs ("assets.flyer".toList) g.flyer
        ++ optPairs ("assets.background".toList) g.background
        ++ optPairs ("assets.music".toList) g.music
        ++ optPairs ("assets.screenshot".toList) g.screenshot
        ++ optPairs ("assets.titlescreen".toList) g.titlescreen
        ++ optPairs ("assets.video".toList) g.video
      else [])
  ++ g.extra

/-- The key/value pairs of the exported collection header. -/
def collPairs (o : PegasusExportOptions) : List (Str × Str) :=
  (match o.extensions with
   | some exts =>
     if ¬ exts.isEmpty then [("extensions".toList, joinSpace exts)] else []
   | none => [])
  ++ optPairs ("launch".toList) o.launch_command
  ++ optPairs ("workdir".toList) o.workdir

/-- The per-game action of `apply_key_value` (the source's game branch
always yields an updated game and leaves the collection untouched). -/
def gameApply (k v : Str) (g : PegasusGame) : PegasusGame :=
  ((applyKV k v none (some g)).2).getD g

/-- The per-collection action of `apply_key_value`. -/
def collApply (k v : Str) (c : PegasusCollection) : PegasusCollection :=
  ((applyKV k v (some c) none).1).getD c

/-- One flushed key/value pair as the parser applies it to the open game:
the stored key is the lowered trim of the emitted key. -/
def pstep (g : PegasusGame) (p : Str × Str) : PegasusGame :=
  gameApply (strLower (trim p.1)) p.2 g

/-- One flushed key/value pair applied to the open collection. -/
def cstep (c : PegasusCollection) (p : Str × Str) : PegasusCollection :=
  collApply (strLower (trim p.1)) p.2 c

/-- The effect of a `game:` line on the settled parse state. -/
def pushGame (st : ParseState) (g : PegasusGame) : ParseState :=
  { st with games := st.games ++ st.curGame.toList, curGame := some g }

/-- The collection the parser reconstructs from the exported header. -/
def headColl (o : PegasusExportOptions) : Option PegasusCollection :=
  match o.include_collection, o.collection_name with
  | true, some n =>
    some
      { name := n,
        extensions :=
          match o.extensions with
          | some exts => if ¬ exts.isEmpty then exts else []
          | none => [],
        launch_command := o.launch_command,
        workdir := o.workdir }
  | _, _ => none

/-- The collection list the round-trip reproduces. -/
def expectedColls (o : PegasusExportOptions) : List PegasusCollection :=
  (headColl o).toList

/-- A game whose exported block parses back to the very same record:
single-line trimmed scalar values, no multi-file list, a non-empty
single-line description, a sort title that differs from the name,
single-token assets (emitted exactly when `include_assets` is set), and a
canonically sorted extension map of well-formed `x-` keys. -/
def wellFormedGame (o : PegasusExportOptions) (g : PegasusGame) : Prop :=
  plainVal g.name ∧
  plainOpt g.file ∧ g.files = [] ∧
  plainOpt g.developer ∧ plainOpt g.publisher ∧ plainOpt g.genre ∧
  plainOpt g.players ∧ plainOpt g.release ∧ plainOpt g.rating ∧
  plainOpt g.summary ∧
  (match g.description with
   | some d => plainVal d ∧ d ≠ []
   | none => True) ∧
  (match g.sort_title with
   | some st => plainVal st ∧ st ≠ g.name
   | none => True) ∧
  (match o.include_assets with
   | true =>
     tokenOpt g.box_front ∧ tokenOpt g.box_back ∧ tokenOpt g.box_spine ∧
     tokenOpt g.box_full ∧ tokenOpt g.cartridge ∧ tokenOpt g.logo ∧
     tokenOpt g.marquee ∧ tokenOpt g.bezel ∧ tokenOpt g.gridicon ∧
     tokenOpt g.flyer ∧ tokenOpt g.background ∧ tokenOpt g.music ∧
     tokenOpt g.screenshot ∧ tokenOpt g.titlescreen ∧ tokenOpt g.video
   | false =>
     g.box_front = none ∧ g.box_back = none ∧ g.box_spine = none ∧
     g.box_full = none ∧ g.cartridge = none ∧ g.logo = none ∧
     g.marquee = none ∧ g.bezel = none ∧ g.gridicon = none ∧
     g.flyer = none ∧ g.background = none ∧ g.music = none ∧
     g.screenshot = none ∧ g.titlescreen = none ∧ g.video = none) ∧
  (∀ kv ∈ g.extra, extraKeyWf kv.1 ∧ plainVal kv.2) ∧
  List.Pairwise (fun a b => strLt a.1 b.1 = true) g.extra

instance wellFormedGameDec (o : PegasusExportOptions) (g : PegasusGame) :
    Decidable (wellFormedGame o g) := by
  unfold wellFormedGame
  cases o.include_assets <;> cases g.description <;> cases g.sort_title <;>
    infer_instance

/-- Options whose exported header parses back to `expectedColls`: when a
collection header is requested it must carry a name, and all header values
are well formed. -/
def wellFormedOptions (o : PegasusExportOptions) : Prop :=
  o.include_collection = true →
    (match o.collection_name with
     | some n => plainVal n
     | none => False) ∧
    (match o.extensions with
     | some exts => ∀ e ∈ exts, tokenVal e
     | none => True) ∧
    plainOpt o.launch_command ∧ plainOpt o.workdir

instance wellFormedOptionsDec (o : PegasusExportOptions) :
    Decidable (wellFormedOptions o) := by
  unfold wellFormedOptions
  cases o.collection_name <;> cases o.extensions <;> infer_instance

/-- Scenario (C3): a game with a two-line description. -/
def C3game : PegasusGame :=
  { name := "G".toList, description := some ("a\nb".toList) }

/-! ### Properties of `splitFirst` -/

theorem splitFirst_eq_none {c : Char} :
    ∀ {s : Str}, splitFirst c s = none → c ∉ s := by
  intro s
  induction s with
  | nil => intro _ h; exact absurd h (List.not_mem_nil c)
  | cons x xs ih =>
    intro h hm
    by_cases hx : x = c
    · rw [splitFirst, if_pos hx] at h
      exact Option.noConfusion h
    · rw [splitFirst, if_neg hx] at h
      cases hsp : splitFirst c xs with
      | none =>
        rcases List.mem_cons.1 hm with h1 | h1
        · exact hx h1.symm
        · exact ih hsp h1
      | some p => rw [hsp] at h; exact Option.noConfusion h

theorem splitFirst_eq_some {c : Char} :
    ∀ {s a b : Str}, splitFirst c s = some (a, b) → s = a ++ c :: b ∧ c ∉ a := by
  intro s
  induction s with
  | nil => intro a b h; exact Option.noConfusion h
  | cons x xs ih =>
    intro a b h
    by_cases hx : x = c
    · rw [splitFirst, if_pos hx] at h
      injection h with h1
      have ha := congrArg Prod.fst h1
      have hb := congrArg Prod.snd h1
      simp only at ha hb
      subst hx
      rw [← ha, ← hb]
      exact ⟨rfl, List.not_mem_nil x⟩
    · rw [splitFirst, if_neg hx] at h
      cases hsp : splitFirst c xs with
      | none => rw [hsp] at h; exact Option.noConfusion h
      | some p =>
        obtain ⟨a', b'⟩ := p
        rw [hsp] at h
        have h2 : (some (x :: a', b') : Option (Str × Str)) = some (a, b) := h
        injection h2 with h1
        have ha := congrArg Prod.fst h1
        have hb := congrArg Prod.snd h1
        simp only at ha hb
        obtain ⟨hs, hnm⟩ := ih hsp
        rw [← ha, ← hb, hs]
        refine ⟨rfl, ?_⟩
        intro hmem
        rcases List.mem_cons.1 hmem with h1 | h1
        · exact hx h1.symm
        · exact hnm h1

/-! ### The bracket-removal loop: output is free of matched pairs -/

/-- If the first occurrence of `b` has no `k` after it, no `b … k`
subsequence exists. -/
theorem not_pair_of_first_split {b k : Char} :
    ∀ {s a c : Str}, splitFirst b s = some (a, c) → k ∉ c →
      ¬ List.Sublist [b, k] s := by
  intro s
  induction s with
  | nil => intro a c h; exact absurd h (by rw [splitFirst]; exact fun h => Option.noConfusion h)
  | cons x xs ih =>
    intro a c h hk hsub
    by_cases hx : x = b
    · rw [splitFirst, if_pos hx] at h
      injection h with h1
      have hc := congrArg Prod.snd h1
      simp only at hc
      have hknx : k ∉ xs := by rw [← hc] at hk; exact hk
      cases hsub with
      | cons _ htail =>
        exact hknx (htail.subset (List.mem_cons_of_mem b (List.mem_cons_self k [])))
      | cons₂ _ htail =>
        exact hknx (List.singleton_sublist.1 htail)
    · rw [splitFirst, if_neg hx] at h
      cases hsp : splitFirst b xs with
      | none => rw [hsp] at h; exact Option.noConfusion h
      | some p =>
        obtain ⟨a', c'⟩ := p
        rw [hsp] at h
        have h2 : (some (x :: a', c') : Option (Str × Str)) = some (a, c) := h
        injection h2 with h1
        have hc := congrArg Prod.snd h1
        simp only at hc
        cases hsub with
        | cons _ htail => exact ih hsp (hc ▸ hk) htail
        | cons₂ _ htail => exact hx rfl

theorem removeStep_eq_some {bra ket : Char} {s t : Str}
    (h : removeStep bra ket s = some t) :
    ∃ a c e d, splitFirst bra s = some (a, c) ∧ splitFirst ket c = some (e, d) ∧
      t = a ++ d := by
  rw [removeStep] at h
  cases h1 : splitFirst bra s with
  | none => rw [h1] at h; exact Option.noConfusion h
  | some p =>
    obtain ⟨a, c⟩ := p
    rw [h1] at h
    have h' : (splitFirst ket c).map (fun q => a ++ q.2) = some t := h
    cases h2 : splitFirst ket c with
    | none => rw [h2] at h'; exact Option.noConfusion h'
    | some q =>
      obtain ⟨e, d⟩ := q
      rw [h2] at h'
      have h'' : (some (a ++ d) : Option Str) = some t := h'
      injection h'' with h3
      exact ⟨a, c, e, d, rfl, h2, h3.symm⟩

/-- When the loop body finds nothing to remove, the string has no
`bra … ket` pair. -/
theorem pairFree_of_removeStep_none {bra ket : Char} {s : Str}
    (h : removeStep bra ket s = none) : ¬ List.Sublist [bra, ket] s := by
  rw [removeStep] at h
  cases h1 : splitFirst bra s with
  | none =>
    intro hsub
    exact splitFirst_eq_none h1 (hsub.subset (List.mem_cons_self bra [ket]))
  | some p =>
    obtain ⟨a, c⟩ := p
    rw [h1] at h
    have h' : (splitFirst ket c).map (fun q => a ++ q.2) = none := h
    cases h2 : splitFirst ket c with
    | none => exact not_pair_of_first_split h1 (splitFirst_eq_none h2)
    | some q => rw [h2] at h'; exact Option.noConfusion h'

theorem removeStep_ne_of_pairFree {bra ket : Char} {s : Str}
    (hfree : ¬ List.Sublist [bra, ket] s) : removeStep bra ket s = none := by
  cases h : removeStep bra ket s with
  | none => rfl
  | some t =>
    obtain ⟨a, c, e, d, h1, h2, _⟩ := removeStep_eq_some h
    obtain ⟨hs, _⟩ := splitFirst_eq_some h1
    obtain ⟨hc, _⟩ := splitFirst_eq_some h2
    exfalso
    apply hfree
    rw [hs, hc]
    have h3 : List.Sublist [bra, ket] (bra :: (e ++ ket :: d)) := by
      refine List.Sublist.cons₂ bra ?_
      exact List.singleton_sublist.2 (by simp)
    exact h3.trans (List.sublist_append_right a _)

/-- Each removal strictly shrinks the string (by at least two characters). -/
theorem removeStep_length {bra ket : Char} {s t : Str}
    (h : removeStep bra ket s = some t) : t.length + 2 ≤ s.length := by
  obtain ⟨a, c, e, d, h1, h2, ht⟩ := removeStep_eq_some h
  obtain ⟨hs, _⟩ := splitFirst_eq_some h1
  obtain ⟨hc, _⟩ := splitFirst_eq_some h2
  rw [hs, hc, ht]
  simp [List.length_append]
  omega

/-- The loop body only ever deletes characters. -/
theorem removeStep_sublist {bra ket : Char} {s t : Str}
    (h : removeStep bra ket s = some t) : List.Sublist t s := by
  obtain ⟨a, c, e, d, h1, h2, ht⟩ := removeStep_eq_some h
  obtain ⟨hs, _⟩ := splitFirst_eq_some h1
  obtain ⟨hc, _⟩ := splitFirst_eq_some h2
  rw [hs, hc, ht]
  refine List.Sublist.append_left ?_ a
  refine List.Sublist.cons bra ?_
  have h4 := List.sublist_append_right (e ++ [ket]) d
  rw [List.append_assoc] at h4
  exact h4

theorem removeDelimGo_sublist (bra ket : Char) :
    ∀ (n : Nat) (s : Str), List.Sublist (removeDelimGo bra ket n s) s := by
  intro n
  induction n with
  | zero => intro s; exact List.Sublist.refl s
  | succ m ih =>
    intro s
    rw [removeDelimGo]
    cases h : removeStep bra ket s with
    | none => exact List.Sublist.refl s
    | some t => exact (ih t).trans (removeStep_sublist h)

theorem removeDelimGo_pairFree (bra ket : Char) :
    ∀ (n : Nat) (s : Str), s.length ≤ n →
      ¬ List.Sublist [bra, ket] (removeDelimGo bra ket n s) := by
  intro n
  induction n with
  | zero =>
    intro s hlen hsub
    have hz : s = [] := List.eq_nil_of_length_eq_zero (Nat.le_zero.1 hlen)
    subst hz
    exact (List.cons_ne_nil bra [ket]) (List.sublist_nil.1 hsub)
  | succ m ih =>
    intro s hlen
    rw [removeDelimGo]
    cases h : removeStep bra ket s with
    | none => exact pairFree_of_removeStep_none h
    | some t =>
      refine ih t ?_
      have := removeStep_length h
      omega

/-- A pair-free string is a fixed point of the loop. -/
theorem removeDelimGo_eq_self (bra ket : Char) :
    ∀ (n : Nat) (s : Str), ¬ List.Sublist [bra, ket] s →
      removeDelimGo bra ket n s = s := by
  intro n
  induction n with
  | zero => intro s _; rfl
  | succ m _ =>
    intro s hfree
    rw [removeDelimGo, removeStep_ne_of_pairFree hfree]

theorem removeDelim_pairFree (bra ket : Char) (s : Str) :
    ¬ List.Sublist [bra, ket] (removeDelim bra ket s) :=
  removeDelimGo_pairFree bra ket s.length s le_rfl

theorem removeDelim_sublist (bra ket : Char) (s : Str) :
    List.Sublist (removeDelim bra ket s) s :=
  removeDelimGo_sublist bra ket s.length s

theorem removeDelim_eq_self {bra ket : Char} {s : Str}
    (h : ¬ List.Sublist [bra, ket] s) : removeDelim bra ket s = s :=
  removeDelimGo_eq_self bra ket s.length s h

/-- Pair-freeness transfers down sublists. -/
theorem pairFree_of_sublist {b k : Char} {s t : Str}
    (h : ¬ List.Sublist [b, k] s) (hst : List.Sublist t s) :
    ¬ List.Sublist [b, k] t :=
  fun hsub => h (hsub.trans hst)

/-! ### `splitWs` / `joinSpace` / `trim` properties -/

theorem splitWs_cons_ws {c : Char} {cs : Str} (h : c.isWhitespace) :
    splitWs (c :: cs) = splitWs cs := by
  rw [splitWs.eq_def]
  simp [h]

theorem splitWs_single {c : Char} (h : ¬ c.isWhitespace) :
    splitWs [c] = [[c]] := by
  rw [splitWs.eq_def]
  simp [h]

theorem splitWs_cons_cons_ws {c d : Char} {cs : Str}
    (hc : ¬ c.isWhitespace) (hd : d.isWhitespace) :
    splitWs (c :: d :: cs) = [c] :: splitWs (d :: cs) := by
  rw [splitWs.eq_def]
  simp only [hc, hd, if_true, if_false, Bool.false_eq_true, ite_false, ite_true]

theorem splitWs_cons_cons_nws {c d : Char} {cs w : Str} {ws : List Str}
    (hc : ¬ c.isWhitespace) (hd : ¬ d.isWhitespace)
    (hsp : splitWs (d :: cs) = w :: ws) :
    splitWs (c :: d :: cs) = (c :: w) :: ws := by
  rw [splitWs.eq_def]
  simp only [hc, hd, Bool.false_eq_true, ite_false, hsp]

theorem splitWs_cons_ne_nil {c : Char} {cs : Str} (hc : ¬ c.isWhitespace) :
    splitWs (c :: cs) ≠ [] := by
  rw [splitWs.eq_def]
  cases cs with
  | nil => simp [hc]
  | cons d cs' =>
    by_cases hd : d.isWhitespace
    · simp [hc, hd]
    · simp only [hc, hd, Bool.false_eq_true, ite_false]
      split <;> simp

theorem splitWs_flatten (s : Str) :
    (splitWs s).flatten = s.filter (fun c => !c.isWhitespace) := by
  induction s with
  | nil => rfl
  | cons c cs ih =>
    by_cases hws : c.isWhitespace
    · rw [splitWs_cons_ws hws, ih, List.filter_cons, if_neg (by simp [hws])]
    · cases cs with
      | nil => rw [splitWs_single hws]; simp [List.filter_cons, hws]
      | cons d cs' =>
        by_cases hd : d.isWhitespace
        · rw [splitWs_cons_cons_ws hws hd, List.flatten_cons, ih,
            List.filter_cons (x := c), if_pos (by simp [hws])]
          rfl
        · cases hsp : splitWs (d :: cs') with
          | nil => exact absurd hsp (splitWs_cons_ne_nil hd)
          | cons w ws =>
            rw [splitWs_cons_cons_nws hws hd hsp, List.flatten_cons]
            rw [hsp, List.flatten_cons] at ih
            rw [List.filter_cons (x := c), if_pos (by simp [hws]), ← ih]
            rfl

theorem splitWs_words_ok (s : Str) :
    ∀ w ∈ splitWs s, w ≠ [] ∧ ∀ c ∈ w, ¬ c.isWhitespace := by
  induction s with
  | nil => intro w hw; simp [splitWs] at hw
  | cons c cs ih =>
    intro w hw
    by_cases hws : c.isWhitespace
    · rw [splitWs_cons_ws hws] at hw
      exact ih w hw
    · cases cs with
      | nil =>
        rw [splitWs_single hws] at hw
        simp only [List.mem_singleton] at hw
        subst hw
        refine ⟨by simp, ?_⟩
        intro x hx
        rw [List.mem_singleton] at hx
        subst hx
        exact hws
      | cons d cs' =>
        by_cases hd : d.isWhitespace
        · rw [splitWs_cons_cons_ws hws hd] at hw
          rcases List.mem_cons.1 hw with h1 | h1
          · subst h1
            refine ⟨by simp, ?_⟩
            intro x hx
            rw [List.mem_singleton] at hx
            subst hx
            exact hws
          · exact ih w h1
        · cases hsp : splitWs (d :: cs') with
          | nil => exact absurd hsp (splitWs_cons_ne_nil hd)
          | cons w0 ws0 =>
            rw [splitWs_cons_cons_nws hws hd hsp] at hw
            rcases List.mem_cons.1 hw with h1 | h1
            · subst h1
              obtain ⟨_, hok⟩ := ih w0 (hsp ▸ List.mem_cons_self w0 ws0)
              refine ⟨by simp, ?_⟩
              intro x hx
              rcases List.mem_cons.1 hx with h2 | h2
              · subst h2; exact hws
              · exact hok x h2
            · exact ih w (hsp ▸ List.mem_cons_of_mem w0 h1)

/-- A maximal word at the front splits off whole. -/
theorem splitWs_word_append (w t : Str) (hne : w ≠ [])
    (hok : ∀ c ∈ w, ¬ c.isWhitespace)
    (ht : t = [] ∨ ∃ d t', t = d :: t' ∧ d.isWhitespace) :
    splitWs (w ++ t) = w :: splitWs t := by
  induction w with
  | nil => exact absurd rfl hne
  | cons c w' ih =>
    have hc : ¬ c.isWhitespace := hok c (List.mem_cons_self c w')
    cases w' with
    | nil =>
      rcases ht with h1 | ⟨d, t', h1, hd⟩
      · subst h1
        show splitWs [c] = [c] :: splitWs []
        rw [splitWs_single hc]
        rfl
      · subst h1
        show splitWs (c :: d :: t') = [c] :: splitWs (d :: t')
        exact splitWs_cons_cons_ws hc hd
    | cons e w'' =>
      have he : ¬ e.isWhitespace :=
        hok e (List.mem_cons_of_mem c (List.mem_cons_self e w''))
      have ihr : splitWs ((e :: w'') ++ t) = (e :: w'') :: splitWs t := by
        refine ih (by simp) ?_
        intro x hx
        exact hok x (List.mem_cons_of_mem c hx)
      have ihr' : splitWs (e :: (w'' ++ t)) = (e :: w'') :: splitWs t := by
        rw [← List.cons_append]
        exact ihr
      show splitWs ((c :: e :: w'') ++ t) = (c :: e :: w'') :: splitWs t
      rw [List.cons_append, List.cons_append]
      exact splitWs_cons_cons_nws hc he ihr'

theorem splitWs_joinSpace :
    ∀ (ws : List Str), (∀ w ∈ ws, w ≠ [] ∧ ∀ c ∈ w, ¬ c.isWhitespace) →
      splitWs (joinSpace ws) = ws := by
  intro ws
  induction ws with
  | nil => intro _; rfl
  | cons w ws' ih =>
    intro hok
    cases ws' with
    | nil =>
      obtain ⟨hne, hw⟩ := hok w (List.mem_cons_self w [])
      have := splitWs_word_append w [] hne hw (Or.inl rfl)
      simpa [joinSpace] using this
    | cons w2 ws'' =>
      obtain ⟨hne, hw⟩ := hok w (List.mem_cons_self w (w2 :: ws''))
      show splitWs (w ++ ' ' :: joinSpace (w2 :: ws'')) = w :: (w2 :: ws'')
      rw [splitWs_word_append w (' ' :: joinSpace (w2 :: ws'')) hne hw
        (Or.inr ⟨' ', joinSpace (w2 :: ws''), rfl, by simp⟩)]
      congr 1
      rw [splitWs_cons_ws (by simp)]
      exact ih (fun x hx => hok x (List.mem_cons_of_mem w hx))

theorem joinSpace_append (X Y : List Str) (hX : X ≠ []) (hY : Y ≠ []) :
    joinSpace (X ++ Y) = joinSpace X ++ ' ' :: joinSpace Y := by
  induction X with
  | nil => exact absurd rfl hX
  | cons x xs ihx =>
    cases xs with
    | nil =>
      cases Y with
      | nil => exact absurd rfl hY
      | cons y ys => rfl
    | cons x2 xs' =>
      have h1 : joinSpace (x :: ((x2 :: xs') ++ Y))
          = x ++ ' ' :: joinSpace ((x2 :: xs') ++ Y) := rfl
      show joinSpace (x :: ((x2 :: xs') ++ Y)) = _
      rw [h1, ihx (by simp)]
      simp [List.append_assoc, joinSpace]

theorem joinSpace_reverse :
    ∀ (ws : List Str), (joinSpace ws).reverse = joinSpace ((ws.map List.reverse).reverse) := by
  intro ws
  induction ws with
  | nil => rfl
  | cons w ws' ih =>
    cases ws' with
    | nil => simp [joinSpace]
    | cons w2 ws'' =>
      show (w ++ ' ' :: joinSpace (w2 :: ws'')).reverse = _
      rw [List.reverse_append, List.reverse_cons, ih]
      conv_rhs => rw [List.map_cons (f := List.reverse), List.reverse_cons,
        joinSpace_append ((List.map List.reverse (w2 :: ws'')).reverse) [w.reverse]
          (by simp) (by simp)]
      simp [List.append_assoc, joinSpace]

theorem trimStart_eq_self {s : Str}
    (h : s = [] ∨ ∃ c t, s = c :: t ∧ ¬ c.isWhitespace) : trimStart s = s := by
  rcases h with h | ⟨c, t, h, hc⟩
  · subst h; rfl
  · subst h; rw [trimStart, List.dropWhile_cons, if_neg hc]

theorem joinSpace_head (w : Str) (ws : List Str) :
    ∃ r, joinSpace (w :: ws) = w ++ r := by
  cases ws with
  | nil => exact ⟨[], by simp [joinSpace]⟩
  | cons w2 ws' => exact ⟨' ' :: joinSpace (w2 :: ws'), rfl⟩

theorem trimStart_joinSpace (ws : List Str)
    (hok : ∀ w ∈ ws, w ≠ [] ∧ ∀ c ∈ w, ¬ c.isWhitespace) :
    trimStart (joinSpace ws) = joinSpace ws := by
  cases ws with
  | nil => rfl
  | cons w ws' =>
    obtain ⟨hne, hw⟩ := hok w (List.mem_cons_self w ws')
    obtain ⟨r, hr⟩ := joinSpace_head w ws'
    apply trimStart_eq_self
    right
    cases w with
    | nil => exact absurd rfl hne
    | cons c t =>
      exact ⟨c, t ++ r, by rw [hr]; simp, hw c (List.mem_cons_self c t)⟩

theorem trim_joinSpace (ws : List Str)
    (hok : ∀ w ∈ ws, w ≠ [] ∧ ∀ c ∈ w, ¬ c.isWhitespace) :
    trim (joinSpace ws) = joinSpace ws := by
  rw [trim, trimStart_joinSpace ws hok, trimEnd, joinSpace_reverse]
  have hokrev : ∀ x ∈ (ws.map List.reverse).reverse,
      x ≠ [] ∧ ∀ c ∈ x, ¬ c.isWhitespace := by
    intro x hx
    simp only [List.mem_reverse, List.mem_map] at hx
    obtain ⟨y, hy, hyx⟩ := hx
    obtain ⟨hne', hok'⟩ := hok y hy
    subst hyx
    exact ⟨by simpa using hne', fun c hc => hok' c (List.mem_reverse.1 hc)⟩
  have h2 := trimStart_joinSpace _ hokrev
  rw [trimStart] at h2
  rw [h2, ← joinSpace_reverse, List.reverse_reverse]

theorem cleanupWs_idem (s : Str) : cleanupWs (cleanupWs s) = cleanupWs s := by
  have hok := splitWs_words_ok s
  have h1 : cleanupWs s = joinSpace (splitWs s) := trim_joinSpace _ hok
  rw [h1]
  show cleanupWs (joinSpace (splitWs s)) = joinSpace (splitWs s)
  rw [cleanupWs, splitWs_joinSpace _ hok]
  exact trim_joinSpace _ hok

/-! ### Pair-freeness survives the remaining normalization passes -/

theorem filter_dropWhile_isWhitespace (s : Str) :
    (s.dropWhile Char.isWhitespace).filter (fun c => !c.isWhitespace)
      = s.filter (fun c => !c.isWhitespace) := by
  induction s with
  | nil => rfl
  | cons c cs ih =>
    by_cases h : c.isWhitespace
    · rw [List.dropWhile_cons, if_pos h, ih, List.filter_cons, if_neg (by simp [h])]
    · rw [List.dropWhile_cons, if_neg h]

theorem filter_trim (s : Str) :
    (trim s).filter (fun c => !c.isWhitespace) = s.filter (fun c => !c.isWhitespace) := by
  rw [trim, trimEnd, List.filter_reverse, filter_dropWhile_isWhitespace,
    ← List.filter_reverse, List.reverse_reverse, trimStart, filter_dropWhile_isWhitespace]

theorem filter_joinSpace (ws : List Str) :
    (joinSpace ws).filter (fun c => !c.isWhitespace)
      = (ws.map (List.filter (fun c => !c.isWhitespace))).flatten := by
  induction ws with
  | nil => rfl
  | cons w ws' ih =>
    cases ws' with
    | nil => simp [joinSpace]
    | cons w2 ws'' =>
      show (w ++ ' ' :: joinSpace (w2 :: ws'')).filter _ = _
      rw [List.filter_append, List.filter_cons]
      rw [if_neg (by simp)]
      simp only [List.map_cons, List.flatten_cons] at ih ⊢
      rw [ih]

theorem filter_cleanupWs (s : Str) :
    (cleanupWs s).filter (fun c => !c.isWhitespace) = s.filter (fun c => !c.isWhitespace) := by
  rw [cleanupWs, filter_trim, filter_joinSpace]
  have hmap : (splitWs s).map (List.filter (fun c => !c.isWhitespace)) = splitWs s := by
    have : ∀ (L : List Str), (∀ w ∈ L, ∀ c ∈ w, ¬ c.isWhitespace) →
        L.map (List.filter (fun c => !c.isWhitespace)) = L := by
      intro L
      induction L with
      | nil => intro _; rfl
      | cons w L' ihL =>
        intro hL
        rw [List.map_cons, ihL (fun x hx => hL x (List.mem_cons_of_mem w hx)),
          List.filter_eq_self.2 (fun c hc => by simp [hL w (List.mem_cons_self w L') c hc])]
    exact this _ (fun w hw => (splitWs_words_ok s w hw).2)
  rw [hmap, splitWs_flatten]

theorem pairFree_cleanupWs {b k : Char} {s : Str}
    (hb : ¬ b.isWhitespace) (hk : ¬ k.isWhitespace)
    (h : ¬ List.Sublist [b, k] s) : ¬ List.Sublist [b, k] (cleanupWs s) := by
  intro hsub
  apply h
  have h1 : [b, k] = [b, k].filter (fun c => !c.isWhitespace) := by simp [hb, hk]
  have h2 : List.Sublist ([b, k].filter (fun c => !c.isWhitespace))
      ((cleanupWs s).filter (fun c => !c.isWhitespace)) := hsub.filter _
  rw [← h1, filter_cleanupWs] at h2
  exact h2.trans (List.filter_sublist s)

theorem stripExtensions_sublist (s : Str) : List.Sublist (stripExtensions s) s := by
  rw [stripExtensions]
  generalize romExtensions = l
  induction l generalizing s with
  | nil => exact List.Sublist.refl s
  | cons e es ih =>
    refine (ih (stripOneExt s e)).trans ?_
    rw [stripOneExt]
    split
    · exact List.take_sublist _ s
    · exact List.Sublist.refl s

theorem foldl_stripOneExt_eq_self {s : Str} :
    ∀ (l : List Str), (∀ e ∈ l, ¬ e.isSuffixOf (strLower s)) →
      l.foldl stripOneExt s = s := by
  intro l
  induction l with
  | nil => intro _; rfl
  | cons e es ih =>
    intro h
    have he : stripOneExt s e = s := by
      rw [stripOneExt, if_neg]
      exact fun hc => h e (List.mem_cons_self e es) hc
    rw [List.foldl_cons, he]
    exact ih (fun x hx => h x (List.mem_cons_of_mem e hx))

theorem stripExtensions_eq_self {s : Str}
    (h : ∀ e ∈ romExtensions, ¬ e.isSuffixOf (strLower s)) : stripExtensions s = s :=
  foldl_stripOneExt_eq_self romExtensions h

/-- The normalized form never contains a removable `(...)` pair. -/
theorem normalize_paren_free (s : Str) :
    ¬ List.Sublist ['(', ')'] (normalize_game_name s) := by
  rw [normalize_game_name]
  apply pairFree_cleanupWs (by simp) (by simp)
  apply pairFree_of_sublist (s := removeDelim '(' ')' s)
  · exact removeDelim_pairFree '(' ')' s
  · exact (stripExtensions_sublist _).trans (removeDelim_sublist '[' ']' _)

/-- The normalized form never contains a removable `[...]` pair. -/
theorem normalize_bracket_free (s : Str) :
    ¬ List.Sublist ['[', ']'] (normalize_game_name s) := by
  rw [normalize_game_name]
  apply pairFree_cleanupWs (by simp) (by simp)
  apply pairFree_of_sublist (s := removeDelim '[' ']' (removeDelim '(' ')' s))
  · exact removeDelim_pairFree '[' ']' _
  · exact stripExtensions_sublist _

set_option maxRecDepth 10000 in
/-- C7 (counterexample): `normalize_game_name` is not idempotent.  The
extension-stripping pass removes a single trailing extension per call, so
`"a.zip.zip"` normalizes to `"a.zip"`, which a second call shortens to
`"a"`. -/
theorem C7_normalize_idem_counterexample :
    normalize_game_name (normalize_game_name ("a.zip.zip".toList))
      ≠ normalize_game_name ("a.zip.zip".toList) := by
  decide

set_option maxRecDepth 10000 in
/-- C7 (amended): `normalize_game_name` is idempotent on every input whose
normalized form does not end (case-insensitively) in one of the known ROM
extensions — the stacked-extension inputs exhibited by the counterexample
are the only failures — and the spec's example holds:
`normalize_game_name("Legend of Zelda, The (Japan) [!].zip") ==
"Legend of Zelda, The"`. -/
theorem C7_normalize_idem_amended :
    (∀ s : Str, (∀ e ∈ romExtensions, ¬ e.isSuffixOf (strLower (normalize_game_name s))) →
        normalize_game_name (normalize_game_name s) = normalize_game_name s)
    ∧ normalize_game_name ("Legend of Zelda, The (Japan) [!].zip".toList)
        = "Legend of Zelda, The".toList := by
  constructor
  · intro s H
    have hp := normalize_paren_free s
    have hb := normalize_bracket_free s
    conv_lhs => rw [normalize_game_name]
    rw [removeDelim_eq_self hp, removeDelim_eq_self hb, stripExtensions_eq_self H]
    exact cleanupWs_idem (stripExtensions (removeDelim '[' ']' (removeDelim '(' ')' s)))
  · decide

set_option maxRecDepth 10000 in
set_option maxRecDepth 4000 in
/-- C6: the numeric veto of `smart_cn_similarity` — whenever, after
prefix-stripping and homophone normalization, both strings contain at least
one maximal digit run and no digit run of the query occurs among the
candidate's digit runs, the score is exactly 0 (for every Pinyin table);
in particular `smart_cn_similarity("超级马里奥2", "超级马里奥3") == 0.0`. -/
theorem C6_numeric_veto :
    (∀ (pinyinOf : Char → Option Str) (query target : Str),
        extract_numbers (normalize_homophones (strLower (remove_common_prefixes query))) ≠ [] →
        extract_numbers (normalize_homophones (strLower (remove_common_prefixes target))) ≠ [] →
        (∀ n ∈ extract_numbers (normalize_homophones (strLower (remove_common_prefixes query))),
          n ∉ extract_numbers (normalize_homophones (strLower (remove_common_prefixes target)))) →
        smart_cn_similarity pinyinOf query target = 0)
    ∧ (∀ pinyinOf : Char → Option Str,
        smart_cn_similarity pinyinOf ("超级马里奥2".toList) ("超级马里奥3".toList) = 0) := by
  have main : ∀ (pinyinOf : Char → Option Str) (query target : Str),
      extract_numbers (normalize_homophones (strLower (remove_common_prefixes query))) ≠ [] →
      extract_numbers (normalize_homophones (strLower (remove_common_prefixes target))) ≠ [] →
      (∀ n ∈ extract_numbers (normalize_homophones (strLower (remove_common_prefixes query))),
        n ∉ extract_numbers (normalize_homophones (strLower (remove_common_prefixes target)))) →
      smart_cn_similarity pinyinOf query target = 0 := by
    intro py q t hq ht hdisj
    unfold smart_cn_similarity
    have hany : (extract_numbers (normalize_homophones (strLower (remove_common_prefixes q)))).any
        (fun qn => (extract_numbers (normalize_homophones (strLower (remove_common_prefixes t)))).contains qn)
          = false := by
      rw [List.any_eq_false]
      intro n hn
      simpa using hdisj n hn
    simp only [List.isEmpty_eq_true, hq, ht, not_false_iff, and_self, if_true, hany,
      Bool.false_eq_true, not_false_eq_true, if_pos]
  exact ⟨main, fun py => main py _ _ (by decide) (by decide) (by decide)⟩

set_option maxRecDepth 4000 in
/-- C6 (witness): the numeric veto applied at the spec's own example, with
an empty Pinyin table. -/
theorem C6_numeric_veto_witness :
    smart_cn_similarity (fun _ => none) ("超级马里奥2".toList) ("超级马里奥3".toList) = 0 :=
  C6_numeric_veto.1 (fun _ => none) ("超级马里奥2".toList) ("超级马里奥3".toList)
    (by decide) (by decide) (by decide)

set_option maxRecDepth 10000 in
/-- C7 (witness): the amended idempotence applied at a concrete input. -/
theorem C7_normalize_idem_witness :
    normalize_game_name (normalize_game_name ("Super Mario World (USA).sfc".toList))
      = normalize_game_name ("Super Mario World (USA).sfc".toList) :=
  C7_normalize_idem_amended.1 ("Super Mario World (USA).sfc".toList) (by decide)

/-- C10: `parse_pegasus_content` is total over grammar violations — it
returns `Ok` on every input; a non-comment, non-blank, non-continuation
line without a colon only flushes the pending key and contributes nothing
itself; a recognized key seen before any `collection:`/`game:` line is
ignored (no record open); an unrecognized key that is not `x-` prefixed
leaves the open game unchanged. -/
theorem C10_parse_total :
    (∀ content : Str, ∃ md, parse_pegasus_content content = Except.ok md)
    ∧ (∀ k v : Str, applyKV k v none none = (none, none))
    ∧ (∀ (st : ParseState) (line : Str),
        line.head? ≠ some '#' → (trim line).isEmpty = false →
        line.head? ≠ some ' ' → line.head? ≠ some '\t' →
        splitFirst ':' line = none →
        parseStep st line = flushPending st)
    ∧ (∀ (k v : Str) (c : Option PegasusCollection) (g : PegasusGame),
        strLower k ∉ recognizedGameKeys →
        ¬ ("x-".toList).isPrefixOf (strLower k) →
        applyKV k v c (some g) = (c, some g)) := by
  refine ⟨fun content => ⟨_, rfl⟩, fun k v => rfl, ?_, ?_⟩
  · intro st line h1 h2 h3 h4 h5
    rw [parseStep]
    simp [h1, h2, h3, h4, h5]
  · intro k v c g hrec hx
    simp [recognizedGameKeys] at hrec
    have hx2 : ¬ List.isPrefixOf ['x', '-'] (strLower k) = true := by simpa using hx
    obtain ⟨e1, e2, e3, e4, e5, e6, e7, e8, e9, e10, e11, e12, e13, e14, e15, e16,
      e17, e18, e19, e20, e21, e22, e23, e24, e25, e26, e27, e28, e29, e30, e31,
      e32, e33, e34, e35, e36, e37, e38, e39, e40, e41, e42, e43, e44, e45, e46,
      e47, e48, e49, e50⟩ := hrec
    simp [applyKV, e1, e2, e3, e4, e5, e6, e7, e8, e9, e10, e11, e12, e13, e14,
      e15, e16, e17, e18, e19, e20, e21, e22, e23, e24, e25, e26, e27, e28, e29,
      e30, e31, e32, e33, e34, e35, e36, e37, e38, e39, e40, e41, e42, e43, e44,
      e45, e46, e47, e48, e49, e50, hx2]

/-- C10 (witness): totality and the ignore rules applied at concrete
inputs. -/
theorem C10_parse_total_witness :
    (∃ md, parse_pegasus_content ("a line with no colon\nfile: before any game\n".toList)
        = Except.ok md)
    ∧ applyKV ("unknownkey".toList) ("v".toList) none (some {}) = (none, some {})
    ∧ parseStep {} ("no colon here".toList) = flushPending {} :=
  ⟨C10_parse_total.1 _,
   C10_parse_total.2.2.2 ("unknownkey".toList) ("v".toList) none {} (by decide) (by decide),
   C10_parse_total.2.2.1 {} ("no colon here".toList) (by decide) (by decide)
     (by decide) (by decide) (by decide)⟩

/-- `HashMap::insert` followed by a lookup of the same key finds the
inserted entry. -/
theorem find?_insertEntry (e : ManagerEntry) (pid : String)
    (hpid : e.provider.pid = pid) :
    ∀ l : List ManagerEntry,
      (insertEntry e l).find? (fun en => en.provider.pid = pid) = some e := by
  intro l
  induction l with
  | nil => simp [insertEntry, hpid]
  | cons x xs ih =>
    rw [insertEntry]
    by_cases hx : x.provider.pid = e.provider.pid
    · rw [if_pos hx]
      rw [List.find?_cons]
      have hd : decide (e.provider.pid = pid) = true := by simpa using hpid
      rw [hd]
    · rw [if_neg hx, List.find?_cons]
      have hd : decide (x.provider.pid = pid) = false := by
        simp only [decide_eq_false_iff_not]
        rw [← hpid]
        exact hx
      rw [hd]
      exact ih

/-- C8 (counterexample): with a persisted config `{enabled: false,
priority: 5}` for the provider's id, `register` stores
`{enabled: false, priority: 100}` — the persisted `enabled` flag is
loaded, but the persisted priority is discarded in favour of the literal
default `100`. -/
theorem C8_register_counterexample :
    configOf (register {} C8provider [("prov", { enabled := false, priority := 5 })])
        "prov"
      = some { enabled := false, priority := 100 }
    ∧ ({ enabled := false, priority := 100 } : ProviderConfig)
        ≠ { enabled := false, priority := 5 } := by
  constructor
  · rfl
  · decide

/-- C8 (amended): `register` inserts the provider keyed by its stable id;
the stored config is the default `{enabled: true, priority: 100}` when no
persisted config exists for that id, and `{enabled: saved.enabled,
priority: 100}` when one does — only the persisted enabled flag is loaded;
the priority is always the literal `100`. -/
theorem C8_register_amended :
    ∀ (m : ScraperManager) (p : Provider) (settings : List (String × ScraperConfig)),
      (∀ saved, settings.find? (fun kv => kv.1 = p.pid) = some saved →
        configOf (register m p settings) p.pid
          = some { enabled := saved.2.enabled, priority := 100 })
      ∧ (settings.find? (fun kv => kv.1 = p.pid) = none →
        configOf (register m p settings) p.pid
          = some { enabled := true, priority := 100 }) := by
  intro m p settings
  constructor
  · intro saved hs
    rw [register, configOf, hs]
    simp only [Option.map_some]
    rw [find?_insertEntry _ p.pid rfl]
    rfl
  · intro hs
    rw [register, configOf, hs]
    simp only [Option.map_none]
    rw [find?_insertEntry _ p.pid rfl]
    rfl

/-- C8 (witness): the amended behaviour at concrete settings stores. -/
theorem C8_register_amended_witness :
    configOf (register {} C8provider []) C8provider.pid
        = some { enabled := true, priority := 100 }
    ∧ configOf (register {} C8provider [("prov", { enabled := false, priority := 5 })])
          C8provider.pid
        = some { enabled := false, priority := 100 } :=
  ⟨(C8_register_amended {} C8provider []).2 rfl,
   (C8_register_amended {} C8provider [("prov", { enabled := false, priority := 5 })]).1
     ("prov", { enabled := false, priority := 5 }) rfl⟩

/-! ### Insertion-sort and hash-lookup lemmas -/

theorem mem_insertByPriority (x y : Nat × Provider) :
    ∀ l, y ∈ insertByPriority x l → y = x ∨ y ∈ l := by
  intro l
  induction l with
  | nil =>
    intro h
    rw [insertByPriority, List.mem_singleton] at h
    exact Or.inl h
  | cons z zs ih =>
    intro h
    rw [insertByPriority] at h
    by_cases hx : x.1 < z.1
    · rw [if_pos hx] at h
      rcases List.mem_cons.1 h with h1 | h1
      · exact Or.inl h1
      · exact Or.inr h1
    · rw [if_neg hx] at h
      rcases List.mem_cons.1 h with h1 | h1
      · exact Or.inr (h1 ▸ List.mem_cons_self z zs)
      · rcases ih h1 with h2 | h2
        · exact Or.inl h2
        · exact Or.inr (List.mem_cons_of_mem z h2)

theorem pairwise_insertByPriority (x : Nat × Provider) :
    ∀ l, List.Pairwise (fun a b => a.1 ≤ b.1) l →
      List.Pairwise (fun a b => a.1 ≤ b.1) (insertByPriority x l) := by
  intro l
  induction l with
  | nil => intro _; simp [insertByPriority]
  | cons z zs ih =>
    intro hp
    rw [List.pairwise_cons] at hp
    rw [insertByPriority]
    by_cases hx : x.1 < z.1
    · rw [if_pos hx]
      refine List.Pairwise.cons ?_ (List.Pairwise.cons hp.1 hp.2)
      intro w hw
      rcases List.mem_cons.1 hw with h1 | h1
      · exact h1 ▸ Nat.le_of_lt hx
      · exact (Nat.le_of_lt hx).trans (hp.1 w h1)
    · rw [if_neg hx]
      refine List.Pairwise.cons ?_ (ih hp.2)
      intro w hw
      rcases mem_insertByPriority x w zs hw with h1 | h1
      · exact h1 ▸ Nat.le_of_not_lt hx
      · exact hp.1 w h1

theorem sortByPriority_sorted :
    ∀ l, List.Pairwise (fun a b => a.1 ≤ b.1) (sortByPriority l) := by
  intro l
  induction l with
  | nil => simp [sortByPriority]
  | cons x xs ih => exact pairwise_insertByPriority x (sortByPriority xs) ih

theorem lookupByHashGo_skip (rest : List Provider) :
    ∀ l1 : List Provider, (∀ q ∈ l1, ∀ r', q.hashR ≠ Except.ok (some r')) →
      lookupByHashGo (l1 ++ rest) = lookupByHashGo rest := by
  intro l1
  induction l1 with
  | nil => intro _; rfl
  | cons q l1' ih =>
    intro h
    show lookupByHashGo (q :: (l1' ++ rest)) = _
    rw [lookupByHashGo]
    cases hq : q.hashR with
    | ok o =>
      cases o with
      | none => exact ih (fun x hx => h x (List.mem_cons_of_mem q hx))
      | some r => exact absurd hq (h q (List.mem_cons_self q l1') r)
    | error e => exact ih (fun x hx => h x (List.mem_cons_of_mem q hx))

theorem lookupByHashGo_hit (p : Provider) (l2 : List Provider) (r : SearchResult)
    (hp : p.hashR = Except.ok (some r)) : lookupByHashGo (p :: l2) = some r := by
  rw [lookupByHashGo, hp]

/-- C4: `enabled_providers` sorts by ascending priority, and
`lookup_by_hash` walks the `HashLookup`-capable enabled providers in that
order, returning the first `Ok(Some(_))` result — the conclusion is
independent of every provider after the first match (`l2` is universally
quantified), so no later provider is ever queried; with no match at all the
result is `none`. -/
theorem C4_lookup_hash_priority :
    (∀ m : ScraperManager, List.Pairwise (fun a b => a.1 ≤ b.1) (enabledWithPriority m))
    ∧ (∀ (m : ScraperManager) (l1 l2 : List Provider) (p : Provider) (r : SearchResult),
        (enabled_providers m).filter
            (fun q => q.caps.contains ProviderCapability.hashLookup)
          = l1 ++ p :: l2 →
        (∀ q ∈ l1, ∀ r', q.hashR ≠ Except.ok (some r')) →
        p.hashR = Except.ok (some r) →
        lookup_by_hash m = some r)
    ∧ (∀ m : ScraperManager,
        (∀ q ∈ (enabled_providers m).filter
            (fun q => q.caps.contains ProviderCapability.hashLookup),
          ∀ r', q.hashR ≠ Except.ok (some r')) →
        lookup_by_hash m = none) := by
  refine ⟨?_, ?_, ?_⟩
  · intro m
    rw [enabledWithPriority]
    exact sortByPriority_sorted _
  · intro m l1 l2 p r hfilter h1 hp
    rw [lookup_by_hash, hfilter, lookupByHashGo_skip (p :: l2) l1 h1,
      lookupByHashGo_hit p l2 r hp]
  · intro m h
    rw [lookup_by_hash]
    have h2 := lookupByHashGo_skip []
      ((enabled_providers m).filter (fun q => q.caps.contains ProviderCapability.hashLookup)) h
    rw [List.append_nil] at h2
    rw [h2]
    rfl

/-- C4 (witness): priorities `[P1(no match) = 1, P2(match) = 2,
P3(match) = 3]` registered in scrambled map order — `lookup_by_hash`
returns P2's result. -/
theorem C4_lookup_hash_priority_witness :
    lookup_by_hash C4manager = some (C4result "P2") := by
  refine C4_lookup_hash_priority.2.1 C4manager [C4p1] [C4p3] C4p2 (C4result "P2")
    rfl ?_ rfl
  intro q hq r' hEq
  rw [List.mem_singleton] at hq
  subst hq
  rw [show C4p1.hashR = Except.ok none from rfl] at hEq
  exact Option.noConfusion (Except.ok.inj hEq)

/-- C5: `search` is exactly the concatenation, in priority order, of the
result lists of the enabled `Search`-capable providers whose calls
succeeded — an erroring provider contributes nothing and no error reaches
the caller (the return type is a plain list); with zero enabled providers
`search` returns `[]` and `scrape` (whether or not a hash is present —
there is nothing to match it) fails with the `NoResultsFound` error. -/
theorem C5_search_error_containment :
    (∀ m : ScraperManager,
      search m = (((enabled_providers m).filter
          (fun p => p.caps.contains ProviderCapability.search)).filterMap
        (fun p => exceptOk p.searchR)).flatten)
    ∧ (∀ m : ScraperManager, m.entries.filter (fun e => e.config.enabled) = [] →
        search m = []
        ∧ ∀ hashPresent,
            scrape m hashPresent = PanicOr.ok (Except.error "No results found")) := by
  constructor
  · intro m
    rw [search, List.filterMap_map]
    rfl
  · intro m hfe
    have he : enabled_providers m = [] := by
      rw [enabled_providers, enabledWithPriority, hfe]
      rfl
    have hs : search m = [] := by rw [search, he]; rfl
    have hl : lookup_by_hash m = none := by rw [lookup_by_hash, he]; rfl
    refine ⟨hs, ?_⟩
    intro hashPresent
    cases hashPresent <;> simp [scrape, hl, hs]

/-- C5 (witness): a manager whose only registered provider is disabled. -/
theorem C5_search_error_containment_witness :
    search C5manager = []
    ∧ scrape C5manager true = PanicOr.ok (Except.error "No results found") := by
  have h := C5_search_error_containment.2 C5manager rfl
  exact ⟨h.1, h.2 true⟩

/-- The fold of `max_by` over all-finite confidences never panics and
tracks the running maximum. -/
theorem maxByConf_go :
    ∀ (l : List SearchResult) (m : SearchResult) (qm : ℚ),
      m.confidence = FVal.fin qm →
      (∀ x ∈ l, x.confidence ≠ FVal.nan) →
      ∃ r qr,
        l.foldl (maxByStep cmpByConfidence) (PanicOr.ok (some m)) = PanicOr.ok (some r)
        ∧ r.confidence = FVal.fin qr ∧ (r = m ∨ r ∈ l) ∧ qm ≤ qr
        ∧ ∀ x ∈ l, ∀ qx, x.confidence = FVal.fin qx → qx ≤ qr := by
  intro l
  induction l with
  | nil =>
    intro m qm hm _
    exact ⟨m, qm, rfl, hm, Or.inl rfl, le_refl qm, by simp⟩
  | cons y ys ih =>
    intro m qm hm hnn
    have hyn : y.confidence ≠ FVal.nan := hnn y (List.mem_cons_self y ys)
    obtain ⟨qy, hy⟩ : ∃ qy, y.confidence = FVal.fin qy := by
      cases hcy : y.confidence with
      | nan => exact absurd hcy hyn
      | fin q => exact ⟨q, rfl⟩
    have hrest : ∀ x ∈ ys, x.confidence ≠ FVal.nan :=
      fun x hx => hnn x (List.mem_cons_of_mem y hx)
    by_cases hlt : qy < qm
    · have hstep : maxByStep cmpByConfidence (PanicOr.ok (some m)) y
          = PanicOr.ok (some m) := by
        have hnlt : ¬ qm < qy := lt_asymm hlt
        simp [maxByStep, cmpByConfidence, fpartialCmp, hm, hy, hnlt, hlt]
      rw [List.foldl_cons, hstep]
      obtain ⟨r, qr, h1, h2, h3, h4, h5⟩ := ih m qm hm hrest
      refine ⟨r, qr, h1, h2, ?_, h4, ?_⟩
      · rcases h3 with h3 | h3
        · exact Or.inl h3
        · exact Or.inr (List.mem_cons_of_mem y h3)
      · intro x hx qx hqx
        rcases List.mem_cons.1 hx with h6 | h6
        · subst h6
          have : qx = qy := by rw [hqx] at hy; exact FVal.fin.inj hy
          exact this ▸ (le_of_lt hlt).trans h4
        · exact h5 x h6 qx hqx
    · have hstep : maxByStep cmpByConfidence (PanicOr.ok (some m)) y
          = PanicOr.ok (some y) := by
        by_cases hlt2 : qm < qy
        · simp [maxByStep, cmpByConfidence, fpartialCmp, hm, hy, hlt2]
        · simp [maxByStep, cmpByConfidence, fpartialCmp, hm, hy, hlt2, hlt]
      rw [List.foldl_cons, hstep]
      obtain ⟨r, qr, h1, h2, h3, h4, h5⟩ := ih y qy hy hrest
      refine ⟨r, qr, h1, h2, ?_, ?_, ?_⟩
      · rcases h3 with h3 | h3
        · exact Or.inr (h3 ▸ List.mem_cons_self y ys)
        · exact Or.inr (List.mem_cons_of_mem y h3)
      · exact (le_of_not_lt hlt).trans h4
      · intro x hx qx hqx
        rcases List.mem_cons.1 hx with h6 | h6
        · subst h6
          have : qx = qy := by rw [hqx] at hy; exact FVal.fin.inj hy
          exact this ▸ h4
        · exact h5 x h6 qx hqx

/-- C9: `scrape`'s best-match selection
(`max_by(partial_cmp(..).unwrap())`): over candidates whose confidences
are all non-NaN it never panics and returns a candidate of maximal
confidence; with a NaN confidence among at least two candidates, the
`unwrap` receives `None` and the whole `scrape` call panics instead of
returning an error. -/
theorem C9_scrape_nan_unwrap :
    (∀ l : List SearchResult, l ≠ [] → (∀ x ∈ l, x.confidence ≠ FVal.nan) →
      ∃ r qr, rustMaxBy cmpByConfidence l = PanicOr.ok (some r)
        ∧ r ∈ l ∧ r.confidence = FVal.fin qr
        ∧ ∀ x ∈ l, ∀ qx, x.confidence = FVal.fin qx → qx ≤ qr)
    ∧ scrape C9manager false = PanicOr.panicked := by
  constructor
  · intro l hne hnn
    cases l with
    | nil => exact absurd rfl hne
    | cons y ys =>
      have hyn : y.confidence ≠ FVal.nan := hnn y (List.mem_cons_self y ys)
      obtain ⟨qy, hy⟩ : ∃ qy, y.confidence = FVal.fin qy := by
        cases hcy : y.confidence with
        | nan => exact absurd hcy hyn
        | fin q => exact ⟨q, rfl⟩
      rw [rustMaxBy, List.foldl_cons]
      have h0 : maxByStep cmpByConfidence (PanicOr.ok none) y = PanicOr.ok (some y) := rfl
      rw [h0]
      obtain ⟨r, qr, h1, h2, h3, h4, h5⟩ :=
        maxByConf_go ys y qy hy (fun x hx => hnn x (List.mem_cons_of_mem y hx))
      refine ⟨r, qr, h1, ?_, h2, ?_⟩
      · rcases h3 with h3 | h3
        · exact h3 ▸ List.mem_cons_self y ys
        · exact List.mem_cons_of_mem y h3
      · intro x hx qx hqx
        rcases List.mem_cons.1 hx with h6 | h6
        · subst h6
          have : qx = qy := by rw [hqx] at hy; exact FVal.fin.inj hy
          exact this ▸ h4
        · exact h5 x h6 qx hqx
  · decide

/-- C9 (witness): the no-panic maximality applied at a concrete all-finite
candidate list. -/
theorem C9_scrape_nan_unwrap_witness :
    ∃ r qr, rustMaxBy cmpByConfidence [C9result "a" (FVal.fin (1/2)), C9result "c" (FVal.fin 1)]
        = PanicOr.ok (some r)
      ∧ r ∈ [C9result "a" (FVal.fin (1/2)), C9result "c" (FVal.fin 1)]
      ∧ r.confidence = FVal.fin qr
      ∧ ∀ x ∈ [C9result "a" (FVal.fin (1/2)), C9result "c" (FVal.fin 1)],
          ∀ qx, x.confidence = FVal.fin qx → qx ≤ qr :=
  C9_scrape_nan_unwrap.1 [C9result "a" (FVal.fin (1/2)), C9result "c" (FVal.fin 1)]
    (by decide) (by decide)

/-! ### Metadata-merge lemmas -/

theorem merge_metadata_fold :
    ∀ (results : List (String × Except String GameMetadata))
      (acc : GameMetadata × List String),
      results.foldl
        (fun acc pr =>
          match pr.2 with
          | .error _ => acc
          | .ok md => (mergeOneMetadata acc.1 md, acc.2 ++ [pr.1])) acc
      = ((okMetadatas results).foldl mergeOneMetadata acc.1,
         acc.2 ++ okSources results) := by
  intro results
  induction results with
  | nil => intro acc; simp [okMetadatas, okSources]
  | cons pr rest ih =>
    intro acc
    obtain ⟨pid, res⟩ := pr
    cases res with
    | error e =>
      rw [List.foldl_cons]
      show rest.foldl _ acc = _
      rw [ih acc]
      simp [okMetadatas, okSources, exceptOk]
    | ok md =>
      rw [List.foldl_cons]
      show rest.foldl _ (mergeOneMetadata acc.1 md, acc.2 ++ [pid]) = _
      rw [ih (mergeOneMetadata acc.1 md, acc.2 ++ [pid])]
      simp [okMetadatas, okSources, exceptOk]

theorem merge_metadata_eq (results : List (String × Except String GameMetadata)) :
    merge_metadata results
      = ((okMetadatas results).foldl mergeOneMetadata {}, okSources results) := by
  rw [merge_metadata, merge_metadata_fold results ({}, [])]
  rfl

theorem foldl_merge_opt {β : Type} (f : GameMetadata → Option β)
    (hf : ∀ a m, f (mergeOneMetadata a m)
      = if (f a).isNone ∧ (f m).isSome then f m else f a) :
    ∀ (mds : List GameMetadata) (acc : GameMetadata),
      f (mds.foldl mergeOneMetadata acc) = (f acc).or (firstSome (mds.map f)) := by
  intro mds
  induction mds with
  | nil => intro acc; simp [firstSome]
  | cons md rest ih =>
    intro acc
    rw [List.foldl_cons, ih, hf]
    cases hacc : f acc with
    | some a => simp
    | none =>
      cases hmd : f md with
      | some b => simp [hmd, firstSome]
      | none => simp [hmd, firstSome]

theorem firstNonEmptyName_cons_ne {n : String} (l : List String) (hn : n ≠ "") :
    firstNonEmptyName (n :: l) = n := by
  simp [firstNonEmptyName, List.filter_cons, hn]

theorem firstNonEmptyName_cons_empty (l : List String) :
    firstNonEmptyName ("" :: l) = firstNonEmptyName l := by
  simp [firstNonEmptyName, List.filter_cons]

theorem foldl_merge_name :
    ∀ (mds : List GameMetadata) (acc : GameMetadata),
      (mds.foldl mergeOneMetadata acc).name
        = firstNonEmptyName (acc.name :: mds.map GameMetadata.name) := by
  intro mds
  induction mds with
  | nil =>
    intro acc
    show acc.name = firstNonEmptyName [acc.name]
    by_cases hn : acc.name = ""
    · rw [hn]
      rfl
    · rw [firstNonEmptyName_cons_ne [] hn]
  | cons md rest ih =>
    intro acc
    rw [List.foldl_cons, ih]
    by_cases hn : acc.name = ""
    · have hm : (mergeOneMetadata acc md).name = md.name := by
        rw [show (mergeOneMetadata acc md).name
            = if acc.name = "" then md.name else acc.name from rfl, if_pos hn]
      rw [hm, List.map_cons, hn, firstNonEmptyName_cons_empty]
    · have hm : (mergeOneMetadata acc md).name = acc.name := by
        rw [show (mergeOneMetadata acc md).name
            = if acc.name = "" then md.name else acc.name from rfl, if_neg hn]
      rw [hm, List.map_cons, firstNonEmptyName_cons_ne _ hn, firstNonEmptyName_cons_ne _ hn]

theorem foldl_merge_genres :
    ∀ (mds : List GameMetadata) (acc : GameMetadata),
      (mds.foldl mergeOneMetadata acc).genres
        = ((mds.map GameMetadata.genres).flatten).foldl
            (fun gs g => if g ∈ gs then gs else gs ++ [g]) acc.genres := by
  intro mds
  induction mds with
  | nil => intro acc; rfl
  | cons md rest ih =>
    intro acc
    rw [List.foldl_cons, ih, List.map_cons, List.flatten_cons, List.foldl_append]
    rfl

/-- C2: priority-ordered metadata merging — every scalar field of the
merged `GameMetadata` is the first non-empty value offered in
priority order (`name`: first non-empty string; option fields: first
`Some`), a filled field is never overwritten by a later (lower-priority)
provider, `genres` accumulates the de-duplicated, first-seen-ordered union
over all non-error providers, and `sources` lists exactly the non-error
providers in order; on the two-provider scenario (`priorityA=10`
developer="Nintendo"; `priorityB=20` developer="Other",
genres=["Platform"]) the aggregate is developer="Nintendo",
genres=["Platform"]. -/
theorem C2_metadata_priority_merge :
    (∀ results : List (String × Except String GameMetadata),
      (merge_metadata results).1.name
          = firstNonEmptyName ((okMetadatas results).map GameMetadata.name)
      ∧ (merge_metadata results).1.english_name
          = firstSome ((okMetadatas results).map GameMetadata.english_name)
      ∧ (merge_metadata results).1.description
          = firstSome ((okMetadatas results).map GameMetadata.description)
      ∧ (merge_metadata results).1.release_date
          = firstSome ((okMetadatas results).map GameMetadata.release_date)
      ∧ (merge_metadata results).1.developer
          = firstSome ((okMetadatas results).map GameMetadata.developer)
      ∧ (merge_metadata results).1.publisher
          = firstSome ((okMetadatas results).map GameMetadata.publisher)
      ∧ (merge_metadata results).1.players
          = firstSome ((okMetadatas results).map GameMetadata.players)
      ∧ (merge_metadata results).1.rating
          = firstSome ((okMetadatas results).map GameMetadata.rating)
      ∧ (merge_metadata results).1.genres
          = dedupFirst (((okMetadatas results).map GameMetadata.genres).flatten)
      ∧ (merge_metadata results).2 = okSources results)
    ∧ aggregate_metadata C2manager C2best
        = ({ developer := some "Nintendo", genres := ["Platform"] }, ["A", "B"]) := by
  constructor
  · intro results
    rw [merge_metadata_eq]
    refine ⟨?_, ?_, ?_, ?_, ?_, ?_, ?_, ?_, ?_, rfl⟩
    · rw [foldl_merge_name, show ({} : GameMetadata).name = "" from rfl,
        firstNonEmptyName_cons_empty]
    · exact foldl_merge_opt (fun g => g.english_name) (fun a m => rfl) _ {}
    · exact foldl_merge_opt (fun g => g.description) (fun a m => rfl) _ {}
    · exact foldl_merge_opt (fun g => g.release_date) (fun a m => rfl) _ {}
    · exact foldl_merge_opt (fun g => g.developer) (fun a m => rfl) _ {}
    · exact foldl_merge_opt (fun g => g.publisher) (fun a m => rfl) _ {}
    · exact foldl_merge_opt (fun g => g.players) (fun a m => rfl) _ {}
    · exact foldl_merge_opt (fun g => g.rating) (fun a m => rfl) _ {}
    · rw [foldl_merge_genres]
      rfl
  · decide

/-! ### Extension-map and merge-write lemmas -/

theorem lookupExtra_cons_eq (k1 v1 k : Str) (rest : List (Str × Str)) (h : k1 = k) :
    lookupExtra k ((k1, v1) :: rest) = some v1 := by
  simp [lookupExtra, List.find?_cons, h]

theorem lookupExtra_cons_ne (k1 v1 k : Str) (rest : List (Str × Str)) (h : ¬ k1 = k) :
    lookupExtra k ((k1, v1) :: rest) = lookupExtra k rest := by
  simp [lookupExtra, List.find?_cons, h]

theorem lookupExtra_insertExtra_self (k v : Str) :
    ∀ l, lookupExtra k (insertExtra k v l) = some v := by
  intro l
  induction l with
  | nil => simp [insertExtra, lookupExtra]
  | cons kv rest ih =>
    obtain ⟨k1, v1⟩ := kv
    rw [insertExtra]
    by_cases h1 : k = k1
    · rw [if_pos h1]
      exact lookupExtra_cons_eq k v k rest rfl
    · rw [if_neg h1]
      by_cases h2 : strLt k k1
      · rw [if_pos h2]
        exact lookupExtra_cons_eq k v k _ rfl
      · rw [if_neg h2, lookupExtra_cons_ne k1 v1 k _ (fun h => h1 h.symm)]
        exact ih

theorem lookupExtra_insertExtra_ne {k' k : Str} (hne : k' ≠ k) (v : Str) :
    ∀ l, lookupExtra k' (insertExtra k v l) = lookupExtra k' l := by
  intro l
  induction l with
  | nil =>
    show lookupExtra k' [(k, v)] = lookupExtra k' []
    rw [lookupExtra_cons_ne k v k' [] (fun h => hne h.symm)]
  | cons kv rest ih =>
    obtain ⟨k1, v1⟩ := kv
    rw [insertExtra]
    by_cases h1 : k = k1
    · rw [if_pos h1]
      subst h1
      rw [lookupExtra_cons_ne k v k' rest (fun h => hne h.symm),
        lookupExtra_cons_ne k v1 k' rest (fun h => hne h.symm)]
    · rw [if_neg h1]
      by_cases h2 : strLt k k1
      · rw [if_pos h2]
        rw [lookupExtra_cons_ne k v k' _ (fun h => hne h.symm)]
      · rw [if_neg h2]
        by_cases h3 : k1 = k'
        · rw [lookupExtra_cons_eq k1 v1 k' _ h3, lookupExtra_cons_eq k1 v1 k' rest h3]
      
        · rw [lookupExtra_cons_ne k1 v1 k' _ h3, lookupExtra_cons_ne k1 v1 k' rest h3]
          exact ih

theorem lookupExtra_eq_none (k : Str) :
    ∀ l : List (Str × Str), k ∉ l.map Prod.fst → lookupExtra k l = none := by
  intro l
  induction l with
  | nil => intro _; rfl
  | cons kv rest ih =>
    intro h
    obtain ⟨k1, v1⟩ := kv
    simp only [List.map_cons, List.mem_cons, not_or] at h
    rw [lookupExtra_cons_ne k1 v1 k rest (fun hc => h.1 hc.symm)]
    exact ih h.2

theorem lookupExtra_foldl_insert :
    ∀ (new : List (Str × Str)) (old : List (Str × Str)) (k : Str),
      (new.map Prod.fst).Nodup →
      lookupExtra k (new.foldl (fun acc kv => insertExtra kv.1 kv.2 acc) old)
        = (lookupExtra k new).or (lookupExtra k old) := by
  intro new
  induction new with
  | nil => intro old k _; simp [lookupExtra]
  | cons kv rest ih =>
    intro old k hnd
    obtain ⟨k0, v0⟩ := kv
    simp only [List.map_cons, List.nodup_cons] at hnd
    rw [List.foldl_cons]
    show lookupExtra k (rest.foldl _ (insertExtra k0 v0 old)) = _
    rw [ih (insertExtra k0 v0 old) k hnd.2]
    by_cases hk : k = k0
    · subst hk
      rw [lookupExtra_eq_none k rest hnd.1, lookupExtra_insertExtra_self,
        lookupExtra_cons_eq k v0 k rest rfl]
      rfl
    · rw [lookupExtra_insertExtra_ne hk v0 old,
        lookupExtra_cons_ne k0 v0 k rest (fun hc => hk hc.symm)]

theorem mem_existingFileKeys_aux :
    ∀ (gs : List PegasusGame) (acc : List Str) (key : Str),
      key ∈ gs.foldl (fun acc g => acc ++ g.file.toList ++ g.files) acc
        ↔ key ∈ acc ∨ ∃ g ∈ gs, gameMatchesKey key g = true := by
  intro gs
  induction gs with
  | nil => intro acc key; simp
  | cons g rest ih =>
    intro acc key
    rw [List.foldl_cons, ih]
    constructor
    · rintro (hm | ⟨g', hg', hmat⟩)
      · rcases List.mem_append.1 hm with hm1 | hm2
        · rcases List.mem_append.1 hm1 with ha | hf
          · exact Or.inl ha
          · refine Or.inr ⟨g, List.mem_cons_self g rest, ?_⟩
            have hfe : g.file = some key := Option.mem_def.1 (Option.mem_toList.1 hf)
            rw [gameMatchesKey, Bool.or_eq_true]
            exact Or.inl (beq_iff_eq.2 hfe)
        · refine Or.inr ⟨g, List.mem_cons_self g rest, ?_⟩
          rw [gameMatchesKey, Bool.or_eq_true]
          exact Or.inr (List.elem_iff.2 hm2)
      · exact Or.inr ⟨g', List.mem_cons_of_mem g hg', hmat⟩
    · rintro (ha | ⟨g', hg', hmat⟩)
      · exact Or.inl (List.mem_append.2 (Or.inl (List.mem_append.2 (Or.inl ha))))
      · rcases List.mem_cons.1 hg' with h1 | h1
        · subst h1
          rw [gameMatchesKey, Bool.or_eq_true] at hmat
          rcases hmat with hf | hcont
          · refine Or.inl (List.mem_append.2 (Or.inl (List.mem_append.2 (Or.inr ?_))))
            exact Option.mem_toList.2 (Option.mem_def.2 (beq_iff_eq.1 hf))
          · exact Or.inl (List.mem_append.2 (Or.inr (List.elem_iff.1 hcont)))
        · exact Or.inr ⟨g', h1, hmat⟩

theorem mem_existingFileKeys (gs : List PegasusGame) (key : Str) :
    key ∈ existingFileKeys gs ↔ ∃ g ∈ gs, gameMatchesKey key g = true := by
  rw [existingFileKeys, mem_existingFileKeys_aux]
  simp

theorem updateFirstMatch_decompose (key : Str) (new : PegasusGame) :
    ∀ (pre : List PegasusGame) (old : PegasusGame) (post : List PegasusGame),
      (∀ e ∈ pre, gameMatchesKey key e = false) → gameMatchesKey key old = true →
      updateFirstMatch key new (pre ++ old :: post)
        = pre ++ mergeGameInto old new :: post := by
  intro pre
  induction pre with
  | nil =>
    intro old post _ hold
    show updateFirstMatch key new (old :: post) = _
    rw [updateFirstMatch, if_pos hold]
    rfl
  | cons e pre' ih =>
    intro old post hpre hold
    have he : gameMatchesKey key e = false := hpre e (List.mem_cons_self e pre')
    show updateFirstMatch key new (e :: (pre' ++ old :: post)) = _
    rw [updateFirstMatch, if_neg (by simp [he])]
    rw [ih old post (fun x hx => hpre x (List.mem_cons_of_mem e hx)) hold]
    rfl

theorem mergeGames_single (existing : List PegasusGame) (g : PegasusGame) (key : Str)
    (hkey : g.file.or g.files.head? = some key) :
    mergeGames existing [g]
      = if (existingFileKeys existing).contains key
        then updateFirstMatch key g existing
        else existing ++ [g] := by
  rw [mergeGames]
  show (match g.file.or g.files.head? with
        | some key =>
          if (existingFileKeys existing).contains key
          then updateFirstMatch key g existing
          else existing ++ [g]
        | none => existing ++ [g]) = _
  rw [hkey]

theorem ifIsSome_eq_or (a b : Option Str) : (if a.isSome then a else b) = a.or b := by
  cases a <;> rfl

theorem gameMatchesKey_of_fileKey (g : PegasusGame) (key : Str)
    (h : g.file.or g.files.head? = some key) :
    gameMatchesKey key g = true := by
  cases hf : g.file with
  | some a =>
    rw [hf] at h
    have ha : a = key := by
      have h2 : some a = some key := h
      injection h2
    subst ha
    simp [gameMatchesKey, hf]
  | none =>
    rw [hf] at h
    have h2 : g.files.head? = some key := h
    cases hfs : g.files with
    | nil => rw [hfs] at h2; exact Option.noConfusion h2
    | cons x xs =>
      rw [hfs] at h2
      have hx : x = key := by
        have h3 : some x = some key := h2
        injection h3
      subst hx
      simp [gameMatchesKey, hf, hfs]

set_option maxRecDepth 10000 in
/-- C1 (counterexample): merge-writing a new record carrying a fresh
`box_spine` asset onto an existing game with the same file key does NOT
overwrite `box_spine` — the merge loop of `write_pegasus_file` copies only
the six asset fields `box_front`, `box_back`, `logo`, `screenshot`,
`video`, `background`.  The merged game keeps `box_spine = "old"` even
though the new record set it to `"new"`, refuting "every Some(_) scalar
and asset field overwrites the corresponding field". -/
theorem C1_merge_write_counterexample :
    parse_pegasus_content C1oldContent
      = .ok { collections := [], games := [C1oldGame] } ∧
    mergeGames [C1oldGame] [C1newGame]
      = [{ C1oldGame with name := ("B".toList) }] ∧
    C1newGame.box_spine = some ("new".toList) ∧
    ({ C1oldGame with name := ("B".toList) } : PegasusGame).box_spine
      = some ("old".toList) ∧
    ({ C1oldGame with name := ("B".toList) } : PegasusGame).box_spine
      ≠ C1newGame.box_spine := by
  exact ⟨by decide, by decide, rfl, rfl, by decide⟩

/-- C1 (amended): for merge-write (`write_pegasus_file` with `merge = true`
on an existing file), the file is fully rewritten as the export of the
merged game list; a new game whose file key matches no existing game is
appended; a new game whose file key matches is merged into the FIRST
matching existing game in place, where the new record's non-empty `name`,
its `Some` scalar fields and ONLY the six asset fields `box_front`,
`box_back`, `logo`, `screenshot`, `video`, `background` win, the extension
map is merged key-by-key with new values winning, and every other field of
the existing record — `file`, `files` and the remaining asset fields —
is left untouched; writing a game with the same file key twice leaves
exactly one game with that key, the second write's fields winning. -/
theorem C1_merge_write_amended
    (content : Str) (md : PegasusMetadata)
    (hparse : parse_pegasus_content content = .ok md)
    (g : PegasusGame) (key : Str)
    (hkey : g.file.or g.files.head? = some key)
    (hnd : (g.extra.map Prod.fst).Nodup)
    (o : PegasusExportOptions) :
    write_pegasus_content (some content) [g] o true
      = .ok (export_to_pegasus (mergeGames md.games [g]) o) ∧
    ((∀ e ∈ md.games, gameMatchesKey key e = false) →
      mergeGames md.games [g] = md.games ++ [g]) ∧
    (∀ pre old post, md.games = pre ++ old :: post →
      (∀ e ∈ pre, gameMatchesKey key e = false) →
      gameMatchesKey key old = true →
      mergeGames md.games [g] = pre ++ mergeGameInto old g :: post) ∧
    (∀ old : PegasusGame,
      (mergeGameInto old g).name
        = (if g.name.isEmpty then old.name else g.name) ∧
      (mergeGameInto old g).developer = g.developer.or old.developer ∧
      (mergeGameInto old g).publisher = g.publisher.or old.publisher ∧
      (mergeGameInto old g).genre = g.genre.or old.genre ∧
      (mergeGameInto old g).players = g.players.or old.players ∧
      (mergeGameInto old g).summary = g.summary.or old.summary ∧
      (mergeGameInto old g).description = g.description.or old.description ∧
      (mergeGameInto old g).release = g.release.or old.release ∧
      (mergeGameInto old g).rating = g.rating.or old.rating ∧
      (mergeGameInto old g).sort_title = g.sort_title.or old.sort_title ∧
      (mergeGameInto old g).box_front = g.box_front.or old.box_front ∧
      (mergeGameInto old g).box_back = g.box_back.or old.box_back ∧
      (mergeGameInto old g).logo = g.logo.or old.logo ∧
      (mergeGameInto old g).screenshot = g.screenshot.or old.screenshot ∧
      (mergeGameInto old g).video = g.video.or old.video ∧
      (mergeGameInto old g).background = g.background.or old.background ∧
      (∀ k, lookupExtra k (mergeGameInto old g).extra
          = (lookupExtra k g.extra).or (lookupExtra k old.extra))) ∧
    (∀ old : PegasusGame,
      (mergeGameInto old g).file = old.file ∧
      (mergeGameInto old g).files = old.files ∧
      (mergeGameInto old g).box_spine = old.box_spine ∧
      (mergeGameInto old g).box_full = old.box_full ∧
      (mergeGameInto old g).cartridge = old.cartridge ∧
      (mergeGameInto old g).marquee = old.marquee ∧
      (mergeGameInto old g).bezel = old.bezel ∧
      (mergeGameInto old g).gridicon = old.gridicon ∧
      (mergeGameInto old g).flyer = old.flyer ∧
      (mergeGameInto old g).music = old.music ∧
      (mergeGameInto old g).titlescreen = old.titlescreen) ∧
    (∀ (content2 : Str) (md2 : PegasusMetadata) (g2 : PegasusGame),
      parse_pegasus_content content2 = .ok md2 →
      md2.games = md.games ++ [g] →
      (∀ e ∈ md.games, gameMatchesKey key e = false) →
      g2.file.or g2.files.head? = some key →
      write_pegasus_content (some content2) [g2] o true
        = .ok (export_to_pegasus (md.games ++ [mergeGameInto g g2]) o) ∧
      (md.games ++ [mergeGameInto g g2]).countP
          (fun e => gameMatchesKey key e) = 1) := by
  refine ⟨?_, ?_, ?_, ?_, ?_, ?_⟩
  · have hw : write_pegasus_content (some content) [g] o true
        = match parse_pegasus_content content with
          | .error e => .error e
          | .ok md1 => .ok (export_to_pegasus (mergeGames md1.games [g]) o) := rfl
    rw [hw, hparse]
  · intro hall2
    have hnc : ¬ ((existingFileKeys md.games).contains key = true) := by
      intro hcc
      rcases (mem_existingFileKeys md.games key).1 (List.elem_iff.1 hcc) with ⟨e, he, hm⟩
      rw [hall2 e he] at hm
      exact Bool.noConfusion hm
    rw [mergeGames_single md.games g key hkey, if_neg hnc]
  · intro pre old post hsplit hpre hold
    have hmem : key ∈ existingFileKeys md.games := by
      rw [mem_existingFileKeys]
      exact ⟨old, by
        rw [hsplit]; exact List.mem_append.2 (Or.inr (List.mem_cons_self old post)), hold⟩
    rw [mergeGames_single md.games g key hkey, if_pos (List.elem_iff.2 hmem), hsplit]
    exact updateFirstMatch_decompose key g pre old post hpre hold
  · intro old
    refine ⟨?_, ?_, ?_, ?_, ?_, ?_, ?_, ?_, ?_, ?_, ?_, ?_, ?_, ?_, ?_, ?_, ?_⟩
    · by_cases hn : g.name.isEmpty <;> simp [mergeGameInto, hn]
    · exact ifIsSome_eq_or g.developer old.developer
    · exact ifIsSome_eq_or g.publisher old.publisher
    · exact ifIsSome_eq_or g.genre old.genre
    · exact ifIsSome_eq_or g.players old.players
    · exact ifIsSome_eq_or g.summary old.summary
    · exact ifIsSome_eq_or g.description old.description
    · exact ifIsSome_eq_or g.release old.release
    · exact ifIsSome_eq_or g.rating old.rating
    · exact ifIsSome_eq_or g.sort_title old.sort_title
    · exact ifIsSome_eq_or g.box_front old.box_front
    · exact ifIsSome_eq_or g.box_back old.box_back
    · exact ifIsSome_eq_or g.logo old.logo
    · exact ifIsSome_eq_or g.screenshot old.screenshot
    · exact ifIsSome_eq_or g.video old.video
    · exact ifIsSome_eq_or g.background old.background
    · intro k
      exact lookupExtra_foldl_insert g.extra old.extra k hnd
  · intro old
    exact ⟨rfl, rfl, rfl, rfl, rfl, rfl, rfl, rfl, rfl, rfl, rfl⟩
  · intro content2 md2 g2 hparse2 hmd2 hall hkey2
    have hgm : gameMatchesKey key g = true := gameMatchesKey_of_fileKey g key hkey
    have hmerge : mergeGames md2.games [g2] = md.games ++ [mergeGameInto g g2] := by
      have hmem : key ∈ existingFileKeys (md.games ++ [g]) :=
        (mem_existingFileKeys _ key).2 ⟨g, by simp, hgm⟩
      rw [hmd2, mergeGames_single (md.games ++ [g]) g2 key hkey2,
        if_pos (List.elem_iff.2 hmem)]
      exact updateFirstMatch_decompose key g2 md.games g [] hall hgm
    constructor
    · have hw : write_pegasus_content (some content2) [g2] o true
          = match parse_pegasus_content content2 with
            | .error e => .error e
            | .ok md1 => .ok (export_to_pegasus (mergeGames md1.games [g2]) o) := rfl
      rw [hw, hparse2]
      show Except.ok (export_to_pegasus (mergeGames md2.games [g2]) o) = _
      rw [hmerge]
    · have hgm2 : gameMatchesKey key (mergeGameInto g g2) = true := hgm
      rw [List.countP_append]
      have h0 : md.games.countP (fun e => gameMatchesKey key e) = 0 := by
        rw [List.countP_eq_zero]
        intro e he
        simp [hall e he]
      rw [h0]
      simp [List.countP_cons, hgm2]

set_option maxRecDepth 10000 in
/-- C1 (witness for the amended theorem): at the concrete scenario the
merged file is the export of the merged list, and the single new record is
merged into the single existing record. -/
theorem C1_merge_write_amended_witness :
    write_pegasus_content (some C1oldContent) [C1newGame] {} true
      = .ok (export_to_pegasus (mergeGames [C1oldGame] [C1newGame]) {}) ∧
    mergeGames [C1oldGame] [C1newGame] = [mergeGameInto C1oldGame C1newGame] := by
  have h := C1_merge_write_amended C1oldContent
      { collections := [], games := [C1oldGame] } (by decide)
      C1newGame ("f".toList) (by decide) (by decide) {}
  exact ⟨h.1, h.2.2.1 [] C1oldGame [] rfl (by decide) (by decide)⟩

/-! ### Codec round-trip: string-level lemmas -/

theorem trim_space_cons (v : Str) : trim (' ' :: v) = trim v := by
  have h : (' ' : Char).isWhitespace = true := by decide
  simp [trim, trimStart, List.dropWhile_cons, h]

theorem dropWhile_concat_ne_nil (p : Char → Bool) (c : Char) (hc : ¬ p c = true) :
    ∀ l : Str, List.dropWhile p (l ++ [c]) ≠ [] := by
  intro l
  induction l with
  | nil => simp [List.dropWhile_cons, hc]
  | cons a l2 ih =>
    by_cases ha : p a = true
    · simpa [List.dropWhile_cons, ha] using ih
    · simp [List.dropWhile_cons, ha]

theorem trimEnd_cons_ne_nil {c : Char} (r : Str) (hc : ¬ c.isWhitespace) :
    trimEnd (c :: r) ≠ [] := by
  intro h
  rw [trimEnd, List.reverse_cons, List.reverse_eq_nil_iff] at h
  exact dropWhile_concat_ne_nil Char.isWhitespace c (by simpa using hc) r.reverse h

theorem trimStart_cons_nws {c : Char} (r : Str) (hc : ¬ c.isWhitespace) :
    trimStart (c :: r) = c :: r := by
  simp [trimStart, List.dropWhile_cons, hc]

theorem trim_cons_ne_nil {c : Char} (r : Str) (hc : ¬ c.isWhitespace) :
    trim (c :: r) ≠ [] := by
  rw [trim, trimStart_cons_nws r hc]
  exact trimEnd_cons_ne_nil r hc

theorem isEmpty_trim_cons {c : Char} (r : Str) (hc : ¬ c.isWhitespace) :
    (trim (c :: r)).isEmpty = false := by
  cases he : trim (c :: r) with
  | nil => exact absurd he (trim_cons_ne_nil r hc)
  | cons x xs => rfl

theorem splitWs_token {v : Str} (h : tokenVal v) : splitWs v = [v] := by
  obtain ⟨hne, hw⟩ := h
  have h2 := splitWs_word_append v [] hne hw (Or.inl rfl)
  simpa using h2

theorem replaceNl_eq_self {s : Str} (h : noNl s) : replaceNl s = s := by
  induction s with
  | nil => rfl
  | cons c cs ih =>
    have hc := h c (List.mem_cons_self c cs)
    have ihr : replaceNl cs = cs := ih (fun x hx => h x (List.mem_cons_of_mem c hx))
    show (if c = '\n' then ' ' else c) :: replaceNl cs = c :: cs
    rw [if_neg hc.1, ihr]

theorem splitFirst_kvLine (k v : Str) (h : ':' ∉ k) :
    splitFirst ':' (kvLine k v) = some (k, ' ' :: v) := by
  induction k with
  | nil => rfl
  | cons c k2 ih =>
    have hc : ¬ c = ':' := fun hcc => h (by rw [hcc]; exact List.mem_cons_self ':' k2)
    have ihr := ih (fun hm => h (List.mem_cons_of_mem c hm))
    show splitFirst ':' (c :: kvLine k2 v) = some (c :: k2, ' ' :: v)
    rw [splitFirst, if_neg hc, ihr]
    rfl

theorem splitOnChar_line (s l : Str) (hl : '\n' ∉ l) :
    splitOnChar '\n' (l ++ '\n' :: s) = l :: splitOnChar '\n' s := by
  induction l with
  | nil =>
    show splitOnChar '\n' ('\n' :: s) = [] :: splitOnChar '\n' s
    rw [splitOnChar, if_pos rfl]
  | cons c l2 ih =>
    have hc : ¬ c = '\n' := fun hcc => hl (by rw [hcc]; exact List.mem_cons_self _ _)
    have ihr := ih (fun hm => hl (List.mem_cons_of_mem c hm))
    show splitOnChar '\n' (c :: (l2 ++ '\n' :: s)) = (c :: l2) :: splitOnChar '\n' s
    rw [splitOnChar, if_neg hc, ihr]

theorem splitOnChar_joinLines (ls : List Str) (h : ∀ l ∈ ls, '\n' ∉ l) :
    splitOnChar '\n' (joinLines ls) = ls ++ [[]] := by
  induction ls with
  | nil => rfl
  | cons l ls2 ih =>
    have hl := h l (List.mem_cons_self _ _)
    have ihr := ih (fun x hx => h x (List.mem_cons_of_mem l hx))
    show splitOnChar '\n' ((l ++ ['\n']) ++ joinLines ls2) = (l :: ls2) ++ [[]]
    rw [List.append_assoc]
    show splitOnChar '\n' (l ++ '\n' :: joinLines ls2) = _
    rw [splitOnChar_line _ l hl, ihr]
    rfl

theorem mem_of_getLast (l : Str) (a : Char) : l.getLast? = some a → a ∈ l := by
  induction l with
  | nil => intro h; exact Option.noConfusion h
  | cons c cs ih =>
    intro h
    cases cs with
    | nil =>
      have hca : c = a := by simpa [List.getLast?] using h
      rw [← hca]
      exact List.mem_cons_self c []
    | cons d ds =>
      have h2 : (d :: ds).getLast? = some a := by
        simpa [List.getLast?_cons_cons] using h
      exact List.mem_cons_of_mem c (ih h2)

theorem stripCR_eq_self {l : Str} (h : noNl l) : stripCR l = l := by
  rw [stripCR, if_neg]
  intro hc
  exact (h '\r' (mem_of_getLast l '\r' hc)).2 rfl

theorem rustLines_joinLines (ls : List Str) (h : ∀ l ∈ ls, noNl l) :
    rustLines (joinLines ls) = ls := by
  have hnl : ∀ l ∈ ls, '\n' ∉ l := fun l hl hm => ((h l hl) '\n' hm).1 rfl
  simp only [rustLines]
  rw [splitOnChar_joinLines ls hnl, List.getLast?_concat, if_pos rfl,
    List.dropLast_concat]
  calc ls.map stripCR = ls.map id :=
        List.map_congr_left (fun l hl => stripCR_eq_self (h l hl))
    _ = ls := List.map_id ls

theorem strLt_irrefl : ∀ s : Str, strLt s s = false := by
  intro s
  induction s with
  | nil => rfl
  | cons a as ih =>
    rw [strLt]
    simp [lt_irrefl, ih]

theorem strLt_asymm : ∀ a b : Str, strLt a b = true → strLt b a = false := by
  intro a
  induction a with
  | nil =>
    intro b h
    cases b with
    | nil => exact absurd h (by rw [strLt]; simp)
    | cons y ys => rfl
  | cons x xs ih =>
    intro b h
    cases b with
    | nil => exact Bool.noConfusion h
    | cons y ys =>
      rw [strLt] at h
      rw [strLt]
      by_cases hxy : x < y
      · rw [if_neg (lt_asymm hxy), if_pos hxy]
      · rw [if_neg hxy] at h
        by_cases hyx : y < x
        · rw [if_pos hyx] at h
          exact Bool.noConfusion h
        · rw [if_neg hyx] at h
          rw [if_neg hyx, if_neg hxy]
          exact ih ys h

theorem insertExtra_append_lt (k v : Str) :
    ∀ acc : List (Str × Str), (∀ e ∈ acc, strLt e.1 k = true) →
      insertExtra k v acc = acc ++ [(k, v)] := by
  intro acc
  induction acc with
  | nil => intro _; rfl
  | cons e rest ih =>
    intro h
    obtain ⟨k1, v1⟩ := e
    have h1 : strLt k1 k = true := h (k1, v1) (List.mem_cons_self _ _)
    have hne : ¬ k = k1 := by
      intro he
      rw [he] at h1
      rw [strLt_irrefl k1] at h1
      exact Bool.noConfusion h1
    have hlt : strLt k k1 = false := strLt_asymm k1 k h1
    rw [insertExtra, if_neg hne, if_neg (fun hc => Bool.noConfusion (hlt ▸ hc))]
    rw [ih (fun e2 he2 => h e2 (List.mem_cons_of_mem _ he2))]
    rfl

theorem foldl_insertExtra_sorted :
    ∀ (l acc : List (Str × Str)),
      List.Pairwise (fun a b => strLt a.1 b.1 = true) l →
      (∀ e ∈ acc, ∀ f ∈ l, strLt e.1 f.1 = true) →
      l.foldl (fun acc2 kv => insertExtra kv.1 kv.2 acc2) acc = acc ++ l := by
  intro l
  induction l with
  | nil => intro acc _ _; simp
  | cons kv rest ih =>
    intro acc hp hlt
    obtain ⟨k, v⟩ := kv
    rw [List.pairwise_cons] at hp
    rw [List.foldl_cons]
    have h1 : insertExtra k v acc = acc ++ [(k, v)] :=
      insertExtra_append_lt k v acc (fun e he => hlt e he (k, v) (List.mem_cons_self _ _))
    rw [h1, ih (acc ++ [(k, v)]) hp.2]
    · simp
    · intro e he f hf
      rcases List.mem_append.1 he with he1 | he2
      · exact hlt e he1 f (List.mem_cons_of_mem _ hf)
      · have he3 : e = (k, v) := by simpa using he2
        rw [he3]
        exact hp.1 f hf

/-! ### Codec round-trip: the actions of `apply_key_value` -/

theorem applyKV_game (k v : Str) (cc : Option PegasusCollection) (g : PegasusGame) :
    applyKV k v cc (some g) = (cc, some (gameApply k v g)) := rfl

theorem applyKV_coll (k v : Str) (c : PegasusCollection) :
    applyKV k v (some c) none = (some (collApply k v c), none) := rfl

theorem applyKV_nn (k v : Str) : applyKV k v none none = (none, none) := rfl

theorem pstep_sortby (v : Str) (g : PegasusGame) :
    pstep g ("sort-by".toList, v) = { g with sort_title := some v } := rfl

theorem pstep_file (v : Str) (g : PegasusGame) :
    pstep g ("file".toList, v) = { g with file := some v } := rfl

theorem pstep_developer (v : Str) (g : PegasusGame) :
    pstep g ("developer".toList, v) = { g with developer := some v } := rfl

theorem pstep_publisher (v : Str) (g : PegasusGame) :
    pstep g ("publisher".toList, v) = { g with publisher := some v } := rfl

theorem pstep_genre (v : Str) (g : PegasusGame) :
    pstep g ("genre".toList, v) = { g with genre := some v } := rfl

theorem pstep_players (v : Str) (g : PegasusGame) :
    pstep g ("players".toList, v) = { g with players := some v } := rfl

theorem pstep_release (v : Str) (g : PegasusGame) :
    pstep g ("release".toList, v) = { g with release := some v } := rfl

theorem pstep_rating (v : Str) (g : PegasusGame) :
    pstep g ("rating".toList, v) = { g with rating := some v } := rfl

theorem pstep_summary (v : Str) (g : PegasusGame) :
    pstep g ("summary".toList, v) = { g with summary := some v } := rfl

theorem pstep_description (v : Str) (g : PegasusGame) :
    pstep g ("description".toList, v) = { g with description := some v } := rfl

theorem pstep_boxFront (v : Str) (g : PegasusGame) :
    pstep g ("assets.boxFront".toList, v)
      = { g with box_front := (splitWs v).head? } := rfl

theorem pstep_boxBack (v : Str) (g : PegasusGame) :
    pstep g ("assets.boxBack".toList, v)
      = { g with box_back := (splitWs v).head? } := rfl

theorem pstep_boxSpine (v : Str) (g : PegasusGame) :
    pstep g ("assets.boxSpine".toList, v)
      = { g with box_spine := (splitWs v).head? } := rfl

theorem pstep_boxFull (v : Str) (g : PegasusGame) :
    pstep g ("assets.boxFull".toList, v)
      = { g with box_full := (splitWs v).head? } := rfl

theorem pstep_cartridge (v : Str) (g : PegasusGame) :
    pstep g ("assets.cartridge".toList, v)
      = { g with cartridge := (splitWs v).head? } := rfl

theorem pstep_logo (v : Str) (g : PegasusGame) :
    pstep g ("assets.logo".toList, v)
      = { g with logo := (splitWs v).head? } := rfl

theorem pstep_marquee (v : Str) (g : PegasusGame) :
    pstep g ("assets.marquee".toList, v)
      = { g with marquee := (splitWs v).head? } := rfl

theorem pstep_bezel (v : Str) (g : PegasusGame) :
    pstep g ("assets.bezel".toList, v)
      = { g with bezel := (splitWs v).head? } := rfl

theorem pstep_gridicon (v : Str) (g : PegasusGame) :
    pstep g ("assets.gridicon".toList, v)
      = { g with gridicon := (splitWs v).head? } := rfl

theorem pstep_flyer (v : Str) (g : PegasusGame) :
    pstep g ("assets.flyer".toList, v)
      = { g with flyer := (splitWs v).head? } := rfl

theorem pstep_background (v : Str) (g : PegasusGame) :
    pstep g ("assets.background".toList, v)
      = { g with background := (splitWs v).head? } := rfl

theorem pstep_music (v : Str) (g : PegasusGame) :
    pstep g ("assets.music".toList, v)
      = { g with music := (splitWs v).head? } := rfl

theorem pstep_screenshot (v : Str) (g : PegasusGame) :
    pstep g ("assets.screenshot".toList, v)
      = { g with screenshot := (splitWs v).head? } := rfl

theorem pstep_titlescreen (v : Str) (g : PegasusGame) :
    pstep g ("assets.titlescreen".toList, v)
      = { g with titlescreen := (splitWs v).head? } := rfl

theorem pstep_video (v : Str) (g : PegasusGame) :
    pstep g ("assets.video".toList, v)
      = { g with video := (splitWs v).head? } := rfl

theorem cstep_extensions (v : Str) (c : PegasusCollection) :
    cstep c ("extensions".toList, v) = { c with extensions := splitWs v } := rfl

theorem cstep_launch (v : Str) (c : PegasusCollection) :
    cstep c ("launch".toList, v) = { c with launch_command := some v } := rfl

theorem cstep_workdir (v : Str) (c : PegasusCollection) :
    cstep c ("workdir".toList, v) = { c with workdir := some v } := rfl

theorem flushPending_curKey (st : ParseState) :
    (flushPending st).curKey = none := by
  cases h : st.curKey with
  | none => rw [flushPending, h]; exact h
  | some k => rw [flushPending, h]

theorem gameApply_extra (k v : Str) (g : PegasusGame)
    (hlow : strLower k = k) (hpre : ("x-".toList).isPrefixOf k = true) :
    gameApply k v g = { g with extra := insertExtra k v g.extra } := by
  obtain ⟨k2, rfl⟩ : ∃ k2, k = 'x' :: '-' :: k2 := by
    cases k with
    | nil => exact absurd hpre (by decide)
    | cons a k1 =>
      cases k1 with
      | nil =>
        simp [List.isPrefixOf] at hpre
      | cons b k2 =>
        have hab : 'x' = a ∧ '-' = b := by
          simpa [List.isPrefixOf] using hpre
        refine ⟨k2, ?_⟩
        rw [← hab.1, ← hab.2]
  by_cases hen : ('x' :: '-' :: k2 : Str) = "x-english-name".toList
  · rw [hen]
    rfl
  · simp +decide [gameApply, applyKV, hlow, hen, hpre]
    intro h2
    rw [h2]

theorem pstep_extraKV (k v : Str) (g : PegasusGame)
    (hk : extraKeyWf k) :
    pstep g (k, v) = { g with extra := insertExtra k v g.extra } := by
  obtain ⟨hpre, htr, hlow, _, _⟩ := hk
  rw [pstep]
  rw [htr, hlow]
  exact gameApply_extra k v g hlow hpre

/-! ### Codec round-trip: line-level behaviour of the parser loop -/

theorem parseStep_blank (st : ParseState) : parseStep st [] = st := rfl

theorem parseStep_kv (st : ParseState) (k v : Str) (hh : headOk k) (hcol : ':' ∉ k)
    (hnc : strLower (trim k) ≠ ("collection".toList))
    (hng : strLower (trim k) ≠ ("game".toList)) :
    parseStep st (kvLine k v)
      = { flushPending st with
          curKey := some (strLower (trim k)),
          curVal := trim (' ' :: v) } := by
  cases k with
  | nil => exact hh.elim
  | cons c k1 =>
    obtain ⟨hcw, hch⟩ := hh
    have h1 : (kvLine (c :: k1) v).head? = some c := rfl
    have h2 : (trim (kvLine (c :: k1) v)).isEmpty = false :=
      isEmpty_trim_cons (k1 ++ ':' :: ' ' :: v) hcw
    have h3 : c ≠ ' ' := fun he => hcw (by rw [he]; decide)
    have h4 : c ≠ '\t' := fun he => hcw (by rw [he]; decide)
    have h5 : splitFirst ':' (kvLine (c :: k1) v) = some (c :: k1, ' ' :: v) :=
      splitFirst_kvLine _ _ hcol
    simp [parseStep, h1, h2, h3, h4, h5, hch, hnc, hng]
    have hnc2 : strLower (trim (c :: k1))
        ≠ ('c' :: 'o' :: 'l' :: 'l' :: 'e' :: 'c' :: 't' :: 'i' :: 'o' :: 'n' :: []) := hnc
    have hng2 : strLower (trim (c :: k1)) ≠ ('g' :: 'a' :: 'm' :: 'e' :: []) := hng
    rw [if_neg hnc2, if_neg hng2]

theorem parseStep_game (st : ParseState) (n : Str) :
    parseStep st (kvLine ("game".toList) n)
      = { flushPending st with
          games := (flushPending st).games ++ (flushPending st).curGame.toList,
          curGame := some { name := trim (' ' :: n) } } := by
  have h2 : trim (kvLine ('g' :: 'a' :: 'm' :: 'e' :: []) n) ≠ [] :=
    trim_cons_ne_nil _ (by decide)
  have h3 : List.head? (kvLine ('g' :: 'a' :: 'm' :: 'e' :: []) n) = some 'g' := rfl
  have h5 : splitFirst ':' (kvLine ('g' :: 'a' :: 'm' :: 'e' :: []) n)
      = some ('g' :: 'a' :: 'm' :: 'e' :: [], ' ' :: n) :=
    splitFirst_kvLine _ _ (by decide)
  simp +decide [parseStep, h2, h3, h5]

theorem parseStep_collection (st : ParseState) (n : Str) :
    parseStep st (kvLine ("collection".toList) n)
      = { flushPending st with
          games := (flushPending st).games ++ (flushPending st).curGame.toList,
          collections :=
            (flushPending st).collections ++ (flushPending st).curColl.toList,
          curGame := none,
          curColl := some { name := trim (' ' :: n) } } := by
  have h2 : trim (kvLine
        ('c' :: 'o' :: 'l' :: 'l' :: 'e' :: 'c' :: 't' :: 'i' :: 'o' :: 'n' :: []) n) ≠ [] :=
    trim_cons_ne_nil _ (by decide)
  have h3 : List.head? (kvLine
        ('c' :: 'o' :: 'l' :: 'l' :: 'e' :: 'c' :: 't' :: 'i' :: 'o' :: 'n' :: []) n)
      = some 'c' := rfl
  have h5 : splitFirst ':' (kvLine
        ('c' :: 'o' :: 'l' :: 'l' :: 'e' :: 'c' :: 't' :: 'i' :: 'o' :: 'n' :: []) n)
      = some ('c' :: 'o' :: 'l' :: 'l' :: 'e' :: 'c' :: 't' :: 'i' :: 'o' :: 'n' :: [],
          ' ' :: n) :=
    splitFirst_kvLine _ _ (by decide)
  simp +decide [parseStep, h2, h3, h5]

theorem kv_run_pending :
    ∀ (ps : List (Str × Str)), (∀ p ∈ ps, kvWf p) →
    ∀ (cols : List PegasusCollection) (gms : List PegasusGame)
      (cc : Option PegasusCollection) (h : PegasusGame) (K V : Str),
    flushPending (List.foldl parseStep
        ⟨cols, gms, cc, some h, some K, V⟩ (ps.map (fun p => kvLine p.1 p.2)))
      = ⟨cols, gms, cc, some (ps.foldl pstep (gameApply K V h)), none, []⟩ := by
  intro ps
  induction ps with
  | nil =>
    intro _ cols gms cc h K V
    show flushPending ⟨cols, gms, cc, some h, some K, V⟩ = _
    simp [flushPending, applyKV_game]
  | cons p ps2 ih =>
    intro hwf cols gms cc h K V
    obtain ⟨hh, hcol, hnc, hng, htv, _, _⟩ := hwf p (List.mem_cons_self _ _)
    rw [List.map_cons, List.foldl_cons, parseStep_kv _ p.1 p.2 hh hcol hnc hng]
    have hf : flushPending (⟨cols, gms, cc, some h, some K, V⟩ : ParseState)
        = ⟨cols, gms, cc, some (gameApply K V h), none, []⟩ := by
      simp [flushPending, applyKV_game]
    rw [hf, htv]
    show flushPending (List.foldl parseStep
        ⟨cols, gms, cc, some (gameApply K V h), some (strLower (trim p.1)), p.2⟩
        (ps2.map (fun q => kvLine q.1 q.2))) = _
    rw [ih (fun q hq => hwf q (List.mem_cons_of_mem p hq)) cols gms cc
      (gameApply K V h) (strLower (trim p.1)) p.2]
    rfl

theorem kv_run (ps : List (Str × Str)) (hwf : ∀ p ∈ ps, kvWf p)
    (cols : List PegasusCollection) (gms : List PegasusGame)
    (cc : Option PegasusCollection) (h : PegasusGame) :
    flushPending (List.foldl parseStep
        ⟨cols, gms, cc, some h, none, []⟩ (ps.map (fun p => kvLine p.1 p.2)))
      = ⟨cols, gms, cc, some (ps.foldl pstep h), none, []⟩ := by
  cases ps with
  | nil => rfl
  | cons p ps2 =>
    obtain ⟨hh, hcol, hnc, hng, htv, _, _⟩ := hwf p (List.mem_cons_self _ _)
    rw [List.map_cons, List.foldl_cons, parseStep_kv _ p.1 p.2 hh hcol hnc hng]
    have hf : flushPending (⟨cols, gms, cc, some h, none, []⟩ : ParseState)
        = ⟨cols, gms, cc, some h, none, []⟩ := rfl
    rw [hf, htv]
    show flushPending (List.foldl parseStep
        ⟨cols, gms, cc, some h, some (strLower (trim p.1)), p.2⟩
        (ps2.map (fun q => kvLine q.1 q.2))) = _
    rw [kv_run_pending ps2 (fun q hq => hwf q (List.mem_cons_of_mem p hq)) cols gms cc
      h (strLower (trim p.1)) p.2]
    rfl

theorem kv_run_coll_pending :
    ∀ (ps : List (Str × Str)), (∀ p ∈ ps, kvWf p) →
    ∀ (cols : List PegasusCollection) (gms : List PegasusGame)
      (c : PegasusCollection) (K V : Str),
    flushPending (List.foldl parseStep
        ⟨cols, gms, some c, none, some K, V⟩ (ps.map (fun p => kvLine p.1 p.2)))
      = ⟨cols, gms, some (ps.foldl cstep (collApply K V c)), none, none, []⟩ := by
  intro ps
  induction ps with
  | nil =>
    intro _ cols gms c K V
    show flushPending ⟨cols, gms, some c, none, some K, V⟩ = _
    simp [flushPending, applyKV_coll]
  | cons p ps2 ih =>
    intro hwf cols gms c K V
    obtain ⟨hh, hcol, hnc, hng, htv, _, _⟩ := hwf p (List.mem_cons_self _ _)
    rw [List.map_cons, List.foldl_cons, parseStep_kv _ p.1 p.2 hh hcol hnc hng]
    have hf : flushPending (⟨cols, gms, some c, none, some K, V⟩ : ParseState)
        = ⟨cols, gms, some (collApply K V c), none, none, []⟩ := by
      simp [flushPending, applyKV_coll]
    rw [hf, htv]
    show flushPending (List.foldl parseStep
        ⟨cols, gms, some (collApply K V c), none, some (strLower (trim p.1)), p.2⟩
        (ps2.map (fun q => kvLine q.1 q.2))) = _
    rw [ih (fun q hq => hwf q (List.mem_cons_of_mem p hq)) cols gms
      (collApply K V c) (strLower (trim p.1)) p.2]
    rfl

theorem kv_run_coll (ps : List (Str × Str)) (hwf : ∀ p ∈ ps, kvWf p)
    (cols : List PegasusCollection) (gms : List PegasusGame)
    (c : PegasusCollection) :
    flushPending (List.foldl parseStep
        ⟨cols, gms, some c, none, none, []⟩ (ps.map (fun p => kvLine p.1 p.2)))
      = ⟨cols, gms, some (ps.foldl cstep c), none, none, []⟩ := by
  cases ps with
  | nil => rfl
  | cons p ps2 =>
    obtain ⟨hh, hcol, hnc, hng, htv, _, _⟩ := hwf p (List.mem_cons_self _ _)
    rw [List.map_cons, List.foldl_cons, parseStep_kv _ p.1 p.2 hh hcol hnc hng]
    have hf : flushPending (⟨cols, gms, some c, none, none, []⟩ : ParseState)
        = ⟨cols, gms, some c, none, none, []⟩ := rfl
    rw [hf, htv]
    show flushPending (List.foldl parseStep
        ⟨cols, gms, some c, none, some (strLower (trim p.1)), p.2⟩
        (ps2.map (fun q => kvLine q.1 q.2))) = _
    rw [kv_run_coll_pending ps2 (fun q hq => hwf q (List.mem_cons_of_mem p hq)) cols gms
      c (strLower (trim p.1)) p.2]
    rfl

/-! ### Codec round-trip: folding the emitted pairs back into the records -/

theorem fold_optPair (key : Str) (x : Option Str) (A C : PegasusGame)
    (hsome : ∀ v, x = some v → pstep A (key, v) = C)
    (hnone : x = none → A = C) :
    List.foldl pstep A (optPairs key x) = C := by
  cases x with
  | none => exact hnone rfl
  | some v => exact hsome v rfl

theorem fold_sortPairs (nm : Str) (x : Option Str) (A C : PegasusGame)
    (hsome : ∀ s, x = some s → s ≠ nm ∧ pstep A ("sort-by".toList, s) = C)
    (hnone : x = none → A = C) :
    List.foldl pstep A (sortPairs nm x) = C := by
  cases x with
  | none => exact hnone rfl
  | some s =>
    obtain ⟨hne, hst⟩ := hsome s rfl
    show List.foldl pstep A (if s ≠ nm then [("sort-by".toList, s)] else []) = C
    rw [if_pos hne]
    exact hst

theorem fold_summaryPairs (x : Option Str) (A C : PegasusGame)
    (hsome : ∀ s, x = some s → pstep A ("summary".toList, replaceNl s) = C)
    (hnone : x = none → A = C) :
    List.foldl pstep A (summaryPairs x) = C := by
  cases x with
  | none => exact hnone rfl
  | some s => exact hsome s rfl

theorem fold_descPairs (x : Option Str) (A C : PegasusGame)
    (hsome : ∀ d, x = some d → pstep A ("description".toList, d) = C)
    (hnone : x = none → A = C) :
    List.foldl pstep A (descPairs x) = C := by
  cases x with
  | none => exact hnone rfl
  | some d => exact hsome d rfl

theorem fold_extraPairs :
    ∀ (l : List (Str × Str)) (A : PegasusGame), (∀ kv ∈ l, extraKeyWf kv.1) →
      List.foldl pstep A l
        = { A with
            extra := l.foldl (fun acc kv => insertExtra kv.1 kv.2 acc) A.extra } := by
  intro l
  induction l with
  | nil => intro A _; rfl
  | cons kv l2 ih =>
    intro A hwf
    obtain ⟨k, v⟩ := kv
    rw [List.foldl_cons, pstep_extraKV k v A (hwf (k, v) (List.mem_cons_self _ _))]
    rw [ih _ (fun q hq => hwf q (List.mem_cons_of_mem _ hq))]
    rfl

theorem fold_optPairC (key : Str) (x : Option Str) (A C : PegasusCollection)
    (hsome : ∀ v, x = some v → cstep A (key, v) = C)
    (hnone : x = none → A = C) :
    List.foldl cstep A (optPairs key x) = C := by
  cases x with
  | none => exact hnone rfl
  | some v => exact hsome v rfl

theorem fold_extraPairs_sorted (l : List (Str × Str)) (A : PegasusGame)
    (hwf : ∀ kv ∈ l, extraKeyWf kv.1)
    (hsorted : List.Pairwise (fun a b => strLt a.1 b.1 = true) l)
    (hA : A.extra = []) :
    List.foldl pstep A l = { A with extra := l } := by
  rw [fold_extraPairs l A hwf, hA]
  rw [foldl_insertExtra_sorted l [] hsorted
    (fun e he f hf => absurd he (List.not_mem_nil e))]
  rw [List.nil_append]

theorem fold_gamePairs (o : PegasusExportOptions) (g : PegasusGame)
    (hwf : wellFormedGame o g) :
    List.foldl pstep { name := g.name } (gamePairs o g) = g := by
  obtain ⟨nm, fl, fls, dev, pub, gen, pla, summ, desc, rel, rat, sortt,
    bf, bb, bs, bfull, cart, lg, marq, bez, grid, fly, bg, mus, scr, tit,
    vid, ext⟩ := g
  obtain ⟨hnm, hfl, hfls, hdev, hpub, hgen, hpla, hrel, hrat, hsum, hdesc,
    hsort, hassets, hext, hsorted⟩ := hwf
  subst hfls
  simp only [gamePairs, List.foldl_append, List.map_nil, List.foldl_nil]
  have e1 : List.foldl pstep ({ name := nm } : PegasusGame)
      (sortPairs nm sortt)
      = { name := nm, sort_title := sortt } := by
    apply fold_sortPairs
    · intro s hs
      rw [hs] at hsort
      refine ⟨hsort.2, ?_⟩
      rw [pstep_sortby, hs]
    · intro hx
      rw [hx]
  have e2 : List.foldl pstep ({ name := nm, sort_title := sortt } : PegasusGame)
      (optPairs ("file".toList) fl)
      = { name := nm, file := fl, sort_title := sortt } := by
    apply fold_optPair
    · intro v hv
      rw [pstep_file, hv]
    · intro hx
      rw [hx]
  have e3 : List.foldl pstep ({ name := nm, file := fl, sort_title := sortt } : PegasusGame)
      (optPairs ("developer".toList) dev)
      = { name := nm, file := fl, developer := dev, sort_title := sortt } := by
    apply fold_optPair
    · intro v hv
      rw [pstep_developer, hv]
    · intro hx
      rw [hx]
  have e4 : List.foldl pstep ({ name := nm, file := fl, developer := dev, sort_title := sortt } : PegasusGame)
      (optPairs ("publisher".toList) pub)
      = { name := nm, file := fl, developer := dev, publisher := pub, sort_title := sortt } := by
    apply fold_optPair
    · intro v hv
      rw [pstep_publisher, hv]
    · intro hx
      rw [hx]
  have e5 : List.foldl pstep ({ name := nm, file := fl, developer := dev, publisher := pub, sort_title := sortt } : PegasusGame)
      (optPairs ("genre".toList) gen)
      = { name := nm, file := fl, developer := dev, publisher := pub, genre := gen, sort_title := sortt } := by
    apply fold_optPair
    · intro v hv
      rw [pstep_genre, hv]
    · intro hx
      rw [hx]
  have e6 : List.foldl pstep ({ name := nm, file := fl, developer := dev, publisher := pub, genre := gen, sort_title := sortt } : PegasusGame)
      (optPairs ("players".toList) pla)
      = { name := nm, file := fl, developer := dev, publisher := pub, genre := gen, players := pla, sort_title := sortt } := by
    apply fold_optPair
    · intro v hv
      rw [pstep_players, hv]
    · intro hx
      rw [hx]
  have e7 : List.foldl pstep ({ name := nm, file := fl, developer := dev, publisher := pub, genre := gen, players := pla, sort_title := sortt } : PegasusGame)
      (optPairs ("release".toList) rel)
      = { name := nm, file := fl, developer := dev, publisher := pub, genre := gen, players := pla, release := rel, sort_title := sortt } := by
    apply fold_optPair
    · intro v hv
      rw [pstep_release, hv]
    · intro hx
      rw [hx]
  have e8 : List.foldl pstep ({ name := nm, file := fl, developer := dev, publisher := pub, genre := gen, players := pla, release := rel, sort_title := sortt } : PegasusGame)
      (optPairs ("rating".toList) rat)
      = { name := nm, file := fl, developer := dev, publisher := pub, genre := gen, players := pla, release := rel, rating := rat, sort_title := sortt } := by
    apply fold_optPair
    · intro v hv
      rw [pstep_rating, hv]
    · intro hx
      rw [hx]
  have e9 : List.foldl pstep ({ name := nm, file := fl, developer := dev, publisher := pub, genre := gen, players := pla, release := rel, rating := rat, sort_title := sortt } : PegasusGame)
      (summaryPairs summ)
      = { name := nm, file := fl, developer := dev, publisher := pub, genre := gen, players := pla, summary := summ, release := rel, rating := rat, sort_title := sortt } := by
    apply fold_summaryPairs
    · intro s hs
      rw [hs] at hsum
      rw [pstep_summary, replaceNl_eq_self hsum.2, hs]
    · intro hx
      rw [hx]
  have e10 : List.foldl pstep ({ name := nm, file := fl, developer := dev, publisher := pub, genre := gen, players := pla, summary := summ, release := rel, rating := rat, sort_title := sortt } : PegasusGame)
      (descPairs desc)
      = { name := nm, file := fl, developer := dev, publisher := pub, genre := gen, players := pla, summary := summ, description := desc, release := rel, rating := rat, sort_title := sortt } := by
    apply fold_descPairs
    · intro d hd
      rw [pstep_description, hd]
    · intro hx
      rw [hx]
  rw [e1, e2, e3, e4, e5, e6, e7, e8, e9, e10]
  cases hia : o.include_assets with
  | false =>
    rw [hia] at hassets
    obtain ⟨a1, a2, a3, a4, a5, a6, a7, a8, a9, a10, a11, a12, a13, a14, a15⟩ :=
      hassets
    subst a1
    subst a2
    subst a3
    subst a4
    subst a5
    subst a6
    subst a7
    subst a8
    subst a9
    subst a10
    subst a11
    subst a12
    subst a13
    subst a14
    subst a15
    rw [if_neg (show ¬ (false : Bool) = true by simp)]
    rw [fold_extraPairs_sorted ext _ (fun kv hkv => (hext kv hkv).1) hsorted rfl]
    rfl
  | true =>
    rw [hia] at hassets
    obtain ⟨t1, t2, t3, t4, t5, t6, t7, t8, t9, t10, t11, t12, t13, t14, t15⟩ :=
      hassets
    rw [if_pos (rfl : (true : Bool) = true)]
    simp only [List.foldl_append]
    have f1 : List.foldl pstep ({ name := nm, file := fl, developer := dev, publisher := pub, genre := gen, players := pla, summary := summ, description := desc, release := rel, rating := rat, sort_title := sortt } : PegasusGame)
        (optPairs ("assets.boxFront".toList) bf)
        = { name := nm, file := fl, developer := dev, publisher := pub, genre := gen, players := pla, summary := summ, description := desc, release := rel, rating := rat, sort_title := sortt, box_front := bf } := by
      apply fold_optPair
      · intro v hv
        rw [hv] at t1
        rw [pstep_boxFront, splitWs_token t1, hv]
        rfl
      · intro hx
        rw [hx]
    have f2 : List.foldl pstep ({ name := nm, file := fl, developer := dev, publisher := pub, genre := gen, players := pla, summary := summ, description := desc, release := rel, rating := rat, sort_title := sortt, box_front := bf } : PegasusGame)
        (optPairs ("assets.boxBack".toList) bb)
        = { name := nm, file := fl, developer := dev, publisher := pub, genre := gen, players := pla, summary := summ, description := desc, release := rel, rating := rat, sort_title := sortt, box_front := bf, box_back := bb } := by
      apply fold_optPair
      · intro v hv
        rw [hv] at t2
        rw [pstep_boxBack, splitWs_token t2, hv]
        rfl
      · intro hx
        rw [hx]
    have f3 : List.foldl pstep ({ name := nm, file := fl, developer := dev, publisher := pub, genre := gen, players := pla, summary := summ, description := desc, release := rel, rating := rat, sort_title := sortt, box_front := bf, box_back := bb } : PegasusGame)
        (optPairs ("assets.boxSpine".toList) bs)
        = { name := nm, file := fl, developer := dev, publisher := pub, genre := gen, players := pla, summary := summ, description := desc, release := rel, rating := rat, sort_title := sortt, box_front := bf, box_back := bb, box_spine := bs } := by
      apply fold_optPair
      · intro v hv
        rw [hv] at t3
        rw [pstep_boxSpine, splitWs_token t3, hv]
        rfl
      · intro hx
        rw [hx]
    have f4 : List.foldl pstep ({ name := nm, file := fl, developer := dev, publisher := pub, genre := gen, players := pla, summary := summ, description := desc, release := rel, rating := rat, sort_title := sortt, box_front := bf, box_back := bb, box_spine := bs } : PegasusGame)
        (optPairs ("assets.boxFull".toList) bfull)
        = { name := nm, file := fl, developer := dev, publisher := pub, genre := gen, players := pla, summary := summ, description := desc, release := rel, rating := rat, sort_title := sortt, box_front := bf, box_back := bb, box_spine := bs, box_full := bfull } := by
      apply fold_optPair
      · intro v hv
        rw [hv] at t4
        rw [pstep_boxFull, splitWs_token t4, hv]
        rfl
      · intro hx
        rw [hx]
    have f5 : List.foldl pstep ({ name := nm, file := fl, developer := dev, publisher := pub, genre := gen, players := pla, summary := summ, description := desc, release := rel, rating := rat, sort_title := sortt, box_front := bf, box_back := bb, box_spine := bs, box_full := bfull } : PegasusGame)
        (optPairs ("assets.cartridge".toList) cart)
        = { name := nm, file := fl, developer := dev, publisher := pub, genre := gen, players := pla, summary := summ, description := desc, release := rel, rating := rat, sort_title := sortt, box_front := bf, box_back := bb, box_spine := bs, box_full := bfull, cartridge := cart } := by
      apply fold_optPair
      · intro v hv
        rw [hv] at t5
        rw [pstep_cartridge, splitWs_token t5, hv]
        rfl
      · intro hx
        rw [hx]
    have f6 : List.foldl pstep ({ name := nm, file := fl, developer := dev, publisher := pub, genre := gen, players := pla, summary := summ, description := desc, release := rel, rating := rat, sort_title := sortt, box_front := bf, box_back := bb, box_spine := bs, box_full := bfull, cartridge := cart } : PegasusGame)
        (optPairs ("assets.logo".toList) lg)
        = { name := nm, file := fl, developer := dev, publisher := pub, genre := gen, players := pla, summary := summ, description := desc, release := rel, rating := rat, sort_title := sortt, box_front := bf, box_back := bb, box_spine := bs, box_full := bfull, cartridge := cart, logo := lg } := by
      apply fold_optPair
      · intro v hv
        rw [hv] at t6
        rw [pstep_logo, splitWs_token t6, hv]
        rfl
      · intro hx
        rw [hx]
    have f7 : List.foldl pstep ({ name := nm, file := fl, developer := dev, publisher := pub, genre := gen, players := pla, summary := summ, description := desc, release := rel, rating := rat, sort_title := sortt, box_front := bf, box_back := bb, box_spine := bs, box_full := bfull, cartridge := cart, logo := lg } : PegasusGame)
        (optPairs ("assets.marquee".toList) marq)
        = { name := nm, file := fl, developer := dev, publisher := pub, genre := gen, players := pla, summary := summ, description := desc, release := rel, rating := rat, sort_title := sortt, box_front := bf, box_back := bb, box_spine := bs, box_full := bfull, cartridge := cart, logo := lg, marquee := marq } := by
      apply fold_optPair
      · intro v hv
        rw [hv] at t7
        rw [pstep_marquee, splitWs_token t7, hv]
        rfl
      · intro hx
        rw [hx]
    have f8 : List.foldl pstep ({ name := nm, file := fl, developer := dev, publisher := pub, genre := gen, players := pla, summary := summ, description := desc, release := rel, rating := rat, sort_title := sortt, box_front := bf, box_back := bb, box_spine := bs, box_full := bfull, cartridge := cart, logo := lg, marquee := marq } : PegasusGame)
        (optPairs ("assets.bezel".toList) bez)
        = { name := nm, file := fl, developer := dev, publisher := pub, genre := gen, players := pla, summary := summ, description := desc, release := rel, rating := rat, sort_title := sortt, box_front := bf, box_back := bb, box_spine := bs, box_full := bfull, cartridge := cart, logo := lg, marquee := marq, bezel := bez } := by
      apply fold_optPair
      · intro v hv
        rw [hv] at t8
        rw [pstep_bezel, splitWs_token t8, hv]
        rfl
      · intro hx
        rw [hx]
    have f9 : List.foldl pstep ({ name := nm, file := fl, developer := dev, publisher := pub, genre := gen, players := pla, summary := summ, description := desc, release := rel, rating := rat, sort_title := sortt, box_front := bf, box_back := bb, box_spine := bs, box_full := bfull, cartridge := cart, logo := lg, marquee := marq, bezel := bez } : PegasusGame)
        (optPairs ("assets.gridicon".toList) grid)
        = { name := nm, file := fl, developer := dev, publisher := pub, genre := gen, players := pla, summary := summ, description := desc, release := rel, rating := rat, sort_title := sortt, box_front := bf, box_back := bb, box_spine := bs, box_full := bfull, cartridge := cart, logo := lg, marquee := marq, bezel := bez, gridicon := grid } := by
      apply fold_optPair
      · intro v hv
        rw [hv] at t9
        rw [pstep_gridicon, splitWs_token t9, hv]
        rfl
      · intro hx
        rw [hx]
    have f10 : List.foldl pstep ({ name := nm, file := fl, developer := dev, publisher := pub, genre := gen, players := pla, summary := summ, description := desc, release := rel, rating := rat, sort_title := sortt, box_front := bf, box_back := bb, box_spine := bs, box_full := bfull, cartridge := cart, logo := lg, marquee := marq, bezel := bez, gridicon := grid } : PegasusGame)
        (optPairs ("assets.flyer".toList) fly)
        = { name := nm, file := fl, developer := dev, publisher := pub, genre := gen, players := pla, summary := summ, description := desc, release := rel, rating := rat, sort_title := sortt, box_front := bf, box_back := bb, box_spine := bs, box_full := bfull, cartridge := cart, logo := lg, marquee := marq, bezel := bez, gridicon := grid, flyer := fly } := by
      apply fold_optPair
      · intro v hv
        rw [hv] at t10
        rw [pstep_flyer, splitWs_token t10, hv]
        rfl
      · intro hx
        rw [hx]
    have f11 : List.foldl pstep ({ name := nm, file := fl, developer := dev, publisher := pub, genre := gen, players := pla, summary := summ, description := desc, release := rel, rating := rat, sort_title := sortt, box_front := bf, box_back := bb, box_spine := bs, box_full := bfull, cartridge := cart, logo := lg, marquee := marq, bezel := bez, gridicon := grid, flyer := fly } : PegasusGame)
        (optPairs ("assets.background".toList) bg)
        = { name := nm, file := fl, developer := dev, publisher := pub, genre := gen, players := pla, summary := summ, description := desc, release := rel, rating := rat, sort_title := sortt, box_front := bf, box_back := bb, box_spine := bs, box_full := bfull, cartridge := cart, logo := lg, marquee := marq, bezel := bez, gridicon := grid, flyer := fly, background := bg } := by
      apply fold_optPair
      · intro v hv
        rw [hv] at t11
        rw [pstep_background, splitWs_token t11, hv]
        rfl
      · intro hx
        rw [hx]
    have f12 : List.foldl pstep ({ name := nm, file := fl, developer := dev, publisher := pub, genre := gen, players := pla, summary := summ, description := desc, release := rel, rating := rat, sort_title := sortt, box_front := bf, box_back := bb, box_spine := bs, box_full := bfull, cartridge := cart, logo := lg, marquee := marq, bezel := bez, gridicon := grid, flyer := fly, background := bg } : PegasusGame)
        (optPairs ("assets.music".toList) mus)
        = { name := nm, file := fl, developer := dev, publisher := pub, genre := gen, players := pla, summary := summ, description := desc, release := rel, rating := rat, sort_title := sortt, box_front := bf, box_back := bb, box_spine := bs, box_full := bfull, cartridge := cart, logo := lg, marquee := marq, bezel := bez, gridicon := grid, flyer := fly, background := bg, music := mus } := by
      apply fold_optPair
      · intro v hv
        rw [hv] at t12
        rw [pstep_music, splitWs_token t12, hv]
        rfl
      · intro hx
        rw [hx]
    have f13 : List.foldl pstep ({ name := nm, file := fl, developer := dev, publisher := pub, genre := gen, players := pla, summary := summ, description := desc, release := rel, rating := rat, sort_title := sortt, box_front := bf, box_back := bb, box_spine := bs, box_full := bfull, cartridge := cart, logo := lg, marquee := marq, bezel := bez, gridicon := grid, flyer := fly, background := bg, music := mus } : PegasusGame)
        (optPairs ("assets.screenshot".toList) scr)
        = { name := nm, file := fl, developer := dev, publisher := pub, genre := gen, players := pla, summary := summ, description := desc, release := rel, rating := rat, sort_title := sortt, box_front := bf, box_back := bb, box_spine := bs, box_full := bfull, cartridge := cart, logo := lg, marquee := marq, bezel := bez, gridicon := grid, flyer := fly, background := bg, music := mus, screenshot := scr } := by
      apply fold_optPair
      · intro v hv
        rw [hv] at t13
        rw [pstep_screenshot, splitWs_token t13, hv]
        rfl
      · intro hx
        rw [hx]
    have f14 : List.foldl pstep ({ name := nm, file := fl, developer := dev, publisher := pub, genre := gen, players := pla, summary := summ, description := desc, release := rel, rating := rat, sort_title := sortt, box_front := bf, box_back := bb, box_spine := bs, box_full := bfull, cartridge := cart, logo := lg, marquee := marq, bezel := bez, gridicon := grid, flyer := fly, background := bg, music := mus, screenshot := scr } : PegasusGame)
        (optPairs ("assets.titlescreen".toList) tit)
        = { name := nm, file := fl, developer := dev, publisher := pub, genre := gen, players := pla, summary := summ, description := desc, release := rel, rating := rat, sort_title := sortt, box_front := bf, box_back := bb, box_spine := bs, box_full := bfull, cartridge := cart, logo := lg, marquee := marq, bezel := bez, gridicon := grid, flyer := fly, background := bg, music := mus, screenshot := scr, titlescreen := tit } := by
      apply fold_optPair
      · intro v hv
        rw [hv] at t14
        rw [pstep_titlescreen, splitWs_token t14, hv]
        rfl
      · intro hx
        rw [hx]
    have f15 : List.foldl pstep ({ name := nm, file := fl, developer := dev, publisher := pub, genre := gen, players := pla, summary := summ, description := desc, release := rel, rating := rat, sort_title := sortt, box_front := bf, box_back := bb, box_spine := bs, box_full := bfull, cartridge := cart, logo := lg, marquee := marq, bezel := bez, gridicon := grid, flyer := fly, background := bg, music := mus, screenshot := scr, titlescreen := tit } : PegasusGame)
        (optPairs ("assets.video".toList) vid)
        = { name := nm, file := fl, developer := dev, publisher := pub, genre := gen, players := pla, summary := summ, description := desc, release := rel, rating := rat, sort_title := sortt, box_front := bf, box_back := bb, box_spine := bs, box_full := bfull, cartridge := cart, logo := lg, marquee := marq, bezel := bez, gridicon := grid, flyer := fly, background := bg, music := mus, screenshot := scr, titlescreen := tit, video := vid } := by
      apply fold_optPair
      · intro v hv
        rw [hv] at t15
        rw [pstep_video, splitWs_token t15, hv]
        rfl
      · intro hx
        rw [hx]
    rw [f1, f2, f3, f4, f5, f6, f7, f8, f9, f10, f11, f12, f13, f14, f15]
    rw [fold_extraPairs_sorted ext _ (fun kv hkv => (hext kv hkv).1) hsorted rfl]

/-! ### Codec round-trip: well-formedness of the emitted lines -/

theorem dropWhile_all {p : Char → Bool} :
    ∀ l : Str, (∀ x ∈ l, ¬ p x = true) → List.dropWhile p l = l := by
  intro l h
  cases l with
  | nil => rfl
  | cons c cs =>
    rw [List.dropWhile_cons, if_neg (h c (List.mem_cons_self c cs))]

theorem plainVal_of_token {v : Str} (h : tokenVal v) : plainVal v := by
  obtain ⟨hne, hw⟩ := h
  constructor
  · rw [trim, trimStart, dropWhile_all v hw, trimEnd,
      dropWhile_all v.reverse (fun x hx => hw x (List.mem_reverse.1 hx)),
      List.reverse_reverse]
  · intro c hc
    have hcw := hw c hc
    exact ⟨fun he => hcw (by rw [he]; decide), fun he => hcw (by rw [he]; decide)⟩

theorem plainOpt_of_tokenOpt {x : Option Str} (h : tokenOpt x) : plainOpt x := by
  cases x with
  | none => trivial
  | some v => exact plainVal_of_token h

theorem kvWf_of_plain {K v : Str}
    (hK : headOk K ∧ ':' ∉ K ∧ strLower (trim K) ≠ ("collection".toList) ∧
          strLower (trim K) ≠ ("game".toList) ∧ noNl K)
    (hv : plainVal v) : kvWf (K, v) := by
  obtain ⟨h1, h2, h3, h4, h5⟩ := hK
  exact ⟨h1, h2, h3, h4, by rw [trim_space_cons]; exact hv.1, h5, hv.2⟩

theorem mem_optPairs {key : Str} {x : Option Str} {p : Str × Str}
    (h : p ∈ optPairs key x) : ∃ v, x = some v ∧ p = (key, v) := by
  cases x with
  | none => exact absurd h (List.not_mem_nil p)
  | some v =>
    have h2 : p = (key, v) := by simpa [optPairs] using h
    exact ⟨v, rfl, h2⟩

theorem wf_optPairs {K : Str} {x : Option Str}
    (hK : headOk K ∧ ':' ∉ K ∧ strLower (trim K) ≠ ("collection".toList) ∧
          strLower (trim K) ≠ ("game".toList) ∧ noNl K)
    (hx : plainOpt x) : ∀ p ∈ optPairs K x, kvWf p := by
  intro p hp
  obtain ⟨v, hv, hpv⟩ := mem_optPairs hp
  rw [hpv]
  rw [hv] at hx
  exact kvWf_of_plain hK hx

theorem wf_sortPairs {nm : Str} {x : Option Str}
    (hx : match x with | some st => plainVal st ∧ st ≠ nm | none => True) :
    ∀ p ∈ sortPairs nm x, kvWf p := by
  intro p hp
  cases x with
  | none => exact absurd hp (List.not_mem_nil p)
  | some st =>
    by_cases hne : st ≠ nm
    · have hpv : p = ("sort-by".toList, st) := by
        have hp2 : p ∈ [("sort-by".toList, st)] := by
          have hq : sortPairs nm (some st) = [("sort-by".toList, st)] := by
            show (if st ≠ nm then [("sort-by".toList, st)] else []) = _
            rw [if_pos hne]
          rw [hq] at hp
          exact hp
        simpa using hp2
      rw [hpv]
      exact kvWf_of_plain (by decide) hx.1
    · have hq : sortPairs nm (some st) = [] := by
        show (if st ≠ nm then [("sort-by".toList, st)] else []) = []
        rw [if_neg hne]
      rw [hq] at hp
      exact absurd hp (List.not_mem_nil p)

theorem wf_summaryPairs {x : Option Str} (hx : plainOpt x) :
    ∀ p ∈ summaryPairs x, kvWf p := by
  intro p hp
  cases x with
  | none => exact absurd hp (List.not_mem_nil p)
  | some s =>
    have hpv : p = ("summary".toList, replaceNl s) := by
      simpa [summaryPairs] using hp
    rw [hpv, replaceNl_eq_self hx.2]
    exact kvWf_of_plain (by decide) hx

theorem wf_descPairs {x : Option Str}
    (hx : match x with | some d => plainVal d ∧ d ≠ [] | none => True) :
    ∀ p ∈ descPairs x, kvWf p := by
  intro p hp
  cases x with
  | none => exact absurd hp (List.not_mem_nil p)
  | some d =>
    have hpv : p = ("description".toList, d) := by simpa [descPairs] using hp
    rw [hpv]
    exact kvWf_of_plain (by decide) hx.1

theorem wf_extraPairs {l : List (Str × Str)}
    (h : ∀ kv ∈ l, extraKeyWf kv.1 ∧ plainVal kv.2) :
    ∀ p ∈ l, kvWf p := by
  intro p hp
  obtain ⟨⟨hpre, htr, hlow, hcol, hnl⟩, hv⟩ := h p hp
  refine ⟨?_, hcol, ?_, ?_, by rw [trim_space_cons]; exact hv.1, hnl, hv.2⟩
  · cases hk : p.1 with
    | nil =>
      rw [hk] at hpre
      exact absurd hpre (by decide)
    | cons c k1 =>
      rw [hk] at hpre
      have hc : c = 'x' := by
        cases k1 with
        | nil => simp [List.isPrefixOf] at hpre
        | cons b k2 =>
          have hab : 'x' = c ∧ '-' = b := by
            simpa [List.isPrefixOf] using hpre
          exact hab.1.symm
      rw [hc]
      exact ⟨by decide, by decide⟩
  · rw [htr, hlow]
    intro he
    rw [he] at hpre
    exact absurd hpre (by decide)
  · rw [htr, hlow]
    intro he
    rw [he] at hpre
    exact absurd hpre (by decide)

theorem mem_joinSpace : ∀ (ws : List Str) (c : Char),
    c ∈ joinSpace ws → c = ' ' ∨ ∃ w ∈ ws, c ∈ w := by
  intro ws
  induction ws with
  | nil => intro c hc; exact absurd hc (List.not_mem_nil c)
  | cons w ws2 ih =>
    intro c hc
    cases ws2 with
    | nil =>
      exact Or.inr ⟨w, List.mem_cons_self _ _, by simpa [joinSpace] using hc⟩
    | cons w2 ws3 =>
      have hc2 : c ∈ w ++ ' ' :: joinSpace (w2 :: ws3) := hc
      rcases List.mem_append.1 hc2 with h1 | h2
      · exact Or.inr ⟨w, List.mem_cons_self _ _, h1⟩
      · rcases List.mem_cons.1 h2 with h3 | h4
        · exact Or.inl h3
        · rcases ih c h4 with h5 | ⟨w3, hw3, hcw3⟩
          · exact Or.inl h5
          · exact Or.inr ⟨w3, List.mem_cons_of_mem _ hw3, hcw3⟩

theorem plainVal_joinSpace (ws : List Str) (h : ∀ w ∈ ws, tokenVal w) :
    plainVal (joinSpace ws) := by
  have hok : ∀ w ∈ ws, w ≠ [] ∧ ∀ c ∈ w, ¬ c.isWhitespace := fun w hw => h w hw
  refine ⟨trim_joinSpace ws hok, ?_⟩
  intro c hc
  rcases mem_joinSpace ws c hc with h1 | ⟨w, hw, hcw⟩
  · rw [h1]
    exact ⟨by decide, by decide⟩
  · have h2 := (h w hw).2 c hcw
    exact ⟨fun he => h2 (by rw [he]; decide), fun he => h2 (by rw [he]; decide)⟩

theorem splitOnChar_nosplit {c : Char} :
    ∀ l : Str, c ∉ l → splitOnChar c l = [l] := by
  intro l
  induction l with
  | nil => intro _; rfl
  | cons a l2 ih =>
    intro h
    have ha : ¬ a = c := fun he => h (by rw [he]; exact List.mem_cons_self _ _)
    have ihr := ih (fun hm => h (List.mem_cons_of_mem a hm))
    rw [splitOnChar, if_neg ha, ihr]

theorem rustLines_single {d : Str} (hnl : noNl d) (hne : d ≠ []) :
    rustLines d = [d] := by
  have hnm : '\n' ∉ d := fun hm => (hnl '\n' hm).1 rfl
  simp only [rustLines]
  rw [splitOnChar_nosplit d hnm]
  rw [if_neg]
  · show [stripCR d] = [d]
    rw [stripCR_eq_self hnl]
  · intro hc
    have : d = [] := by simpa using hc
    exact hne this

theorem gamePairs_wf (o : PegasusExportOptions) (g : PegasusGame)
    (hwf : wellFormedGame o g) : ∀ p ∈ gamePairs o g, kvWf p := by
  obtain ⟨hnm, hfl, hfls, hdev, hpub, hgen, hpla, hrel, hrat, hsum, hdesc,
    hsort, hassets, hext, hsorted⟩ := hwf
  rw [gamePairs, hfls]
  simp only [List.map_nil, List.append_nil]
  refine List.forall_mem_append.2 ⟨List.forall_mem_append.2 ⟨List.forall_mem_append.2 ⟨List.forall_mem_append.2 ⟨List.forall_mem_append.2 ⟨List.forall_mem_append.2 ⟨List.forall_mem_append.2 ⟨List.forall_mem_append.2 ⟨List.forall_mem_append.2 ⟨List.forall_mem_append.2 ⟨List.forall_mem_append.2 ⟨wf_sortPairs hsort, wf_optPairs (by decide) hfl⟩,
      wf_optPairs (by decide) hdev⟩,
      wf_optPairs (by decide) hpub⟩,
      wf_optPairs (by decide) hgen⟩,
      wf_optPairs (by decide) hpla⟩,
      wf_optPairs (by decide) hrel⟩,
      wf_optPairs (by decide) hrat⟩,
      wf_summaryPairs hsum⟩,
      wf_descPairs hdesc⟩, ?_⟩,
    wf_extraPairs hext⟩
  cases hia : o.include_assets with
  | false => exact fun p hp => absurd hp (List.not_mem_nil p)
  | true =>
    rw [hia] at hassets
    obtain ⟨t1, t2, t3, t4, t5, t6, t7, t8, t9, t10, t11, t12, t13, t14,
      t15⟩ := hassets
    exact List.forall_mem_append.2 ⟨List.forall_mem_append.2 ⟨List.forall_mem_append.2 ⟨List.forall_mem_append.2 ⟨List.forall_mem_append.2 ⟨List.forall_mem_append.2 ⟨List.forall_mem_append.2 ⟨List.forall_mem_append.2 ⟨List.forall_mem_append.2 ⟨List.forall_mem_append.2 ⟨List.forall_mem_append.2 ⟨List.forall_mem_append.2 ⟨List.forall_mem_append.2 ⟨List.forall_mem_append.2 ⟨wf_optPairs (by decide) (plainOpt_of_tokenOpt t1), wf_optPairs (by decide) (plainOpt_of_tokenOpt t2)⟩,
        wf_optPairs (by decide) (plainOpt_of_tokenOpt t3)⟩,
        wf_optPairs (by decide) (plainOpt_of_tokenOpt t4)⟩,
        wf_optPairs (by decide) (plainOpt_of_tokenOpt t5)⟩,
        wf_optPairs (by decide) (plainOpt_of_tokenOpt t6)⟩,
        wf_optPairs (by decide) (plainOpt_of_tokenOpt t7)⟩,
        wf_optPairs (by decide) (plainOpt_of_tokenOpt t8)⟩,
        wf_optPairs (by decide) (plainOpt_of_tokenOpt t9)⟩,
        wf_optPairs (by decide) (plainOpt_of_tokenOpt t10)⟩,
        wf_optPairs (by decide) (plainOpt_of_tokenOpt t11)⟩,
        wf_optPairs (by decide) (plainOpt_of_tokenOpt t12)⟩,
        wf_optPairs (by decide) (plainOpt_of_tokenOpt t13)⟩,
        wf_optPairs (by decide) (plainOpt_of_tokenOpt t14)⟩,
        wf_optPairs (by decide) (plainOpt_of_tokenOpt t15)⟩

theorem collPairs_wf (o : PegasusExportOptions)
    (hext : match o.extensions with
            | some exts => ∀ e ∈ exts, tokenVal e
            | none => True)
    (hl : plainOpt o.launch_command) (hw : plainOpt o.workdir) :
    ∀ p ∈ collPairs o, kvWf p := by
  rw [collPairs]
  refine List.forall_mem_append.2 ⟨List.forall_mem_append.2
    ⟨?_, wf_optPairs (by decide) hl⟩, wf_optPairs (by decide) hw⟩
  intro p hp
  cases hoe : o.extensions with
  | none =>
    rw [hoe] at hp
    exact absurd hp (List.not_mem_nil p)
  | some exts =>
    rw [hoe] at hp hext
    have hp2 : p ∈ (if ¬ exts.isEmpty
        then [("extensions".toList, joinSpace exts)] else []) := hp
    by_cases hie : exts.isEmpty
    · rw [if_neg (fun hc => hc hie)] at hp2
      exact absurd hp2 (List.not_mem_nil p)
    · rw [if_pos hie] at hp2
      have hpv : p = ("extensions".toList, joinSpace exts) := by simpa using hp2
      rw [hpv]
      exact kvWf_of_plain (by decide) (plainVal_joinSpace exts hext)

theorem map_optPairs (K : Str) (x : Option Str) :
    (optPairs K x).map (fun p => kvLine p.1 p.2) = optLine K x := by
  cases x <;> rfl

theorem map_sortPairs (nm : Str) (x : Option Str) :
    (sortPairs nm x).map (fun p => kvLine p.1 p.2)
      = (match x with
         | some st => if st ≠ nm then [kvLine ("sort-by".toList) st] else []
         | none => []) := by
  cases x with
  | none => rfl
  | some st =>
    show ((if st ≠ nm then [("sort-by".toList, st)] else []).map
        (fun p => kvLine p.1 p.2))
      = if st ≠ nm then [kvLine ("sort-by".toList) st] else []
    by_cases h : st ≠ nm
    · rw [if_pos h, if_pos h]
      rfl
    · rw [if_neg h, if_neg h]
      rfl

theorem map_summaryPairs (x : Option Str) :
    (summaryPairs x).map (fun p => kvLine p.1 p.2)
      = (match x with
         | some s => [kvLine ("summary".toList) (replaceNl s)]
         | none => []) := by
  cases x <;> rfl

theorem map_descPairs (x : Option Str)
    (hx : ∀ d, x = some d → plainVal d ∧ d ≠ []) :
    (descPairs x).map (fun p => kvLine p.1 p.2)
      = (match x with
         | some d => multilineLines ("description".toList) d
         | none => []) := by
  cases x with
  | none => rfl
  | some d =>
    obtain ⟨hpl, hne⟩ := hx d rfl
    have hrl : rustLines d = [d] := rustLines_single hpl.2 hne
    show [kvLine ("description".toList) d]
      = multilineLines ("description".toList) d
    rw [multilineLines, hrl]
    rfl

theorem map_filePairs (fs : List Str) :
    ((fs.map (fun f => (("file".toList : Str), f))).map
        (fun p => kvLine p.1 p.2))
      = fs.map (fun f => kvLine ("file".toList) f) := by
  rw [List.map_map]
  apply List.map_congr_left
  intro a ha
  rfl

theorem gameLines_eq (o : PegasusExportOptions) (g : PegasusGame)
    (hdesc : match g.description with
             | some d => plainVal d ∧ d ≠ []
             | none => True) :
    gameLines o g
      = kvLine ("game".toList) g.name
        :: ((gamePairs o g).map (fun p => kvLine p.1 p.2) ++ [[]]) := by
  cases hd : g.description with
  | none =>
    simp only [gameLines, gamePairs, hd, List.map_append, map_optPairs,
      map_sortPairs, map_summaryPairs, map_filePairs, descPairs,
      apply_ite (List.map (fun p : Str × Str => kvLine p.1 p.2)),
      List.map_nil, List.cons_append, List.singleton_append,
      List.append_assoc, List.nil_append, List.append_nil]
  | some d =>
    rw [hd] at hdesc
    have hrl : rustLines d = [d] := rustLines_single hdesc.1.2 hdesc.2
    simp only [gameLines, gamePairs, hd, List.map_append, map_optPairs,
      map_sortPairs, map_summaryPairs, map_filePairs, descPairs,
      multilineLines, hrl,
      apply_ite (List.map (fun p : Str × Str => kvLine p.1 p.2)),
      List.map_nil, List.map_cons, List.cons_append, List.singleton_append,
      List.append_assoc, List.nil_append, List.append_nil]

theorem collectionHeaderLines_eq (o : PegasusExportOptions) (n : Str)
    (hic : o.include_collection = true) (hn : o.collection_name = some n) :
    collectionHeaderLines o
      = kvLine ("collection".toList) n
        :: ((collPairs o).map (fun p => kvLine p.1 p.2) ++ [[]]) := by
  have hel : (match o.extensions with
      | some exts =>
        if ¬ exts.isEmpty then [("extensions".toList, joinSpace exts)] else []
      | none => ([] : List (Str × Str))).map
        (fun p : Str × Str => kvLine p.1 p.2)
      = (match o.extensions with
         | some exts =>
           if ¬ exts.isEmpty then [kvLine ("extensions".toList) (joinSpace exts)]
           else []
         | none => []) := by
    cases o.extensions with
    | none => rfl
    | some exts =>
      show ((if ¬ exts.isEmpty
          then [("extensions".toList, joinSpace exts)] else []).map
          (fun p => kvLine p.1 p.2))
        = if ¬ exts.isEmpty then [kvLine ("extensions".toList) (joinSpace exts)]
          else []
      by_cases hie : exts.isEmpty
      · rw [if_neg (fun hc => hc hie), if_neg (fun hc => hc hie)]
        rfl
      · rw [if_pos hie, if_pos hie]
        rfl
  rw [collectionHeaderLines, if_pos hic, hn, collPairs]
  simp only [List.map_append, map_optPairs, hel, List.append_assoc,
    List.cons_append, List.singleton_append, List.nil_append,
    List.append_nil]

/-! ### Codec round-trip: assembling the whole file -/

theorem foldl_blank (st : ParseState) : List.foldl parseStep st [[]] = st := rfl

theorem fold_collTail (n : Str) (E : List Str) (lc wd : Option Str) :
    List.foldl cstep
      (List.foldl cstep ({ name := n, extensions := E } : PegasusCollection)
        (optPairs ("launch".toList) lc))
      (optPairs ("workdir".toList) wd)
      = { name := n, extensions := E, launch_command := lc, workdir := wd } := by
  have c2 : List.foldl cstep ({ name := n, extensions := E } : PegasusCollection)
      (optPairs ("launch".toList) lc)
      = { name := n, extensions := E, launch_command := lc } := by
    apply fold_optPairC
    · intro v hv
      rw [cstep_launch, hv]
    · intro hx
      rw [hx]
  rw [c2]
  apply fold_optPairC
  · intro v hv
    rw [cstep_workdir, hv]
  · intro hx
    rw [hx]

theorem header_run (o : PegasusExportOptions) (ho : wellFormedOptions o) :
    flushPending (List.foldl parseStep {} (collectionHeaderLines o))
      = ⟨[], [], headColl o, none, none, []⟩ := by
  cases hic : o.include_collection with
  | false =>
    have h1 : collectionHeaderLines o = [] := by
      rw [collectionHeaderLines,
        if_neg (fun h => by rw [hic] at h; exact Bool.noConfusion h)]
    have h2 : headColl o = none := by
      simp [headColl, hic]
    rw [h1, h2]
    rfl
  | true =>
    obtain ⟨hn0, hext, hlc, hwd⟩ := ho hic
    cases hcn : o.collection_name with
    | none =>
      rw [hcn] at hn0
      exact hn0.elim
    | some n =>
      rw [hcn] at hn0
      rw [collectionHeaderLines_eq o n hic hcn]
      rw [List.foldl_cons, parseStep_collection]
      rw [trim_space_cons, hn0.1]
      show flushPending (List.foldl parseStep
          ⟨[], [], some { name := n }, none, none, []⟩
          ((collPairs o).map (fun p => kvLine p.1 p.2) ++ [[]])) = _
      rw [List.foldl_append, foldl_blank]
      rw [kv_run_coll (collPairs o) (collPairs_wf o hext hlc hwd) [] []
        { name := n }]
      refine congrArg
        (fun c => (⟨[], [], c, none, none, []⟩ : ParseState)) ?_
      simp only [headColl, hic, hcn]
      refine congrArg some ?_
      rw [collPairs]
      simp only [List.foldl_append]
      cases hoe : o.extensions with
      | none =>
        show List.foldl cstep
            (List.foldl cstep
              (List.foldl cstep ({ name := n } : PegasusCollection) [])
              (optPairs ("launch".toList) o.launch_command))
            (optPairs ("workdir".toList) o.workdir)
          = { name := n, launch_command := o.launch_command,
              workdir := o.workdir }
        rw [List.foldl_nil]
        exact fold_collTail n [] o.launch_command o.workdir
      | some exts =>
        rw [hoe] at hext
        by_cases hie : exts.isEmpty
        · show List.foldl cstep
              (List.foldl cstep
                (List.foldl cstep ({ name := n } : PegasusCollection)
                  (if ¬ exts.isEmpty
                   then [("extensions".toList, joinSpace exts)] else []))
                (optPairs ("launch".toList) o.launch_command))
              (optPairs ("workdir".toList) o.workdir)
            = { name := n, extensions := if ¬ exts.isEmpty then exts else [],
                launch_command := o.launch_command, workdir := o.workdir }
          rw [if_neg (fun hc => hc hie), if_neg (fun hc => hc hie),
            List.foldl_nil]
          exact fold_collTail n [] o.launch_command o.workdir
        · show List.foldl cstep
              (List.foldl cstep
                (List.foldl cstep ({ name := n } : PegasusCollection)
                  (if ¬ exts.isEmpty
                   then [("extensions".toList, joinSpace exts)] else []))
                (optPairs ("launch".toList) o.launch_command))
              (optPairs ("workdir".toList) o.workdir)
            = { name := n, extensions := if ¬ exts.isEmpty then exts else [],
                launch_command := o.launch_command, workdir := o.workdir }
          rw [if_pos hie, if_pos hie]
          have hx : List.foldl cstep ({ name := n } : PegasusCollection)
              [("extensions".toList, joinSpace exts)]
              = { name := n, extensions := exts } := by
            show cstep { name := n } ("extensions".toList, joinSpace exts) = _
            rw [cstep_extensions,
              splitWs_joinSpace exts (fun w hw => hext w hw)]
          rw [hx]
          exact fold_collTail n exts o.launch_command o.workdir

theorem game_block (o : PegasusExportOptions) (g : PegasusGame)
    (hwf : wellFormedGame o g) (st : ParseState)
    (hv : (flushPending st).curVal = []) :
    flushPending (List.foldl parseStep st (gameLines o g))
      = pushGame (flushPending st) g := by
  have hkey0 := flushPending_curKey st
  have hnm := hwf.1
  have hdesc := hwf.2.2.2.2.2.2.2.2.2.2.1
  rw [gameLines_eq o g hdesc]
  rw [List.foldl_cons, parseStep_game]
  rw [trim_space_cons, hnm.1]
  rw [pushGame]
  generalize hE : flushPending st = E at hv hkey0 ⊢
  obtain ⟨cols, gms, cc, cg, ck, cv⟩ := E
  have hv2 : cv = [] := hv
  have hk2 : ck = none := hkey0
  subst hv2
  subst hk2
  show flushPending (List.foldl parseStep
      ⟨cols, gms ++ cg.toList, cc, some { name := g.name }, none, []⟩
      ((gamePairs o g).map (fun p => kvLine p.1 p.2) ++ [[]])) = _
  rw [List.foldl_append, foldl_blank]
  rw [kv_run (gamePairs o g) (gamePairs_wf o g hwf) cols (gms ++ cg.toList)
    cc { name := g.name }]
  rw [fold_gamePairs o g hwf]

theorem blocks_run (o : PegasusExportOptions) :
    ∀ (gs : List PegasusGame), (∀ g ∈ gs, wellFormedGame o g) →
    ∀ st : ParseState, (flushPending st).curVal = [] →
    flushPending (List.foldl parseStep st (gs.flatMap (gameLines o)))
      = List.foldl pushGame (flushPending st) gs := by
  intro gs
  induction gs with
  | nil => intro _ st _; rfl
  | cons g gs2 ih =>
    intro hwf st hv
    have hg := hwf g (List.mem_cons_self _ _)
    rw [List.flatMap_cons, List.foldl_append]
    have hgb := game_block o g hg st hv
    have hv2 : (flushPending (List.foldl parseStep st (gameLines o g))).curVal
        = [] := by
      rw [hgb]
      exact hv
    rw [ih (fun q hq => hwf q (List.mem_cons_of_mem g hq)) _ hv2, hgb]
    rfl

theorem pushGame_fold :
    ∀ (gs : List PegasusGame) (X : ParseState),
      (List.foldl pushGame X gs).collections = X.collections ∧
      (List.foldl pushGame X gs).curColl = X.curColl ∧
      (List.foldl pushGame X gs).games
          ++ (List.foldl pushGame X gs).curGame.toList
        = X.games ++ X.curGame.toList ++ gs := by
  intro gs
  induction gs with
  | nil => intro X; exact ⟨rfl, rfl, by simp⟩
  | cons g gs2 ih =>
    intro X
    rw [List.foldl_cons]
    obtain ⟨h1, h2, h3⟩ := ih (pushGame X g)
    refine ⟨h1, h2, ?_⟩
    rw [h3]
    show X.games ++ X.curGame.toList ++ [g] ++ gs2
      = X.games ++ X.curGame.toList ++ (g :: gs2)
    simp [List.append_assoc]

theorem noNl_kvLine {k v : Str} (hk : noNl k) (hv : noNl v) :
    noNl (kvLine k v) := by
  intro c hc
  rcases List.mem_append.1 hc with h1 | h2
  · exact hk c h1
  · rcases List.mem_cons.1 h2 with h3 | h4
    · rw [h3]
      exact ⟨by decide, by decide⟩
    · rcases List.mem_cons.1 h4 with h5 | h6
      · rw [h5]
        exact ⟨by decide, by decide⟩
      · exact hv c h6

theorem noNl_exportLines (gs : List PegasusGame) (o : PegasusExportOptions)
    (hgs : ∀ g ∈ gs, wellFormedGame o g) (ho : wellFormedOptions o) :
    ∀ l ∈ exportLines gs o, noNl l := by
  intro l hl
  rw [exportLines] at hl
  rcases List.mem_append.1 hl with h1 | h2
  · cases hic : o.include_collection with
    | false =>
      have hh : collectionHeaderLines o = [] := by
        rw [collectionHeaderLines,
          if_neg (fun h => by rw [hic] at h; exact Bool.noConfusion h)]
      rw [hh] at h1
      exact absurd h1 (List.not_mem_nil l)
    | true =>
      obtain ⟨hn0, hext, hlc, hwd⟩ := ho hic
      cases hcn : o.collection_name with
      | none =>
        rw [hcn] at hn0
        exact hn0.elim
      | some n =>
        rw [hcn] at hn0
        rw [collectionHeaderLines_eq o n hic hcn] at h1
        rcases List.mem_cons.1 h1 with h3 | h4
        · rw [h3]
          exact noNl_kvLine (by decide) hn0.2
        · rcases List.mem_append.1 h4 with h5 | h6
          · obtain ⟨p, hp, hpl⟩ := List.mem_map.1 h5
            have hw := collPairs_wf o hext hlc hwd p hp
            rw [← hpl]
            exact noNl_kvLine hw.2.2.2.2.2.1 hw.2.2.2.2.2.2
          · have h7 : l = [] := by simpa using h6
            rw [h7]
            exact fun c hc => absurd hc (List.not_mem_nil c)
  · obtain ⟨g, hg, hlg⟩ := List.mem_flatMap.1 h2
    have hwfg := hgs g hg
    have hdesc := hwfg.2.2.2.2.2.2.2.2.2.2.1
    rw [gameLines_eq o g hdesc] at hlg
    rcases List.mem_cons.1 hlg with h3 | h4
    · rw [h3]
      exact noNl_kvLine (by decide) hwfg.1.2
    · rcases List.mem_append.1 h4 with h5 | h6
      · obtain ⟨p, hp, hpl⟩ := List.mem_map.1 h5
        have hw := gamePairs_wf o g hwfg p hp
        rw [← hpl]
        exact noNl_kvLine hw.2.2.2.2.2.1 hw.2.2.2.2.2.2
      · have h7 : l = [] := by simpa using h6
        rw [h7]
        exact fun c hc => absurd hc (List.not_mem_nil c)

/-- Scenario (C3): well-formed concrete game for the round-trip witness. -/
def C3wfGame : PegasusGame :=
  { name := "My Game".toList,
    file := some ("rom.zip".toList),
    developer := some ("Dev Co".toList),
    summary := some ("Fun game".toList),
    description := some ("A long description".toList),
    release := some ("1995".toList),
    rating := some ("90%".toList),
    sort_title := some ("game, my".toList),
    box_front := some ("cover.png".toList),
    video := some ("clip.mp4".toList),
    extra := [("x-a".toList, "1".toList), ("x-b".toList, "2".toList)] }

/-- Scenario (C3): export options with a full collection header. -/
def C3opts : PegasusExportOptions :=
  { include_collection := true,
    collection_name := some ("NES".toList),
    extensions := some [("nes".toList), ("zip".toList)],
    launch_command := some ("retroarch %ROM%".toList),
    workdir := some ("/roms".toList),
    include_assets := true }

set_option maxRecDepth 10000 in
/-- C3 (counterexample): the codec round-trip does NOT reproduce every
field of every record set.  A game whose description spans two lines
("a\nb") is exported through `write_multiline_field` and parsed back with
the continuation line joined by a space, so the round-tripped description
is "a b" and the game differs from the original. -/
theorem C3_roundtrip_counterexample :
    C3game.description = some ("a\nb".toList) ∧
    parse_pegasus_content (export_to_pegasus [C3game] {})
      = .ok { collections := [],
              games := [{ C3game with description := some ("a b".toList) }] } ∧
    ({ C3game with description := some ("a b".toList) } : PegasusGame)
      ≠ C3game := by
  exact ⟨rfl, by decide, by decide⟩

/-- C3 (amended): the codec round-trip holds on well-formed record sets:
if every game has single-line trimmed values, no multi-file list, a
non-empty single-line description (when present), a sort title different
from its name, single-token assets (exactly when `include_assets` is set)
and a canonically sorted map of well-formed `x-` extension keys, and the
options carry a collection name whenever a collection header is requested,
then parsing the export reproduces every game exactly and the collections
expected from the options. -/
theorem C3_roundtrip_amended (gs : List PegasusGame) (o : PegasusExportOptions)
    (hgs : ∀ g ∈ gs, wellFormedGame o g) (ho : wellFormedOptions o) :
    parse_pegasus_content (export_to_pegasus gs o)
      = .ok { collections := expectedColls o, games := gs } := by
  simp only [parse_pegasus_content, export_to_pegasus]
  rw [rustLines_joinLines _ (noNl_exportLines gs o hgs ho)]
  rw [exportLines, List.foldl_append]
  have hv0 : (flushPending
      (List.foldl parseStep {} (collectionHeaderLines o))).curVal = [] := by
    rw [header_run o ho]
  rw [blocks_run o gs hgs _ hv0, header_run o ho]
  obtain ⟨h1, h2, h3⟩ := pushGame_fold gs ⟨[], [], headColl o, none, none, []⟩
  rw [h1, h2, h3]
  rfl

set_option maxRecDepth 100000 in
set_option maxHeartbeats 1000000 in
/-- C3 (witness): the amended round-trip at a concrete well-formed game
and fully populated options. -/
theorem C3_roundtrip_witness :
    parse_pegasus_content (export_to_pegasus [C3wfGame] C3opts)
      = .ok { collections := expectedColls C3opts, games := [C3wfGame] } :=
  C3_roundtrip_amended [C3wfGame] C3opts (by decide) (by decide)

end MRRM
